import Mathlib

/-!
# vectorize.h : backend selection and operation contracts

A shallow embedding of `src/vectorize.h`.  The header is a cascade of
preprocessor conditionals over compiler feature macros; every operation macro
is embedded as a Lean function of the feature flags that follows the same
`#if / #elif / #else` chain as the source.  Vectors are lists of lanes, memory
is a list of elements together with the byte address of its first element, and
every operation whose C behaviour is undefined (out-of-bounds access, a
misaligned aligned access, division by zero) returns `none`, as does a macro
whose expansion has no meaning in the configuration (an undeclared type or
function, an intrinsic of an instruction set the build does not enable, an
argument of the wrong type).
-/

namespace Vectorize

/-! ## Feature flags and platform detection (vectorize.h lines 27-77) -/

/-- The compiler feature macros the header tests with `defined(...)`.
`x86_64` is `__x86_64__`, `AVX512F` is `__AVX512F__`, `ARM_NEON__` is
`__ARM_NEON__`, `riscv_v` is `__riscv_v`, and so on.  `AVX512DQ` is
`__AVX512DQ__`: the header never tests it, but it decides whether the AVX-512DQ
intrinsics `_mm512_and_ps`, `_mm512_or_ps` and `_mm512_xor_ps` that the header
uses can be called. -/
structure Flags where
  x86_64 : Bool
  i386 : Bool
  AVX512F : Bool
  AVX512DQ : Bool
  AVX2 : Bool
  AVX : Bool
  SSE : Bool
  SSE4_1 : Bool
  FMA : Bool
  aarch64 : Bool
  ARM_NEON : Bool
  ARM_NEON__ : Bool
  riscv : Bool
  riscv_vector : Bool
  riscv_v : Bool
deriving DecidableEq, Repr

/-- The guard `defined(__x86_64__) || defined(__i386__)` of line 27. -/
def isX86 (f : Flags) : Bool := f.x86_64 || f.i386

/-- Line 29-32: `VEC_IMPL_AVX512` is defined. -/
def VEC_IMPL_AVX512 (f : Flags) : Bool := isX86 f && f.AVX512F

/-- Line 33-36: `VEC_IMPL_AVX` is defined (the `#elif` after AVX-512). -/
def VEC_IMPL_AVX (f : Flags) : Bool := isX86 f && !f.AVX512F && (f.AVX2 || f.AVX)

/-- Line 37-52: `VEC_IMPL_SSE` is defined (the `#elif` after AVX). -/
def VEC_IMPL_SSE (f : Flags) : Bool :=
  isX86 f && !f.AVX512F && !(f.AVX2 || f.AVX) && f.SSE

/-- Line 58-64: `VEC_IMPL_NEON` is defined. -/
def VEC_IMPL_NEON (f : Flags) : Bool :=
  (f.aarch64 || f.ARM_NEON || f.ARM_NEON__) && (!VEC_IMPL_AVX f && !VEC_IMPL_SSE f)

/-- Line 67-71: `VEC_IMPL_RISCV` is defined. -/
def VEC_IMPL_RISCV (f : Flags) : Bool := f.riscv && (f.riscv_vector || f.riscv_v)

/-- Line 74-77: `VEC_IMPL_SCALAR` is defined. -/
def VEC_IMPL_SCALAR (f : Flags) : Bool :=
  !VEC_IMPL_AVX512 f && !VEC_IMPL_AVX f && !VEC_IMPL_SSE f && !VEC_IMPL_NEON f
    && !VEC_IMPL_RISCV f

/-! ## Types and widths (vectorize.h lines 81-114, 746) -/

/-- The backend whose branch of the type chain (lines 81-114) is taken. -/
inductive Backend where
  | AVX512
  | AVX
  | SSE
  | NEON
  | SCALAR
deriving DecidableEq, Repr

/-- The text of the `#error` directive of line 104. -/
def riscvDiagnostic : String :=
  "This library is currently NOT prepared for dynamic-length vector platform. Please use `#include <riscv_vector>` instead."

/-- The type chain of lines 81-114: which branch defines `vfloat32_t`,
`vint_t`, `vmask_t` and `VEC_WIDTH_F`; the `VEC_IMPL_RISCV` branch stops the
build with `#error`. -/
def selectBackend (f : Flags) : Except String Backend :=
  if VEC_IMPL_AVX512 f then .ok .AVX512
  else if VEC_IMPL_AVX f then .ok .AVX
  else if VEC_IMPL_SSE f then .ok .SSE
  else if VEC_IMPL_NEON f then .ok .NEON
  else if VEC_IMPL_RISCV f then .error riscvDiagnostic
  else .ok .SCALAR

/-- The C types the header's typedefs name. -/
inductive CType where
  | m512
  | m512i
  | m256
  | m256i
  | m128
  | m128i
  | float32x4_t
  | int32x4_t
  | uint32x4_t
  | float
  | int
deriving DecidableEq, Repr

/-- Size in bytes of each type (`sizeof`). -/
def CType.sizeof : CType → Nat
  | .m512 => 64
  | .m512i => 64
  | .m256 => 32
  | .m256i => 32
  | .m128 => 16
  | .m128i => 16
  | .float32x4_t => 16
  | .int32x4_t => 16
  | .uint32x4_t => 16
  | .float => 4
  | .int => 4

/-- Number of 32-bit lanes of a type: `sizeof(v) / sizeof(int)`, the
expression line 301 uses. -/
def CType.lanes (t : CType) : Nat := t.sizeof / CType.int.sizeof

/-- The typedef `vfloat32_t` of each branch. -/
def vfloat32_t : Backend → CType
  | .AVX512 => .m512
  | .AVX => .m256
  | .SSE => .m128
  | .NEON => .float32x4_t
  | .SCALAR => .float

/-- The typedef `vint_t` of each branch. -/
def vint_t : Backend → CType
  | .AVX512 => .m512i
  | .AVX => .m256i
  | .SSE => .m128i
  | .NEON => .int32x4_t
  | .SCALAR => .int

/-- The typedef `vmask_t` of each branch. -/
def vmask_t : Backend → CType
  | .AVX512 => .m512
  | .AVX => .m256
  | .SSE => .m128
  | .NEON => .uint32x4_t
  | .SCALAR => .int

/-- The macro `VEC_WIDTH_F` of each branch. -/
def VEC_WIDTH_F : Backend → Nat
  | .AVX512 => 16
  | .AVX => 8
  | .SSE => 4
  | .NEON => 4
  | .SCALAR => 1

/-- Line 746: `#define VEC_WIDTH VEC_WIDTH_F`. -/
def VEC_WIDTH (b : Backend) : Nat := VEC_WIDTH_F b

/-- The lane count the operation macros work with under flags `f`: the
`VEC_WIDTH_F` of the branch of lines 81-114 that is taken (the `VEC_IMPL_RISCV`
branch, after its `#error`, defines it as 1). -/
def width (f : Flags) : Nat :=
  if VEC_IMPL_AVX512 f then 16
  else if VEC_IMPL_AVX f then 8
  else if VEC_IMPL_SSE f then 4
  else if VEC_IMPL_NEON f then 4
  else 1

/-! ## The selection rule in the words of the specification -/

/-- An extension is present when the guard the header tests for it holds:
the x86 guard together with the extension macro, or one of the ARM macros.
The scalar fallback is always available. -/
def extensionPresent (f : Flags) : Backend → Bool
  | .AVX512 => isX86 f && f.AVX512F
  | .AVX => isX86 f && (f.AVX2 || f.AVX)
  | .SSE => isX86 f && f.SSE
  | .NEON => f.aarch64 || f.ARM_NEON || f.ARM_NEON__
  | .SCALAR => true

/-- The fixed priority order of the specification. -/
def priorityOrder : List Backend := [.AVX512, .AVX, .SSE, .NEON, .SCALAR]

/-- First match wins: the first backend of the priority order whose
extension is present. -/
def firstMatch (f : Flags) : Option Backend :=
  priorityOrder.find? (extensionPresent f)

/-! ## Named build configurations -/

/-- An x86-64 build with AVX-512F only (`-mavx512f`). -/
def flagsAVX512 : Flags :=
  ⟨true, false, true, false, true, true, true, true, true, false, false, false, false, false,
    false⟩

/-- An x86-64 build with AVX-512F and AVX-512DQ (`-mavx512f -mavx512dq`). -/
def flagsAVX512DQ : Flags :=
  ⟨true, false, true, true, true, true, true, true, true, false, false, false, false, false,
    false⟩

/-- An x86-64 build with AVX2 and FMA (`-mavx2 -mfma`). -/
def flagsAVX2 : Flags :=
  ⟨true, false, false, false, true, true, true, true, true, false, false, false, false, false,
    false⟩

/-- An x86-64 build with AVX but without AVX2 (`-mavx`). -/
def flagsAVX : Flags :=
  ⟨true, false, false, false, false, true, true, true, false, false, false, false, false, false,
    false⟩

/-- A baseline x86-64 build: SSE/SSE2 only. -/
def flagsSSE : Flags :=
  ⟨true, false, false, false, false, false, true, false, false, false, false, false, false,
    false, false⟩

/-- An x86-64 build with SSE4.1 (`-msse4.1`). -/
def flagsSSE41 : Flags :=
  ⟨true, false, false, false, false, false, true, true, false, false, false, false, false,
    false, false⟩

/-- An AArch64 build. -/
def flagsNEON : Flags :=
  ⟨false, false, false, false, false, false, false, false, false, true, true, false, false,
    false, false⟩

/-- A build with no feature macro at all. -/
def flagsScalar : Flags :=
  ⟨false, false, false, false, false, false, false, false, false, false, false, false, false,
    false, false⟩

/-! ## Lanes -/

/-- An IEEE-754 binary32 lane, held as its 32-bit pattern. -/
structure F32 where
  bits : Fin 4294967296
deriving DecidableEq, Repr

/-- The lane with the given bit pattern (reduced modulo 2^32). -/
def F32.ofBits (n : Nat) : F32 := ⟨Fin.ofNat n⟩

/-- A signed 32-bit lane, held as its value. -/
abbrev I32 := Int

/-- The least `int` value. -/
def INT32_MIN : Int := -2147483648

/-! ## Memory access: load / store (vectorize.h lines 119-194)

A pointer is the byte address `addr` of its pointee together with the list `p`
of the elements of the array from the pointee on. -/

/-- An unaligned vector load of `w` lanes: reads `p[0..w)`; undefined when the
array holds fewer than `w` elements. -/
def loadLanes {α : Type} (w : Nat) (p : List α) : Option (List α) :=
  if w ≤ p.length then some (p.take w) else none

/-- An aligned vector load of `w` 32-bit lanes (`_mm512_load_ps`,
`_mm256_load_ps`, `_mm_load_ps` and their integer forms): the address must be a
multiple of the vector size `4 * w`. -/
def loadLanesAligned {α : Type} (w : Nat) (addr : Nat) (p : List α) : Option (List α) :=
  if addr % (4 * w) = 0 then loadLanes w p else none

/-- An unaligned vector store of a `w`-lane vector: overwrites `p[0..w)` with
the lanes of `v` and returns the array; undefined when the array holds fewer
than `w` elements.  A list of another length is not a value of the vector type. -/
def storeLanes {α : Type} (w : Nat) (p : List α) (v : List α) : Option (List α) :=
  if w ≤ p.length ∧ v.length = w then some (v ++ p.drop w) else none

/-- An aligned vector store of `w` 32-bit lanes. -/
def storeLanesAligned {α : Type} (w : Nat) (addr : Nat) (p : List α) (v : List α) :
    Option (List α) :=
  if addr % (4 * w) = 0 then storeLanes w p v else none

/-- `VEC_LOADU_F(p)`, lines 123, 130, 137, 144, 152. -/
def VEC_LOADU_F (f : Flags) (_addr : Nat) (p : List F32) : Option (List F32) :=
  if VEC_IMPL_AVX512 f then loadLanes 16 p
  else if VEC_IMPL_AVX f then loadLanes 8 p
  else if VEC_IMPL_SSE f then loadLanes 4 p
  else if VEC_IMPL_NEON f then loadLanes 4 p
  else if VEC_IMPL_RISCV f || VEC_IMPL_SCALAR f then loadLanes 1 p
  else none

/-- `VEC_LOAD_F(p)`, lines 124, 131, 138, 147, 153. -/
def VEC_LOAD_F (f : Flags) (addr : Nat) (p : List F32) : Option (List F32) :=
  if VEC_IMPL_AVX512 f then loadLanesAligned 16 addr p
  else if VEC_IMPL_AVX f then loadLanesAligned 8 addr p
  else if VEC_IMPL_SSE f then loadLanesAligned 4 addr p
  else if VEC_IMPL_NEON f then VEC_LOADU_F f addr p
  else if VEC_IMPL_RISCV f || VEC_IMPL_SCALAR f then VEC_LOADU_F f addr p
  else none

/-- `VEC_STOREU_F(p,v)`, lines 125, 132, 139, 146, 154; the result is the
array after the store. -/
def VEC_STOREU_F (f : Flags) (_addr : Nat) (p : List F32) (v : List F32) :
    Option (List F32) :=
  if VEC_IMPL_AVX512 f then storeLanes 16 p v
  else if VEC_IMPL_AVX f then storeLanes 8 p v
  else if VEC_IMPL_SSE f then storeLanes 4 p v
  else if VEC_IMPL_NEON f then storeLanes 4 p v
  else if VEC_IMPL_RISCV f || VEC_IMPL_SCALAR f then storeLanes 1 p v
  else none

/-- `VEC_STORE_F(p,v)`, lines 126, 133, 140, 148, 155. -/
def VEC_STORE_F (f : Flags) (addr : Nat) (p : List F32) (v : List F32) :
    Option (List F32) :=
  if VEC_IMPL_AVX512 f then storeLanesAligned 16 addr p v
  else if VEC_IMPL_AVX f then storeLanesAligned 8 addr p v
  else if VEC_IMPL_SSE f then storeLanesAligned 4 addr p v
  else if VEC_IMPL_NEON f then VEC_STOREU_F f addr p v
  else if VEC_IMPL_RISCV f || VEC_IMPL_SCALAR f then VEC_STOREU_F f addr p v
  else none

/-- `VEC_LOADU_I(p)`, lines 162, 169, 176, 183, 190. -/
def VEC_LOADU_I (f : Flags) (_addr : Nat) (p : List I32) : Option (List I32) :=
  if VEC_IMPL_AVX512 f then loadLanes 16 p
  else if VEC_IMPL_AVX f then loadLanes 8 p
  else if VEC_IMPL_SSE f then loadLanes 4 p
  else if VEC_IMPL_NEON f then loadLanes 4 p
  else if VEC_IMPL_RISCV f || VEC_IMPL_SCALAR f then loadLanes 1 p
  else none

/-- `VEC_LOAD_I(p)`, lines 163, 170, 177, 184, 191. -/
def VEC_LOAD_I (f : Flags) (addr : Nat) (p : List I32) : Option (List I32) :=
  if VEC_IMPL_AVX512 f then loadLanesAligned 16 addr p
  else if VEC_IMPL_AVX f then loadLanesAligned 8 addr p
  else if VEC_IMPL_SSE f then loadLanesAligned 4 addr p
  else if VEC_IMPL_NEON f then VEC_LOADU_I f addr p
  else if VEC_IMPL_RISCV f || VEC_IMPL_SCALAR f then VEC_LOADU_I f addr p
  else none

/-- The backends whose aligned load and store are instructions that demand an
aligned address (the x86 ones); NEON and scalar forward to the unaligned form. -/
def needsAlignment (f : Flags) : Bool :=
  VEC_IMPL_AVX512 f || VEC_IMPL_AVX f || VEC_IMPL_SSE f

/-- The C read `base[i]` with a signed index: undefined outside the array. -/
def readAt {α : Type} (base : List α) (i : Int) : Option α :=
  if 0 ≤ i then base[i.toNat]? else none

/-- The C write `base[i] = x` with a signed index: undefined outside the array. -/
def writeAt {α : Type} (base : List α) (i : Int) (x : α) : Option (List α) :=
  if 0 ≤ i ∧ i.toNat < base.length then some (base.set i.toNat x) else none

/-- The C write `out[k] = x` into a scratch buffer. -/
def setAt {α : Type} (out : List α) (k : Nat) (x : α) : Option (List α) :=
  if k < out.length then some (out.set k x) else none

/-- The loop `for (k = i; k < i + n; ++k) body`, threading the state. -/
def forFrom {σ : Type} (body : Nat → σ → Option σ) : Nat → Nat → σ → Option σ
  | 0, _, s => some s
  | n + 1, i, s => (body i s).bind (forFrom body n (i + 1))

/-- The loop `for (int k = 0; k < n; ++k) body`. -/
def forLoop {σ : Type} (n : Nat) (body : Nat → σ → Option σ) (s : σ) : Option σ :=
  forFrom body n 0 s

/-- A scratch array `T buf[n]`; its initial contents are never read by the
code below before being written, and are taken to be `d`. -/
def scratch {α : Type} (n : Nat) (d : α) : List α := List.replicate n d

/-- The lane assignment `out[k] = base[indices[k]]`: the body of the
emulation loops of lines 591 and 608, and what a native gather does for lane `k`. -/
def gatherBody (base : List F32) (indices : List I32) (k : Nat) (out : List F32) :
    Option (List F32) :=
  (indices[k]?).bind fun i => (readAt base i).bind fun x => setAt out k x

/-- What a native gather instruction of `w` lanes with scale 4 computes from a
float pointer and an index vector: lane `k` is the float at byte offset
`4 * idx[k]` from `base`. -/
def gatherNative (w : Nat) (base : List F32) (idx : List I32) : Option (List F32) :=
  if idx.length = w then
    forLoop w (gatherBody base idx) (scratch w (F32.ofBits 0))
  else none

/-- An argument passed to a gather intrinsic: a pointer to floats or an index
vector. -/
inductive GatherArg where
  | ptr (base : List F32)
  | vec (idx : List I32)

/-- The AVX2 intrinsic `_mm256_i32gather_ps(base_addr, vindex, 4)`: its first
parameter is the pointer, its second the index vector. -/
def mm256_i32gather_ps (base_addr vindex : GatherArg) : Option (List F32) :=
  match base_addr, vindex with
  | .ptr base, .vec idx => gatherNative 8 base idx
  | _, _ => none

/-- The AVX-512 intrinsic `_mm512_i32gather_ps(vindex, base_addr, 4)`: its
first parameter is the index vector, its second the pointer.  A pointer passed
for the index vector, or a vector for the pointer, is not an argument of the
parameter's type. -/
def mm512_i32gather_ps (vindex base_addr : GatherArg) : Option (List F32) :=
  match vindex, base_addr with
  | .vec idx, .ptr base => gatherNative 16 base idx
  | _, _ => none

/-- The extract-and-loop gather of lines 587-593 (SSE) and 604-610 (NEON):
store the index vector to `indices[w]`, fill `out[w]` in a loop, load `out`. -/
def gatherEmulated (w : Nat) (base : List F32) (idx : List I32) : Option (List F32) :=
  (storeLanes w (scratch w (0 : I32)) idx).bind fun indices =>
  (forLoop w (gatherBody base indices) (scratch w (F32.ofBits 0))).bind fun out =>
  loadLanes w out

/-- `VEC_GATHER_F(base, idx)`, lines 562-628.  Line 565 calls
`_mm256_i32gather_ps(base, idx, 4)` and line 579 calls
`_mm512_i32gather_ps((const void*)base, idx, 4)`, each with the pointer first.
The last branch is the scalar function
`float VEC_GATHER_F(const float* base, int idx)`: its index is one `int` and
its result one `float`. -/
def VEC_GATHER_F (f : Flags) (base : List F32) (idx : List I32) : Option (List F32) :=
  if VEC_IMPL_AVX f && f.AVX2 then mm256_i32gather_ps (.ptr base) (.vec idx)
  else if VEC_IMPL_AVX512 f then mm512_i32gather_ps (.ptr base) (.vec idx)
  else if VEC_IMPL_SSE f then gatherEmulated 4 base idx
  else if VEC_IMPL_NEON f then gatherEmulated 4 base idx
  else
    match idx with
    | [i] => (readAt base i).map fun x => [x]
    | _ => none

/-- Body of the loops of lines 573, 599 and 616: `base[indices[k]] = vbuf[k]`. -/
def scatterBody (indices : List I32) (vbuf : List F32) (k : Nat) (base : List F32) :
    Option (List F32) :=
  (indices[k]?).bind fun i => (vbuf[k]?).bind fun x => writeAt base i x

/-- The extract-and-loop scatter of lines 567-574 (AVX2), 594-600 (SSE) and
611-617 (NEON): store index and value vectors to scratch arrays, then write
lane by lane in increasing lane order.  The result is `base` after the call. -/
def scatterEmulated (w : Nat) (base : List F32) (idx : List I32) (vals : List F32) :
    Option (List F32) :=
  (storeLanes w (scratch w (0 : I32)) idx).bind fun indices =>
  (storeLanes w (scratch w (F32.ofBits 0)) vals).bind fun vbuf =>
  forLoop w (scatterBody indices vbuf) base

/-- The native scatter `_mm512_i32scatter_ps(base, idx, vals, 4)`: lane `k`
is written to byte offset `4 * idx[k]`, lanes in increasing order. -/
def scatterNative (w : Nat) (base : List F32) (idx : List I32) (vals : List F32) :
    Option (List F32) :=
  if idx.length = w ∧ vals.length = w then forLoop w (scatterBody idx vals) base else none

/-- `VEC_SCATTER_F(base, idx, vals)`, lines 562-628; the result is `base`
after the call.  The last branch is the scalar function
`void VEC_SCATTER_F(float* base, int idx, float val)`. -/
def VEC_SCATTER_F (f : Flags) (base : List F32) (idx : List I32) (vals : List F32) :
    Option (List F32) :=
  if VEC_IMPL_AVX f && f.AVX2 then scatterEmulated 8 base idx vals
  else if VEC_IMPL_AVX512 f then scatterNative 16 base idx vals
  else if VEC_IMPL_SSE f then scatterEmulated 4 base idx vals
  else if VEC_IMPL_NEON f then scatterEmulated 4 base idx vals
  else
    match idx, vals with
    | [i], [x] => writeAt base i x
    | _, _ => none

/-- Every lane of the index vector is a valid index of an array of `n` elements. -/
def InBounds (n : Nat) (idx : List I32) : Prop := ∀ i ∈ idx, 0 ≤ i ∧ i < (n : Int)

/-- The configurations in which the gather / scatter chain reaches a branch
written for the lane count of the selected backend: every one but an AVX
backend without `__AVX2__`, which falls through to the single-lane functions. -/
def gatherBranchMatches (f : Flags) : Bool := !(VEC_IMPL_AVX f && !f.AVX2)

/-! ## IEEE-754 binary32 comparison -/

/-- The lane is a NaN: exponent field all ones and a non-zero fraction. -/
def F32.isNaN (x : F32) : Bool :=
  (x.bits.val / 8388608) % 256 = 255 && x.bits.val % 8388608 ≠ 0

/-- The sign bit of the lane. -/
def F32.sign (x : F32) : Bool := 2147483648 ≤ x.bits.val

/-- Order key of a non-NaN lane: the magnitude bits, negated when the sign
bit is set.  It is monotone in the value of the float, and both zeros have
key 0. -/
def F32.key (x : F32) : Int :=
  if x.sign then -((x.bits.val % 2147483648 : Nat) : Int)
  else ((x.bits.val % 2147483648 : Nat) : Int)

/-- IEEE `a < b`: false when an operand is NaN. -/
def F32.flt (a b : F32) : Bool := !a.isNaN && !b.isNaN && decide (a.key < b.key)

/-- IEEE `a <= b`: false when an operand is NaN. -/
def F32.fle (a b : F32) : Bool := !a.isNaN && !b.isNaN && decide (a.key ≤ b.key)

/-- IEEE `a == b`: false when an operand is NaN. -/
def F32.feq (a b : F32) : Bool := !a.isNaN && !b.isNaN && decide (a.key = b.key)

/-- Either operand is NaN (`isnan(a) || isnan(b)`). -/
def F32.unord (a b : F32) : Bool := a.isNaN || b.isNaN

/-! ## Comparison (vectorize.h lines 461-544) -/

/-- The comparison predicates `_CMP_*` the header passes to `_mm512_cmp_ps_mask`
and `_mm256_cmp_ps`. -/
inductive CmpImm where
  | EQ_OQ
  | NEQ_UQ
  | LT_OQ
  | LE_OQ
  | GT_OQ
  | GE_OQ
  | ORD_Q
  | UNORD_Q
  | NLT_UQ
  | NLE_UQ
  | NGT_UQ
  | NGE_UQ
deriving DecidableEq, Repr

/-- Lane result of a `_CMP_*` predicate: the `O` (ordered) predicates are false
and the `U` (unordered) predicates true when an operand is NaN. -/
def CmpImm.eval : CmpImm → F32 → F32 → Bool
  | .EQ_OQ, a, b => F32.feq a b
  | .NEQ_UQ, a, b => !F32.feq a b
  | .LT_OQ, a, b => F32.flt a b
  | .LE_OQ, a, b => F32.fle a b
  | .GT_OQ, a, b => F32.flt b a
  | .GE_OQ, a, b => F32.fle b a
  | .ORD_Q, a, b => !F32.unord a b
  | .UNORD_Q, a, b => F32.unord a b
  | .NLT_UQ, a, b => !F32.flt a b
  | .NLE_UQ, a, b => !F32.fle a b
  | .NGT_UQ, a, b => !F32.flt b a
  | .NGE_UQ, a, b => !F32.fle b a

/-- The twelve comparison macros `VEC_CMP<op>_F`. -/
inductive Cmp where
  | EQ
  | NEQ
  | LT
  | LE
  | GT
  | GE
  | ORD
  | UNORD
  | NLT
  | NLE
  | NGT
  | NGE
deriving DecidableEq, Repr

/-- A mask value: a compact bit mask (`__mmask16`, bit `i` for lane `i`) or a
vector of 32-bit lane patterns. -/
inductive Mask where
  | k (bits : Nat)
  | v (lanes : List (Fin 4294967296))
deriving DecidableEq, Repr

/-- The all-ones pattern `0xFFFFFFFF` for true, zero for false. -/
def laneMask (c : Bool) : Fin 4294967296 := if c then 4294967295 else 0

/-- Bitwise complement of a 32-bit pattern (`vmvnq_u32` on one lane). -/
def not32 (m : Fin 4294967296) : Fin 4294967296 := Fin.ofNat (4294967295 - m.val)

/-- Pack lane results into a bit mask, lane 0 in bit 0. -/
def packBits : List Bool → Nat
  | [] => 0
  | c :: cs => (if c then 1 else 0) + 2 * packBits cs

/-- The predicate each macro passes on AVX-512 (lines 463-476) and AVX
(lines 480-492). -/
def avxImm : Cmp → CmpImm
  | .EQ => .EQ_OQ
  | .NEQ => .NEQ_UQ
  | .LT => .LT_OQ
  | .LE => .LE_OQ
  | .GT => .GT_OQ
  | .GE => .GE_OQ
  | .ORD => .ORD_Q
  | .UNORD => .UNORD_Q
  | .NLT => .NLT_UQ
  | .NLE => .NLE_UQ
  | .NGT => .NGT_UQ
  | .NGE => .NGE_UQ

/-- The SSE intrinsic each macro names (lines 496-512), as its lane result:
`_mm_cmpeq_ps`, `_mm_cmpneq_ps`, `_mm_cmplt_ps`, `_mm_cmple_ps`, `_mm_cmpgt_ps`,
`_mm_cmpge_ps`, `_mm_cmpord_ps`, `_mm_cmpunord_ps`; the four not- macros are
defined as `_mm_cmpge_ps`, `_mm_cmpgt_ps`, `_mm_cmple_ps`, `_mm_cmplt_ps`. -/
def ssePred : Cmp → F32 → F32 → Bool
  | .EQ, a, b => F32.feq a b
  | .NEQ, a, b => !F32.feq a b
  | .LT, a, b => F32.flt a b
  | .LE, a, b => F32.fle a b
  | .GT, a, b => F32.flt b a
  | .GE, a, b => F32.fle b a
  | .ORD, a, b => !F32.unord a b
  | .UNORD, a, b => F32.unord a b
  | .NLT, a, b => F32.fle b a
  | .NLE, a, b => F32.flt b a
  | .NGT, a, b => F32.fle a b
  | .NGE, a, b => F32.flt a b

/-- The NEON lane result of each macro (lines 516-528): `vceqq_f32`,
`vmvnq_u32(vceqq_f32)`, `vcltq_f32`, `vcleq_f32`, `vcgtq_f32`, `vcgeq_f32`; the
not- macros expand to `VEC_CMPGE_F`, `VEC_CMPGT_F`, `VEC_CMPLE_F`, `VEC_CMPLT_F`.
`ORD` and `UNORD` are the constants of lines 522-523 and do not look at the
operands. -/
def neonLane : Cmp → F32 → F32 → Fin 4294967296
  | .EQ, a, b => laneMask (F32.feq a b)
  | .NEQ, a, b => not32 (laneMask (F32.feq a b))
  | .LT, a, b => laneMask (F32.flt a b)
  | .LE, a, b => laneMask (F32.fle a b)
  | .GT, a, b => laneMask (F32.flt b a)
  | .GE, a, b => laneMask (F32.fle b a)
  | .ORD, _, _ => 4294967295
  | .UNORD, _, _ => 0
  | .NLT, a, b => laneMask (F32.fle b a)
  | .NLE, a, b => laneMask (F32.flt b a)
  | .NGT, a, b => laneMask (F32.fle a b)
  | .NGE, a, b => laneMask (F32.flt a b)

/-- The scalar expression of each macro (lines 531-543): `==`, `!=`, `<`,
`<=`, `>`, `>=`, `!(isnan(a)||isnan(b))`, `isnan(a)||isnan(b)`; the not- macros
expand to `VEC_CMPGE_F`, `VEC_CMPGT_F`, `VEC_CMPLE_F`, `VEC_CMPLT_F`. -/
def scalarPred : Cmp → F32 → F32 → Bool
  | .EQ, a, b => F32.feq a b
  | .NEQ, a, b => !F32.feq a b
  | .LT, a, b => F32.flt a b
  | .LE, a, b => F32.fle a b
  | .GT, a, b => F32.flt b a
  | .GE, a, b => F32.fle b a
  | .ORD, a, b => !F32.unord a b
  | .UNORD, a, b => F32.unord a b
  | .NLT, a, b => F32.fle b a
  | .NLE, a, b => F32.flt b a
  | .NGT, a, b => F32.fle a b
  | .NGE, a, b => F32.flt a b

/-- The comparison macros `VEC_CMP<op>_F(a,b)`, lines 461-544: a `__mmask16`
on AVX-512, a vector of all-ones / zero lanes elsewhere. -/
def VEC_CMP_F (f : Flags) (op : Cmp) (a b : List F32) : Mask :=
  if VEC_IMPL_AVX512 f then .k (packBits (List.zipWith (avxImm op).eval a b))
  else if VEC_IMPL_AVX f then
    .v (List.zipWith (fun x y => laneMask ((avxImm op).eval x y)) a b)
  else if VEC_IMPL_SSE f then .v (List.zipWith (fun x y => laneMask (ssePred op x y)) a b)
  else if VEC_IMPL_NEON f then .v (List.zipWith (neonLane op) a b)
  else .v (List.zipWith (fun x y => laneMask (scalarPred op x y)) a b)

/-- `VEC_CMPEQ_F(a,b)`. -/
def VEC_CMPEQ_F (f : Flags) (a b : List F32) : Mask := VEC_CMP_F f .EQ a b

/-- `VEC_CMPNEQ_F(a,b)`. -/
def VEC_CMPNEQ_F (f : Flags) (a b : List F32) : Mask := VEC_CMP_F f .NEQ a b

/-- `VEC_CMPLT_F(a,b)`. -/
def VEC_CMPLT_F (f : Flags) (a b : List F32) : Mask := VEC_CMP_F f .LT a b

/-- `VEC_CMPLE_F(a,b)`. -/
def VEC_CMPLE_F (f : Flags) (a b : List F32) : Mask := VEC_CMP_F f .LE a b

/-- `VEC_CMPGT_F(a,b)`. -/
def VEC_CMPGT_F (f : Flags) (a b : List F32) : Mask := VEC_CMP_F f .GT a b

/-- `VEC_CMPGE_F(a,b)`. -/
def VEC_CMPGE_F (f : Flags) (a b : List F32) : Mask := VEC_CMP_F f .GE a b

/-- `VEC_CMPORD_F(a,b)`. -/
def VEC_CMPORD_F (f : Flags) (a b : List F32) : Mask := VEC_CMP_F f .ORD a b

/-- `VEC_CMPUNORD_F(a,b)`. -/
def VEC_CMPUNORD_F (f : Flags) (a b : List F32) : Mask := VEC_CMP_F f .UNORD a b

/-- `VEC_CMPNLT_F(a,b)`. -/
def VEC_CMPNLT_F (f : Flags) (a b : List F32) : Mask := VEC_CMP_F f .NLT a b

/-- `VEC_CMPNLE_F(a,b)`. -/
def VEC_CMPNLE_F (f : Flags) (a b : List F32) : Mask := VEC_CMP_F f .NLE a b

/-- `VEC_CMPNGT_F(a,b)`. -/
def VEC_CMPNGT_F (f : Flags) (a b : List F32) : Mask := VEC_CMP_F f .NGT a b

/-- `VEC_CMPNGE_F(a,b)`. -/
def VEC_CMPNGE_F (f : Flags) (a b : List F32) : Mask := VEC_CMP_F f .NGE a b

/-- The boolean a mask carries in lane `i`: bit `i` of a bit mask, a non-zero
pattern in a vector mask. -/
def Mask.lane : Mask → Nat → Bool
  | .k bits, i => bits.testBit i
  | .v lanes, i =>
    match lanes[i]? with
    | some m => decide (m ≠ 0)
    | none => false

/-! ## Select (vectorize.h lines 679-700) -/

/-- `_mm512_mask_blend_ps(k, a, b)`: lane `j` is `b[j]` when bit `j` of `k` is
set and `a[j]` otherwise. -/
def maskBlend (w : Nat) (k : Nat) (a b : List F32) : List F32 :=
  List.zipWith3 (fun j x y => if k.testBit j then y else x) (List.range w) a b

/-- `_mm256_blendv_ps(a, b, mask)` / `_mm_blendv_ps(a, b, mask)`: lane `j` is
`b[j]` when the sign bit of `mask[j]` is set and `a[j]` otherwise. -/
def blendv (a b : List F32) (mask : List (Fin 4294967296)) : List F32 :=
  List.zipWith3 (fun m x y => if 2147483648 ≤ m.val then y else x) mask a b

/-- One lane of `or(and(mask, b), andnot(mask, a))` and of
`vbslq_u32(mask, b, a)`: the bits of `b` where the mask bit is set, the bits of
`a` elsewhere. -/
def bitSelectLane (m : Fin 4294967296) (x y : F32) : F32 :=
  F32.ofBits ((m.val &&& y.bits.val) ||| ((4294967295 - m.val) &&& x.bits.val))

/-- The bitwise select over all lanes. -/
def bitSelect (mask : List (Fin 4294967296)) (a b : List F32) : List F32 :=
  List.zipWith3 bitSelectLane mask a b

/-- The scalar `(mask) ? (b) : (a)`. -/
def ternary (mask : List (Fin 4294967296)) (a b : List F32) : List F32 :=
  List.zipWith3 (fun m x y => if m ≠ 0 then y else x) mask a b

/-- `VEC_SELECT(mask,a,b)`, lines 679-700.  A mask of the other kind than the
branch expects is not a value of its argument type. -/
def VEC_SELECT (f : Flags) (mask : Mask) (a b : List F32) : Option (List F32) :=
  if VEC_IMPL_AVX512 f then
    match mask with
    | .k bits => some (maskBlend 16 bits a b)
    | .v _ => none
  else
    match mask with
    | .k _ => none
    | .v m =>
      if VEC_IMPL_AVX f then
        if f.SSE4_1 || f.AVX then some (blendv a b m) else some (bitSelect m a b)
      else if VEC_IMPL_SSE f then
        if f.SSE4_1 then some (blendv a b m) else some (bitSelect m a b)
      else if VEC_IMPL_NEON f then some (bitSelect m a b)
      else some (ternary m a b)

/-- A mask lane is canonical when it is one of the two patterns the
comparison instructions produce: all zeros or all ones. -/
def Canonical (m : Fin 4294967296) : Prop := m = 0 ∨ m = 4294967295

/-- The boolean a comparison macro computes for one pair of lanes under the
flags `f`, read off the branch of lines 461-544 that is taken. -/
def cmpLane (f : Flags) (op : Cmp) (x y : F32) : Bool :=
  if VEC_IMPL_AVX512 f then (avxImm op).eval x y
  else if VEC_IMPL_AVX f then (avxImm op).eval x y
  else if VEC_IMPL_SSE f then ssePred op x y
  else if VEC_IMPL_NEON f then decide (neonLane op x y ≠ 0)
  else scalarPred op x y

/-! ## Integer division and remainder (vectorize.h lines 259-325) -/

/-- The type `vint_t` under flags `f` (lines 83, 88, 93, 98, 106, 111). -/
def vintOf (f : Flags) : CType :=
  if VEC_IMPL_AVX512 f then .m512i
  else if VEC_IMPL_AVX f then .m256i
  else if VEC_IMPL_SSE f then .m128i
  else if VEC_IMPL_NEON f then .int32x4_t
  else .int

/-- What a scatter leaves in `base'`: the length is kept, a position no
lane of `idx[i .. n)` names keeps its element, and a position named by lane `j`
and by no later lane holds `vals[j]`. -/
def ScatterPost (i n : Nat) (base base' : List F32) (idx : List I32) (vals : List F32) :
    Prop :=
  base'.length = base.length ∧
  (∀ m : Nat, (∀ j, i ≤ j → j < n → idx[j]? ≠ some (m : Int)) → base'[m]? = base[m]?) ∧
  (∀ j, i ≤ j → j < n → (∀ j', j < j' → j' < n → idx[j']? ≠ idx[j]?) →
    (idx[j]?).bind (readAt base') = vals[j]?)

/-! ## IEEE-754 binary32 arithmetic

The lane arithmetic every backend's add / sub / mul / div instruction and the C
operators on `float` perform: the exact result rounded to nearest, ties to even.
A NaN result is the default quiet NaN. -/

/-- The biased exponent field. -/
def F32.expField (x : F32) : Nat := (x.bits.val / 8388608) % 256

/-- The fraction field. -/
def F32.frac (x : F32) : Nat := x.bits.val % 8388608

/-- The lane is an infinity. -/
def F32.isInf (x : F32) : Bool := x.expField = 255 && x.frac = 0

/-- The lane is neither an infinity nor a NaN. -/
def F32.isFinite (x : F32) : Bool := x.expField ≠ 255

/-- The lane is a zero of either sign. -/
def F32.isZero (x : F32) : Bool := x.expField = 0 && x.frac = 0

/-- Integer significand of a finite lane. -/
def F32.mant (x : F32) : Nat := if x.expField = 0 then x.frac else 8388608 + x.frac

/-- Binary exponent of the last place of a finite lane. -/
def F32.expo (x : F32) : Int := if x.expField = 0 then -149 else (x.expField : Int) - 150

/-- Signed integer significand of a finite lane. -/
def F32.smant (x : F32) : Int := if x.sign then -(x.mant : Int) else (x.mant : Int)

/-- The exact value of a finite lane: `smant * 2 ^ expo`. -/
def F32.toRat (x : F32) : ℚ := (x.smant : ℚ) * (2 : ℚ) ^ x.expo

/-- The default quiet NaN. -/
def F32.qNaN : F32 := F32.ofBits 0x7FC00000

/-- The lane with the given sign and magnitude bits. -/
def F32.ofMag (s : Bool) (mag : Nat) : F32 := F32.ofBits (mag + if s then 2147483648 else 0)

/-- Zero with the given sign. -/
def F32.zero (s : Bool) : F32 := F32.ofMag s 0

/-- Infinity with the given sign. -/
def F32.inf (s : Bool) : F32 := F32.ofMag s 0x7F800000

/-- Negation: the sign bit flipped. -/
def F32.neg (x : F32) : F32 := F32.ofBits (x.bits.val + 2147483648)

/-- Position of the highest set bit of `n` (0 for `n < 2`), by halving; the
first argument bounds the number of halvings. -/
def ilog2 : Nat → Nat → Nat
  | 0, _ => 0
  | fuel + 1, n => if n < 2 then 0 else ilog2 fuel (n / 2) + 1

/-- Magnitude bits of the positive rational `num / den` rounded to nearest,
ties to even; infinity on overflow. -/
def roundMag (num den : Nat) : Nat :=
  if num = 0 then 0 else
  let k0 : Int := (ilog2 num num : Int) - (ilog2 den den : Int)
  let k : Int := if num * 2 ^ (-k0).toNat < den * 2 ^ k0.toNat then k0 - 1 else k0
  let e : Int := max (k - 23) (-149)
  let n := num * 2 ^ (-e).toNat
  let d := den * 2 ^ e.toNat
  let q := n / d
  let r := n % d
  let m := if d < 2 * r ∨ (2 * r = d ∧ q % 2 = 1) then q + 1 else q
  let b := (e + 149).toNat * 8388608 + m
  if 2139095040 ≤ b then 2139095040 else b

/-- The exact value `s * 2 ^ e`, for a non-zero integer `s`, rounded. -/
def roundDyadic (s : Int) (e : Int) : F32 :=
  F32.ofMag (decide (s < 0)) (roundMag (s.natAbs * 2 ^ e.toNat) (2 ^ (-e).toNat))

/-- IEEE addition. -/
def F32.add (a b : F32) : F32 :=
  if a.isNaN || b.isNaN then F32.qNaN
  else if a.isInf then (if b.isInf && (a.sign != b.sign) then F32.qNaN else a)
  else if b.isInf then b
  else
    let e := min a.expo b.expo
    let s := a.smant * ((2 ^ (a.expo - e).toNat : Nat) : Int) +
      b.smant * ((2 ^ (b.expo - e).toNat : Nat) : Int)
    if s = 0 then F32.zero (a.sign && b.sign) else roundDyadic s e

/-- IEEE subtraction. -/
def F32.sub (a b : F32) : F32 := F32.add a b.neg

/-- IEEE multiplication. -/
def F32.mul (a b : F32) : F32 :=
  if a.isNaN || b.isNaN then F32.qNaN
  else if (a.isInf && b.isZero) || (a.isZero && b.isInf) then F32.qNaN
  else if a.isInf || b.isInf then F32.inf (a.sign != b.sign)
  else if a.isZero || b.isZero then F32.zero (a.sign != b.sign)
  else roundDyadic (a.smant * b.smant) (a.expo + b.expo)

/-- IEEE division. -/
def F32.div (a b : F32) : F32 :=
  if a.isNaN || b.isNaN then F32.qNaN
  else if (a.isInf && b.isInf) || (a.isZero && b.isZero) then F32.qNaN
  else if a.isInf || b.isZero then F32.inf (a.sign != b.sign)
  else if b.isInf || a.isZero then F32.zero (a.sign != b.sign)
  else
    let e := a.expo - b.expo
    F32.ofMag (a.sign != b.sign) (roundMag (a.mant * 2 ^ e.toNat) (b.mant * 2 ^ (-e).toNat))

/-- Fused multiply-add: `a * b + c` with one rounding. -/
def F32.fma (a b c : F32) : F32 :=
  if a.isNaN || b.isNaN || c.isNaN then F32.qNaN
  else if (a.isInf && b.isZero) || (a.isZero && b.isInf) then F32.qNaN
  else if a.isInf || b.isInf then
    (if c.isInf && (c.sign != (a.sign != b.sign)) then F32.qNaN
      else F32.inf (a.sign != b.sign))
  else if c.isInf then c
  else
    let pe := a.expo + b.expo
    let e := min pe c.expo
    let s := a.smant * b.smant * ((2 ^ (pe - e).toNat : Nat) : Int) +
      c.smant * ((2 ^ (c.expo - e).toNat : Nat) : Int)
    if s = 0 then F32.zero ((a.sign != b.sign) && c.sign) else roundDyadic s e

/-- The value of a finite lane truncated toward zero, as an integer. -/
def F32.truncInt (x : F32) : Int :=
  if 0 ≤ x.expo then x.smant * ((2 ^ x.expo.toNat : Nat) : Int)
  else Int.tdiv x.smant ((2 ^ (-x.expo).toNat : Nat) : Int)

/-- The greatest integer not above the value of a finite lane. -/
def F32.floorInt (x : F32) : Int :=
  if 0 ≤ x.expo then x.smant * ((2 ^ x.expo.toNat : Nat) : Int)
  else x.smant / ((2 ^ (-x.expo).toNat : Nat) : Int)

/-- Conversion of an integer to the nearest lane (`(float)n`). -/
def F32.ofInt (n : Int) : F32 := if n = 0 then F32.zero false else roundDyadic n 0

/-- The floor instruction on one lane (`floorf`, `_mm_floor_ps`): NaN and
infinities pass through, a zero result keeps the sign of the operand. -/
def F32.floor (a : F32) : F32 :=
  if a.isNaN then F32.qNaN
  else if a.isInf then a
  else if 0 ≤ a.expo then a
  else if a.floorInt = 0 then F32.zero a.sign else roundDyadic a.floorInt 0

/-- The greatest `int` value. -/
def INT32_MAX : Int := 2147483647

/-! ## Conversion (vectorize.h lines 327-346) -/

/-- One lane of `vcvtq_s32_f32`: truncation toward zero, saturating; NaN
gives 0. -/
def vcvtLane (x : F32) : Int :=
  if x.isNaN then 0
  else if x.isInf then (if x.sign then INT32_MIN else INT32_MAX)
  else if x.truncInt < INT32_MIN then INT32_MIN
  else if INT32_MAX < x.truncInt then INT32_MAX
  else x.truncInt

/-- The C cast `(int)(a)`: truncation toward zero, undefined when the
truncated value is not an `int`. -/
def castInt (x : F32) : Option Int :=
  if x.isFinite && decide (INT32_MIN ≤ x.truncInt) && decide (x.truncInt ≤ INT32_MAX)
  then some x.truncInt else none

/-- `VEC_I2F(a)`, lines 329-346: `_mm256_cvtepi32_ps`, `_mm_cvtepi32_ps`,
`_mm512_cvtepi32_ps`, `vcvtq_f32_s32`, `(float)(a)`, each rounding to nearest. -/
def VEC_I2F (_f : Flags) (a : List I32) : List F32 := a.map F32.ofInt

/-! ## Elementwise float arithmetic (vectorize.h lines 199-257) -/

/-- `VEC_ADD_F(a,b)`: `_mm512_add_ps`, `_mm256_add_ps`, `_mm_add_ps`, `vaddq_f32`,
`(a)+(b)`; each is the lane-wise IEEE addition. -/
def VEC_ADD_F (_f : Flags) (a b : List F32) : List F32 := List.zipWith F32.add a b

/-- `VEC_SUB_F(a,b)`: `_mm512_sub_ps`, `_mm256_sub_ps`, `_mm_sub_ps`, `vsubq_f32`,
`(a)-(b)`. -/
def VEC_SUB_F (_f : Flags) (a b : List F32) : List F32 := List.zipWith F32.sub a b

/-- `VEC_MUL_F(a,b)`: `_mm512_mul_ps`, `_mm256_mul_ps`, `_mm_mul_ps`, `vmulq_f32`,
`(a)*(b)`. -/
def VEC_MUL_F (_f : Flags) (a b : List F32) : List F32 := List.zipWith F32.mul a b

/-- `VEC_DIV_F(a,b)`: `_mm512_div_ps`, `_mm256_div_ps`, `_mm_div_ps`, `vdivq_f32`,
`(a)/(b)`. -/
def VEC_DIV_F (_f : Flags) (a b : List F32) : List F32 := List.zipWith F32.div a b

/-- One lane of `floorq_f32` (lines 238-244): truncate through
`vcvtq_s32_f32` and `vcvtq_f32_s32`, compare with `vcgtq_f32`, and select
`fi - 1.0f` where the truncated value exceeds the operand. -/
def floorqLane (a : F32) : F32 :=
  let i := vcvtLane a
  let fi := F32.ofInt i
  let mask := laneMask (F32.flt a fi)
  let one := F32.ofBits 0x3F800000
  bitSelectLane mask fi (F32.sub fi one)

/-- The function `floorq_f32` of lines 238-244. -/
def floorq_f32 (a : List F32) : List F32 := a.map floorqLane

/-- `VEC_FLOOR_F(a)`, lines 206, 216, 226, 237, 254: `_mm512_floor_ps`,
`_mm256_floor_ps`, `_mm_floor_ps`, the emulation `floorq_f32` on NEON, `floorf`.
`_mm_floor_ps` is an SSE4.1 intrinsic declared in `smmintrin.h`, which lines
48-50 include only under `__SSE4_1__`; the SSE branch of line 226 uses it
without that test, so on an SSE build without `__SSE4_1__` the macro names an
undeclared function and has no value. -/
def VEC_FLOOR_F (f : Flags) (a : List F32) : Option (List F32) :=
  if VEC_IMPL_AVX512 f then some (a.map F32.floor)
  else if VEC_IMPL_AVX f then some (a.map F32.floor)
  else if VEC_IMPL_SSE f then (if f.SSE4_1 then some (a.map F32.floor) else none)
  else if VEC_IMPL_NEON f then some (floorq_f32 a)
  else some (a.map F32.floor)

/-- `VEC_MOD_F(a,b)`, lines 207, 217, 228, 245, 255: the same expansion over the
macros of the selected branch in each of the five branches; it has a value
where its `VEC_FLOOR_F` has one. -/
def VEC_MOD_F (f : Flags) (a b : List F32) : Option (List F32) :=
  if VEC_IMPL_AVX512 f then
    (VEC_FLOOR_F f (VEC_DIV_F f a b)).map fun fl => VEC_SUB_F f a (VEC_MUL_F f b fl)
  else if VEC_IMPL_AVX f then
    (VEC_FLOOR_F f (VEC_DIV_F f a b)).map fun fl => VEC_SUB_F f a (VEC_MUL_F f b fl)
  else if VEC_IMPL_SSE f then
    (VEC_FLOOR_F f (VEC_DIV_F f a b)).map fun fl => VEC_SUB_F f a (VEC_MUL_F f b fl)
  else if VEC_IMPL_NEON f then
    (VEC_FLOOR_F f (VEC_DIV_F f a b)).map fun fl => VEC_SUB_F f a (VEC_MUL_F f b fl)
  else
    (VEC_FLOOR_F f (VEC_DIV_F f a b)).map fun fl => VEC_SUB_F f a (VEC_MUL_F f b fl)

/-- The floor function of the selected branch is declared: every
configuration but an SSE build without `__SSE4_1__`. -/
def floorDeclared (f : Flags) : Bool := !VEC_IMPL_SSE f || f.SSE4_1

/-- The floor of one lane under flags `f` where the branch's floor is
declared: the native floor, or the NEON emulation. -/
def floorLane (f : Flags) (x : F32) : F32 :=
  if VEC_IMPL_AVX512 f then F32.floor x
  else if VEC_IMPL_AVX f then F32.floor x
  else if VEC_IMPL_SSE f then F32.floor x
  else if VEC_IMPL_NEON f then floorqLane x
  else F32.floor x

/-- The formula of the specification on one lane: `a - b * floor(a / b)`,
each operation rounded. -/
def modLane (f : Flags) (a b : F32) : F32 :=
  F32.sub a (F32.mul b (floorLane f (F32.div a b)))

/-! ## Fused multiply-add (vectorize.h lines 348-372) -/

/-- The two expansions of `VEC_FMA_F`: a native fused instruction
(`_mm512_fmadd_ps`, `_mm256_fmadd_ps`, `_mm_fmadd_ps`) or
`VEC_ADD_F(VEC_MUL_F(a,b), c)`. -/
inductive FmaLowering where
  | fused
  | mulThenAdd
deriving DecidableEq, Repr

/-- Which expansion of `VEC_FMA_F` the chain of lines 349-372 selects. -/
def VEC_FMA_F_lowering (f : Flags) : FmaLowering :=
  if f.FMA || f.AVX2 || f.AVX then
    if VEC_IMPL_AVX512 f then .fused
    else if VEC_IMPL_AVX f then .fused
    else if VEC_IMPL_SSE f && f.FMA then .fused
    else .mulThenAdd
  else .mulThenAdd

/-- `VEC_FMA_F(a,b,c)`, lines 349-372. -/
def VEC_FMA_F (f : Flags) (a b c : List F32) : List F32 :=
  if f.FMA || f.AVX2 || f.AVX then
    if VEC_IMPL_AVX512 f then List.zipWith3 F32.fma a b c
    else if VEC_IMPL_AVX f then List.zipWith3 F32.fma a b c
    else if VEC_IMPL_SSE f && f.FMA then List.zipWith3 F32.fma a b c
    else VEC_ADD_F f (VEC_MUL_F f a b) c
  else VEC_ADD_F f (VEC_MUL_F f a b) c

/-- An x86-64 build with AVX2 but without FMA (`-mavx2`). -/
def flagsAVX2noFMA : Flags :=
  ⟨true, false, false, false, true, true, true, true, false, false, false, false, false, false,
    false⟩

/-! ## Index normalisation (vectorize.h lines 641-668) -/

/-- The signed 32-bit value with the same low 32 bits as `n`. -/
def wrap32 (n : Int) : Int := (n + 2147483648) % 4294967296 - 2147483648

/-- The 32-bit two's complement pattern of `n`. -/
def toU32 (n : Int) : Nat := (n % 4294967296).toNat

/-- Bitwise and of two 32-bit integer lanes (one lane of `_mm_and_si128`,
`vandq_s32`, the C operator `&` on `int`). -/
def and32 (x y : Int) : Int := wrap32 ((toU32 x &&& toU32 y : Nat) : Int)

/-- Wrapping addition of two 32-bit integer lanes (one lane of
`_mm_add_epi32`, `vaddq_s32`). -/
def add32 (x y : Int) : Int := wrap32 (x + y)

/-- The C expression `x + y` on `int`: undefined on overflow. -/
def caddInt (x y : Int) : Option Int :=
  if INT32_MIN ≤ x + y ∧ x + y ≤ INT32_MAX then some (x + y) else none

/-- The vector branches of `VEC_NORMALIZE_INDEX`: `mask = set1(255)`,
`t = and(idx, mask)`, `b = set1(base)`, `add(t, b)`. -/
def normalizeVector (w : Nat) (idx : List I32) (base : Int) : List I32 :=
  let mask := List.replicate w (255 : Int)
  let t := List.zipWith and32 idx mask
  let b := List.replicate w base
  List.zipWith add32 t b

/-- `VEC_NORMALIZE_INDEX(idx, base)`, lines 642-668.  The last branch is the
scalar statement `idx = (idx & 255) + base` on an `int`. -/
def VEC_NORMALIZE_INDEX (f : Flags) (idx : List I32) (base : Int) : Option (List I32) :=
  if VEC_IMPL_AVX512 f then some (normalizeVector 16 idx base)
  else if VEC_IMPL_AVX f && f.AVX2 then some (normalizeVector 8 idx base)
  else if VEC_IMPL_SSE f then some (normalizeVector 4 idx base)
  else if VEC_IMPL_NEON f then some (normalizeVector 4 idx base)
  else
    match idx with
    | [x] => (caddInt (and32 x 255) base).map fun r => [r]
    | _ => none

/-! ## Masked store (vectorize.h lines 726-743) -/

/-- The type names the masked load / store macros and the typedefs of lines
81-114 mention. -/
inductive TypeName where
  | vfloat32_t
  | vint_t
  | vmask_t
  | vvfloat32_t
deriving DecidableEq, Repr

/-- The names the header declares with `typedef` (lines 82-84 and their
siblings): `vfloat32_t`, `vint_t` and `vmask_t`.  `vvfloat32_t`, the type the
fallback macros of lines 733-742 declare their temporaries with, is declared
nowhere. -/
def typeDeclared : TypeName → Bool
  | .vfloat32_t => true
  | .vint_t => true
  | .vmask_t => true
  | .vvfloat32_t => false

/-- `_mm512_mask_storeu_ps(dst, k, src)`: lane `j` of `src` is written to
`dst[j]` when bit `j` of `k` is set; the other elements are not touched. -/
def maskStoreNative (dst : List F32) (k : Nat) (src : List F32) : Option (List F32) :=
  if 16 ≤ dst.length ∧ src.length = 16 then
    some (maskBlend 16 k (dst.take 16) src ++ dst.drop 16)
  else none

/-- The statements of the fallback `VEC_MASK_STOREU_F` (lines 739-741):
`_cur = VEC_LOADU_F(dst)`, `_merged = VEC_SELECT(mask, _cur, src)`,
`VEC_STOREU_F(dst, _merged)`. -/
def maskStoreBody (f : Flags) (dst : List F32) (mask : Mask) (src : List F32) :
    Option (List F32) :=
  (VEC_LOADU_F f 0 dst).bind fun cur =>
  (VEC_SELECT f mask cur src).bind fun merged =>
  VEC_STOREU_F f 0 dst merged

/-- `VEC_MASK_STOREU_F(dst, mask, src)`, lines 727-743; the result is `dst`
after the call.  The fallback declares `_cur` and `_merged` with the type name
`vvfloat32_t`, so its statements have a meaning only if that name is declared. -/
def VEC_MASK_STOREU_F (f : Flags) (dst : List F32) (mask : Mask) (src : List F32) :
    Option (List F32) :=
  if VEC_IMPL_AVX512 f then
    match mask with
    | .k bits => maskStoreNative dst bits src
    | .v _ => none
  else if typeDeclared .vvfloat32_t then maskStoreBody f dst mask src
  else none

/-! ## Byte gather (vectorize.h lines 703-724) -/

/-- Body of the loops of lines 707, 711, 715 and 719:
`out[k] = (int)base[indices[k]]`, the byte zero-extended. -/
def gatherU8Body (base : List (Fin 256)) (indices : List I32) (k : Nat) (out : List I32) :
    Option (List I32) :=
  (indices[k]?).bind fun i => (readAt base i).bind fun x => setAt out k ((x.val : Nat) : Int)

/-- The vector branches of `VEC_GATHER_U8`: store the index vector to
`indices[w]`, fill `out[w]` in a loop, load `out`. -/
def gatherU8Emulated (w : Nat) (base : List (Fin 256)) (idx : List I32) :
    Option (List I32) :=
  (storeLanes w (scratch w (0 : I32)) idx).bind fun indices =>
  (forLoop w (gatherU8Body base indices) (scratch w (0 : I32))).bind fun out =>
  loadLanes w out

/-- `VEC_GATHER_U8(base, idx)`, lines 704-724.  The last branch is the scalar
statement `return (int)base[idx];` with `idx` one `int`. -/
def VEC_GATHER_U8 (f : Flags) (base : List (Fin 256)) (idx : List I32) :
    Option (List I32) :=
  if VEC_IMPL_AVX f && f.AVX2 then gatherU8Emulated 8 base idx
  else if VEC_IMPL_AVX512 f then gatherU8Emulated 16 base idx
  else if VEC_IMPL_SSE f then gatherU8Emulated 4 base idx
  else if VEC_IMPL_NEON f then gatherU8Emulated 4 base idx
  else
    match idx with
    | [i] => (readAt base i).map fun x => [((x.val : Nat) : Int)]
    | _ => none

/-- Lane `k` of a byte gather: the byte at `idx[k]`, zero-extended. -/
def byteLane (base : List (Fin 256)) (idx : List I32) (k : Nat) : Option Int :=
  ((idx[k]?).bind (readAt base)).map fun x => ((x.val : Nat) : Int)

/-- Eight bytes. -/
def sampleBytes : List (Fin 256) := [0, 1, 127, 128, 200, 254, 255, 42]

/-! ## Bitwise logic on float vectors (vectorize.h lines 398-425) -/

/-- A result lane of the float bitwise macros: a float lane (x86), an
unsigned 32-bit lane (NEON), or the value of an `int` expression (scalar). -/
inductive Lane32 where
  | f32 (x : F32)
  | u32 (m : Fin 4294967296)
  | i32 (n : Int)
deriving DecidableEq, Repr

/-- Bitwise xor of two 32-bit integer lanes (the C operator `^` on `int`). -/
def xor32 (x y : Int) : Int := wrap32 ((toU32 x ^^^ toU32 y : Nat) : Int)

/-- Bitwise complement of a 32-bit integer lane (the C operator `~` on `int`). -/
def lnot32 (x : Int) : Int := -x - 1

/-- `VEC_AND_F(a,b)`, lines 400, 405, 410, 416, 421: `_mm512_and_ps`,
`_mm256_and_ps`, `_mm_and_ps`, `vandq_u32`, and the scalar `((a)*(b))`.
`_mm512_and_ps` is an AVX-512DQ intrinsic (`avx512dqintrin.h`): the AVX-512
branch, selected on `__AVX512F__` alone, can call it only in a build with
`__AVX512DQ__`. -/
def VEC_AND_F (f : Flags) (a b : List F32) : Option (List Lane32) :=
  if VEC_IMPL_AVX512 f then
    (if f.AVX512DQ then
      some (List.zipWith (fun x y => .f32 (F32.ofBits (x.bits.val &&& y.bits.val))) a b)
    else none)
  else if VEC_IMPL_AVX f then
    some (List.zipWith (fun x y => .f32 (F32.ofBits (x.bits.val &&& y.bits.val))) a b)
  else if VEC_IMPL_SSE f then
    some (List.zipWith (fun x y => .f32 (F32.ofBits (x.bits.val &&& y.bits.val))) a b)
  else if VEC_IMPL_NEON f then
    some (List.zipWith (fun x y => .u32 (Fin.ofNat (x.bits.val &&& y.bits.val))) a b)
  else some (List.zipWith (fun x y => .f32 (F32.mul x y)) a b)

/-- `VEC_OR_F(a,b)`, lines 401, 406, 411, 417, 422: `_mm512_or_ps`,
`_mm256_or_ps`, `_mm_or_ps`, `vorrq_u32`, and the scalar `((a)+(b))`.
`_mm512_or_ps` is an AVX-512DQ intrinsic, callable only in a build with
`__AVX512DQ__`. -/
def VEC_OR_F (f : Flags) (a b : List F32) : Option (List Lane32) :=
  if VEC_IMPL_AVX512 f then
    (if f.AVX512DQ then
      some (List.zipWith (fun x y => .f32 (F32.ofBits (x.bits.val ||| y.bits.val))) a b)
    else none)
  else if VEC_IMPL_AVX f then
    some (List.zipWith (fun x y => .f32 (F32.ofBits (x.bits.val ||| y.bits.val))) a b)
  else if VEC_IMPL_SSE f then
    some (List.zipWith (fun x y => .f32 (F32.ofBits (x.bits.val ||| y.bits.val))) a b)
  else if VEC_IMPL_NEON f then
    some (List.zipWith (fun x y => .u32 (Fin.ofNat (x.bits.val ||| y.bits.val))) a b)
  else some (List.zipWith (fun x y => .f32 (F32.add x y)) a b)

/-- One lane of the scalar `((int)(a) ^ (int)(b))`. -/
def scalarXorLane (x y : F32) : Option Lane32 :=
  (castInt x).bind fun p => (castInt y).map fun q => .i32 (xor32 p q)

/-- `VEC_XOR_F(a,b)`, lines 402, 407, 412, 418, 423: `_mm512_xor_ps`,
`_mm256_xor_ps`, `_mm_xor_ps`, `veorq_u32`, and the scalar
`((int)(a) ^ (int)(b))`.  `_mm512_xor_ps` is an AVX-512DQ intrinsic, callable
only in a build with `__AVX512DQ__`. -/
def VEC_XOR_F (f : Flags) (a b : List F32) : Option (List Lane32) :=
  if VEC_IMPL_AVX512 f then
    (if f.AVX512DQ then
      some (List.zipWith (fun x y => .f32 (F32.ofBits (x.bits.val ^^^ y.bits.val))) a b)
    else none)
  else if VEC_IMPL_AVX f then
    some (List.zipWith (fun x y => .f32 (F32.ofBits (x.bits.val ^^^ y.bits.val))) a b)
  else if VEC_IMPL_SSE f then
    some (List.zipWith (fun x y => .f32 (F32.ofBits (x.bits.val ^^^ y.bits.val))) a b)
  else if VEC_IMPL_NEON f then
    some (List.zipWith (fun x y => .u32 (Fin.ofNat (x.bits.val ^^^ y.bits.val))) a b)
  else
    match a, b with
    | [x], [y] => (scalarXorLane x y).map fun l => [l]
    | _, _ => none

/-- `VEC_NOT_F(a)`, lines 403, 408, 414, 419, 424: the xor with the all-ones
vector `set1_epi32(-1)` on x86, `vmvnq_u32` on NEON, and the scalar
`(~(int)(a))`.  The AVX-512 branch is `_mm512_xor_ps`, an AVX-512DQ intrinsic,
callable only in a build with `__AVX512DQ__`. -/
def VEC_NOT_F (f : Flags) (a : List F32) : Option (List Lane32) :=
  if VEC_IMPL_AVX512 f then
    (if f.AVX512DQ then
      some (a.map fun x => .f32 (F32.ofBits (x.bits.val ^^^ toU32 (-1))))
    else none)
  else if VEC_IMPL_AVX f then
    some (a.map fun x => .f32 (F32.ofBits (x.bits.val ^^^ toU32 (-1))))
  else if VEC_IMPL_SSE f then
    some (a.map fun x => .f32 (F32.ofBits (x.bits.val ^^^ toU32 (-1))))
  else if VEC_IMPL_NEON f then some (a.map fun x => .u32 (not32 x.bits))
  else
    match a with
    | [x] => (castInt x).map fun p => [.i32 (lnot32 p)]
    | _ => none

/-- The loop `while (cond) body`, threading the state; the first argument
bounds the number of iterations, and running out of it gives no result. -/
def whileLoop {σ : Type} (cond : σ → Bool) (body : σ → Option σ) : Nat → σ → Option σ
  | 0, s => if cond s then none else some s
  | fuel + 1, s => if cond s then (body s).bind (whileLoop cond body fuel) else some s

/-- State of the vectorised add: the loop variable `i`, the array `result`,
and, as a ghost, how many times each index of `result` has been written. -/
structure AddState where
  i : Nat
  result : List F32
  writes : Nat → Nat

/-- One more write to each of the indices `i .. i + n - 1`. -/
def bumpWrites (w : Nat → Nat) (i n : Nat) : Nat → Nat :=
  fun j => if i ≤ j ∧ j < i + n then w j + 1 else w j

/-- Body of the scalar loop of lines 30-32 and of the tail loop of lines
49-51: `result[i] = array1[i] + array2[i]`. -/
def addBody (a b : List F32) (i : Nat) (res : List F32) : Option (List F32) :=
  (a[i]?).bind fun x => (b[i]?).bind fun y => setAt res i (F32.add x y)

/-- The pure scalar loop of lines 30-32. -/
def scalarAdd (a b result : List F32) (n : Nat) : Option (List F32) :=
  forLoop n (addBody a b) result

/-- Body of the vector loop of lines 41-46, at element offset `s.i` of the
three arrays, whose byte addresses are `pa`, `pb`, `pr`. -/
def vecStep (f : Flags) (pa pb pr : Nat) (a b : List F32) (s : AddState) :
    Option AddState :=
  (VEC_LOAD_F f (pa + 4 * s.i) (a.drop s.i)).bind fun v1 =>
  (VEC_LOAD_F f (pb + 4 * s.i) (b.drop s.i)).bind fun v2 =>
  (VEC_STORE_F f (pr + 4 * s.i) (s.result.drop s.i) (VEC_ADD_F f v1 v2)).map fun tl =>
    { i := s.i + width f, result := s.result.take s.i ++ tl,
      writes := bumpWrites s.writes s.i (width f) }

/-- Body of the tail loop of lines 49-51. -/
def tailStep (a b : List F32) (s : AddState) : Option AddState :=
  (addBody a b s.i s.result).map fun r =>
    { i := s.i + 1, result := r, writes := bumpWrites s.writes s.i 1 }

/-- The vectorised add of lines 40-51 over `n` elements: the vector loop
`for (; i + VEC_WIDTH <= N; i += VEC_WIDTH)`, then the tail loop
`for (; i < N; i++)`. -/
def simdAdd (f : Flags) (pa pb pr : Nat) (a b result : List F32) (n : Nat) :
    Option AddState :=
  (whileLoop (fun s => decide (s.i + width f ≤ n)) (vecStep f pa pb pr a b) n
    { i := 0, result := result, writes := fun _ => 0 }).bind fun s =>
  whileLoop (fun s => decide (s.i < n)) (tailStep a b) n s

/-- The three arrays sit at addresses the aligned load and store of the
selected backend accept. -/
def ArraysAligned (f : Flags) (pa pb pr : Nat) : Prop :=
  needsAlignment f = true →
    pa % (4 * width f) = 0 ∧ pb % (4 * width f) = 0 ∧ pr % (4 * width f) = 0

/-- Invariant of both loops of the vectorised add: the indices below `i`
hold the sums and have been written once, the others have not been written. -/
def AddInv (a b : List F32) (n : Nat) (s : AddState) : Prop :=
  s.i ≤ n ∧ s.result.length = n ∧
  (∀ j, j < s.i → s.result[j]? = (List.zipWith F32.add a b)[j]?) ∧
  (∀ j, s.writes j = if j < s.i then 1 else 0)

/-- The array `arr1` of line 7: 1, 2, 3, 4, 0, 0, 0, 0. -/
def arr1 : List F32 :=
  [F32.ofBits 0x3F800000, F32.ofBits 0x40000000, F32.ofBits 0x40400000, F32.ofBits 0x40800000,
   F32.ofBits 0, F32.ofBits 0, F32.ofBits 0, F32.ofBits 0]

/-- The array `arr2` of line 8: eight times 4.2 (as a float, `0x40866666`). -/
def arr2 : List F32 := List.replicate 8 (F32.ofBits 0x40866666)

/-- The array `index_arr` of line 11. -/
def index_arr : List I32 := [0, 1, 2, 3, 4, 5, 6, 7]

/-- Lines 13-19 of `main`: load both arrays, add, load the indices, scatter
the sum into `result`.  The value is `result` after the scatter; `p1`, `p2` and
`pidx` are the byte addresses of the three loaded arrays. -/
def test1 (f : Flags) (p1 p2 pidx : Nat) (a b result : List F32) (indices : List I32) :
    Option (List F32) :=
  (VEC_LOAD_F f p1 a).bind fun vec1 =>
  (VEC_LOAD_F f p2 b).bind fun vec2 =>
  let vec_result := VEC_ADD_F f vec1 vec2
  (VEC_LOAD_I f pidx indices).bind fun index_vec =>
  VEC_SCATTER_F f result index_vec vec_result

/-! ## The expression of `VEC_MOD_F` over other arithmetics -/

/-- The expansion of `VEC_MOD_F(a,b)` (lines 207, 217, 228, 245, 255),
`VEC_SUB_F(a, VEC_MUL_F(b, VEC_FLOOR_F(VEC_DIV_F(a, b))))`, on one lane over
given subtraction, multiplication, division and floor. -/
def modExpr {α : Type} (sub mul div : α → α → α) (floor : α → α) (a b : α) : α :=
  sub a (mul b (floor (div a b)))

/-- The expansion of `VEC_MOD_F` evaluated in exact rational arithmetic. -/
def exactMod (a b : ℚ) : ℚ :=
  modExpr (fun x y => x - y) (fun x y => x * y) (fun x y => x / y)
    (fun x => ((⌊x⌋ : Int) : ℚ)) a b

/-! ## Scaled values of finite lanes -/

/-- The value of the magnitude bits `u` of a finite lane in units of
`2 ^ -149`: the significand shifted by the exponent field. -/
def magScaled (u : Nat) : Nat :=
  (if u / 8388608 = 0 then u % 8388608 else 8388608 + u % 8388608) * 2 ^ (u / 8388608 - 1)

/-- The exact value of a finite lane in units of `2 ^ -149`. -/
def F32.scaled (x : F32) : Int := x.smant * ((2 ^ (x.expo + 149).toNat : Nat) : Int)

/-! ## Sample data -/

/-- The lane 1.0f. -/
def f32One : F32 := F32.ofBits 0x3F800000

/-- The lane 2.0f. -/
def f32Two : F32 := F32.ofBits 0x40000000

/-- The lane 0.0f. -/
def f32Zero : F32 := F32.ofBits 0

/-- A quiet NaN lane. -/
def f32NaN : F32 := F32.ofBits 0x7FC00000

/-- Eight floats: 1, 2, 1, 2, 0, 0, 0, 0. -/
def sampleF : List F32 :=
  [f32One, f32Two, f32One, f32Two, f32Zero, f32Zero, f32Zero, f32Zero]

/-- Eight floats, all 2. -/
def sampleF2 : List F32 := List.replicate 8 f32Two

/-- The `#if` cascade of lines 27-64 followed by the type chain of lines
81-114, over plain booleans, is a priority cascade over the four guards. -/
theorem select_chain (x a5 a s n r : Bool) (e : Except String Backend) :
    (if (x && a5) = true then Except.ok Backend.AVX512
      else if (x && !a5 && a) = true then Except.ok Backend.AVX
      else if (x && !a5 && !a && s) = true then Except.ok Backend.SSE
      else if (n && (!(x && !a5 && a) && !(x && !a5 && !a && s))) = true then
        Except.ok Backend.NEON
      else if r = true then e else Except.ok Backend.SCALAR) =
    (if (x && a5) = true then Except.ok Backend.AVX512
      else if (x && a) = true then Except.ok Backend.AVX
      else if (x && s) = true then Except.ok Backend.SSE
      else if n = true then Except.ok Backend.NEON
      else if r = true then e else Except.ok Backend.SCALAR) := by
  cases x <;> cases a5 <;> cases a <;> cases s <;> cases n <;> rfl

/-- Selection written over the guards of the extensions. -/
theorem selectBackend_eq (f : Flags) :
    selectBackend f =
      if extensionPresent f .AVX512 then .ok .AVX512
      else if extensionPresent f .AVX then .ok .AVX
      else if extensionPresent f .SSE then .ok .SSE
      else if extensionPresent f .NEON then .ok .NEON
      else if VEC_IMPL_RISCV f then .error riscvDiagnostic
      else .ok .SCALAR := by
  simp only [selectBackend, extensionPresent, VEC_IMPL_AVX512, VEC_IMPL_AVX,
    VEC_IMPL_SSE, VEC_IMPL_NEON]
  exact select_chain _ _ _ _ _ _ _

/-- The priority search written as a cascade. -/
theorem firstMatch_eq (f : Flags) :
    firstMatch f =
      if extensionPresent f .AVX512 then some .AVX512
      else if extensionPresent f .AVX then some .AVX
      else if extensionPresent f .SSE then some .SSE
      else if extensionPresent f .NEON then some .NEON
      else some .SCALAR := by
  simp only [firstMatch, priorityOrder, List.find?]
  cases extensionPresent f .AVX512 <;> cases extensionPresent f .AVX <;>
    cases extensionPresent f .SSE <;> cases extensionPresent f .NEON <;> rfl

/-- C1: when the variable-length vector flag is absent, selection resolves
exactly one backend, it is the first match of the priority order
AVX-512, AVX, SSE, NEON, scalar, and it is scalar exactly when none of the
four vector extensions is present. -/
theorem selectBackend_first_match (f : Flags) (h : VEC_IMPL_RISCV f = false) :
    (∃! b, selectBackend f = .ok b) ∧
    (∀ b, selectBackend f = .ok b ↔ firstMatch f = some b) ∧
    (selectBackend f = .ok .SCALAR ↔
      (extensionPresent f .AVX512 = false ∧ extensionPresent f .AVX = false ∧
       extensionPresent f .SSE = false ∧ extensionPresent f .NEON = false)) := by
  rw [selectBackend_eq, firstMatch_eq, h]
  cases extensionPresent f .AVX512 <;> cases extensionPresent f .AVX <;>
    cases extensionPresent f .SSE <;> cases extensionPresent f .NEON <;>
    simp [ExistsUnique]

/-- Witness for C1: an x86-64 build with AVX2 and SSE resolves the AVX backend. -/
theorem selectBackend_first_match_witness :
    (∃! b, selectBackend flagsAVX2 = .ok b) ∧
    (∀ b, selectBackend flagsAVX2 = .ok b ↔ firstMatch flagsAVX2 = some b) ∧
    (selectBackend flagsAVX2 = .ok .SCALAR ↔
      (extensionPresent flagsAVX2 .AVX512 = false ∧ extensionPresent flagsAVX2 .AVX = false ∧
       extensionPresent flagsAVX2 .SSE = false ∧ extensionPresent flagsAVX2 .NEON = false)) :=
  selectBackend_first_match flagsAVX2 (by decide)

/-- C2: selection fails, with the diagnostic of the `#error` directive,
exactly when none of the fixed-width extensions matches and the RISC-V vector
flag is present; in that case neither the scalar backend nor any other is
resolved and `VEC_IMPL_SCALAR` is not defined. -/
theorem selectBackend_error_iff (f : Flags) :
    ((∃ msg, selectBackend f = .error msg) ↔
      (extensionPresent f .AVX512 = false ∧ extensionPresent f .AVX = false ∧
       extensionPresent f .SSE = false ∧ extensionPresent f .NEON = false ∧
       VEC_IMPL_RISCV f = true)) ∧
    ((∃ msg, selectBackend f = .error msg) →
      selectBackend f = .error riscvDiagnostic ∧ selectBackend f ≠ .ok .SCALAR ∧
      (∀ b, selectBackend f ≠ .ok b) ∧ VEC_IMPL_SCALAR f = false) := by
  have hs : VEC_IMPL_RISCV f = true → VEC_IMPL_SCALAR f = false := by
    intro h
    simp [VEC_IMPL_SCALAR, h]
  rw [selectBackend_eq]
  revert hs
  cases extensionPresent f .AVX512 <;> cases extensionPresent f .AVX <;>
    cases extensionPresent f .SSE <;> cases extensionPresent f .NEON <;>
    cases VEC_IMPL_RISCV f <;> simp

/-- C3: the lane count is 16 / 8 / 4 / 4 / 1 for AVX-512 / AVX / SSE / NEON /
scalar, and the float vector, integer vector and mask types of a backend all
have exactly that many 32-bit lanes. -/
theorem width_and_lanes (b : Backend) :
    VEC_WIDTH .AVX512 = 16 ∧ VEC_WIDTH .AVX = 8 ∧ VEC_WIDTH .SSE = 4 ∧
    VEC_WIDTH .NEON = 4 ∧ VEC_WIDTH .SCALAR = 1 ∧
    (vfloat32_t b).lanes = VEC_WIDTH b ∧ (vint_t b).lanes = VEC_WIDTH b ∧
    (vmask_t b).lanes = VEC_WIDTH b := by
  cases b <;> decide

/-- The lane count used by the operations is the `VEC_WIDTH` of the resolved
backend. -/
theorem width_eq_of_select (f : Flags) (b : Backend) (h : selectBackend f = .ok b) :
    width f = VEC_WIDTH b := by
  unfold selectBackend at h
  unfold width
  split_ifs at h ⊢ <;> cases h <;> rfl

/-- The integer vector type the operations see is the `vint_t` of the
resolved backend. -/
theorem vintOf_eq_of_select (f : Flags) (b : Backend) (h : selectBackend f = .ok b) :
    vintOf f = vint_t b := by
  unfold selectBackend at h
  unfold vintOf
  split_ifs at h ⊢ <;> cases h <;> rfl

/-! ## Load / store -/

/-- When no vector backend is selected the scalar branch of the load / store
chains (`VEC_IMPL_RISCV || VEC_IMPL_SCALAR`) is the one taken. -/
theorem scalar_branch (f : Flags) (h1 : VEC_IMPL_AVX512 f = false)
    (h2 : VEC_IMPL_AVX f = false) (h3 : VEC_IMPL_SSE f = false)
    (h4 : VEC_IMPL_NEON f = false) : (VEC_IMPL_RISCV f || VEC_IMPL_SCALAR f) = true := by
  simp [VEC_IMPL_SCALAR, h1, h2, h3, h4]

/-- At most one of the x86 backends is selected, and NEON is selected with
neither AVX nor SSE. -/
theorem impl_exclusive (f : Flags) :
    (VEC_IMPL_AVX512 f = true → VEC_IMPL_AVX f = false ∧ VEC_IMPL_SSE f = false) ∧
    (VEC_IMPL_AVX f = true → VEC_IMPL_SSE f = false ∧ VEC_IMPL_NEON f = false) ∧
    (VEC_IMPL_SSE f = true → VEC_IMPL_NEON f = false) := by
  unfold VEC_IMPL_NEON VEC_IMPL_AVX512 VEC_IMPL_AVX VEC_IMPL_SSE
  cases isX86 f <;> cases f.AVX512F <;> cases (f.AVX2 || f.AVX) <;> cases f.SSE <;>
    cases (f.aarch64 || f.ARM_NEON || f.ARM_NEON__) <;> simp

/-! ## Gather / scatter -/

/-- An in-bounds read succeeds. -/
theorem readAt_inBounds {α : Type} (base : List α) (idx : List I32)
    (hb : InBounds base.length idx) (j : Nat) (hj : j < idx.length) :
    ∃ x, (idx[j]?).bind (readAt base) = some x := by
  have hmem : idx[j] ∈ idx := List.getElem_mem hj
  obtain ⟨h0, h1⟩ := hb _ hmem
  have hlt : (idx[j]).toNat < base.length := (Int.toNat_lt h0).2 h1
  refine ⟨base[(idx[j]).toNat], ?_⟩
  simp [List.getElem?_eq_getElem hj, readAt, h0, List.getElem?_eq_getElem hlt]

/-- The gather loop: started at lane `i` for `n` lanes it fills
`out[i .. i+n)` with `base[indices[j]]` and leaves the lanes below `i`. -/
theorem forFrom_gather (base : List F32) (indices : List I32) :
    ∀ (n i : Nat) (out : List F32), i + n ≤ out.length →
      (∀ j, i ≤ j → j < i + n → ∃ x, (indices[j]?).bind (readAt base) = some x) →
      ∃ out', forFrom (gatherBody base indices) n i out = some out' ∧
        out'.length = out.length ∧
        (∀ j, j < i → out'[j]? = out[j]?) ∧
        (∀ j, i ≤ j → j < i + n → out'[j]? = (indices[j]?).bind (readAt base)) := by
  intro n
  induction n with
  | zero =>
    intro i out _ _
    exact ⟨out, rfl, rfl, fun _ _ => rfl, fun j h1 h2 => by omega⟩
  | succ n ih =>
    intro i out hlen hrd
    obtain ⟨x, hx⟩ := hrd i (Nat.le_refl _) (by omega)
    have hi : i < out.length := by omega
    have hstep : gatherBody base indices i out = some (out.set i x) := by
      unfold gatherBody
      cases hidx : indices[i]? with
      | none => simp [hidx] at hx
      | some a =>
        simp only [hidx, Option.some_bind] at hx ⊢
        simp [hx, setAt, hi]
    obtain ⟨out', ho, hl, hlow, hhigh⟩ := ih (i + 1) (out.set i x)
      (by simp; omega) (fun j h1 h2 => hrd j (by omega) (by omega))
    refine ⟨out', ?_, ?_, ?_, ?_⟩
    · simp [forFrom, hstep, ho]
    · simpa using hl
    · intro j hj
      rw [hlow j (by omega), List.getElem?_set]
      simp [show i ≠ j by omega]
    · intro j h1 h2
      by_cases hji : j = i
      · subst hji
        rw [hlow j (by omega), List.getElem?_set]
        simp [hi, hx]
      · exact hhigh j (by omega) (by omega)

/-- Storing a `w`-lane vector into a scratch array of `w` elements leaves
exactly the vector in it. -/
theorem storeLanes_scratch {α : Type} (w : Nat) (d : α) (v : List α) (h : v.length = w) :
    storeLanes w (scratch w d) v = some v := by
  simp [storeLanes, scratch, h]

/-- The native gather returns `w` lanes, lane `k` being `base[idx[k]]`. -/
theorem gatherNative_spec (w : Nat) (base : List F32) (idx : List I32)
    (hlen : idx.length = w) (hb : InBounds base.length idx) :
    ∃ v, gatherNative w base idx = some v ∧ v.length = w ∧
      ∀ k, k < w → v[k]? = (idx[k]?).bind (readAt base) := by
  obtain ⟨out, ho, hl, _, hh⟩ := forFrom_gather base idx w 0 (scratch w (F32.ofBits 0))
    (by simp [scratch])
    (fun j _ hj => readAt_inBounds base idx hb j (by omega))
  refine ⟨out, ?_, ?_, ?_⟩
  · simp [gatherNative, hlen, forLoop, ho]
  · simpa [scratch] using hl
  · intro k hk
    exact hh k (Nat.zero_le _) (by omega)

/-- The extract-and-loop gather returns `w` lanes, lane `k` being `base[idx[k]]`. -/
theorem gatherEmulated_spec (w : Nat) (base : List F32) (idx : List I32)
    (hlen : idx.length = w) (hb : InBounds base.length idx) :
    ∃ v, gatherEmulated w base idx = some v ∧ v.length = w ∧
      ∀ k, k < w → v[k]? = (idx[k]?).bind (readAt base) := by
  obtain ⟨out, ho, hl, _, hh⟩ := forFrom_gather base idx w 0 (scratch w (F32.ofBits 0))
    (by simp [scratch])
    (fun j _ hj => readAt_inBounds base idx hb j (by omega))
  have hl' : out.length = w := by simpa [scratch] using hl
  refine ⟨out, ?_, hl', ?_⟩
  · simp [gatherEmulated, storeLanes_scratch w 0 idx hlen, forLoop, ho, loadLanes, hl']
  · intro k hk
    exact hh k (Nat.zero_le _) (by omega)

/-- Gather on every configuration whose gather branch is written for the lane
count of the selected backend, AVX-512 apart (whose call of line 579 passes the
arguments of `_mm512_i32gather_ps` in the wrong order): for an index vector of
`WIDTH` in-bounds lanes the result has `WIDTH` lanes and lane `k` is
`base[idx[k]]`. -/
theorem gather_lanes (f : Flags) (base : List F32) (idx : List I32)
    (hcfg : gatherBranchMatches f = true) (h512 : VEC_IMPL_AVX512 f = false)
    (hlen : idx.length = width f) (hb : InBounds base.length idx) :
    ∃ v, VEC_GATHER_F f base idx = some v ∧ v.length = width f ∧
      ∀ k, k < width f → v[k]? = (idx[k]?).bind (readAt base) := by
  have hx := impl_exclusive f
  have hscalar : idx.length = 1 →
      ∃ v, (match idx with
          | [i] => (readAt base i).map fun x => [x]
          | _ => none) = some v ∧ v.length = 1 ∧
        ∀ k, k < 1 → v[k]? = (idx[k]?).bind (readAt base) := by
    intro h1
    obtain ⟨i, rfl⟩ := List.length_eq_one.1 h1
    obtain ⟨x, hx⟩ := readAt_inBounds base [i] hb 0 (by simp)
    simp only [List.getElem?_cons_zero, Option.some_bind] at hx
    refine ⟨[x], by simp [hx], rfl, ?_⟩
    intro k hk
    obtain rfl : k = 0 := by omega
    simp [hx]
  unfold gatherBranchMatches at hcfg
  unfold VEC_GATHER_F mm256_i32gather_ps
  unfold width at *
  cases h2 : VEC_IMPL_AVX f <;>
    cases h3 : VEC_IMPL_SSE f <;> cases h4 : VEC_IMPL_NEON f <;>
    cases h5 : f.AVX2 <;>
    simp only [h512, h2, h3, h4, h5, if_true, if_false, Bool.false_eq_true, Bool.and_false,
      Bool.and_true, Bool.false_and, Bool.true_and, Bool.not_true, Bool.not_false] at * <;>
    first
    | exact gatherNative_spec _ base idx hlen hb
    | exact gatherEmulated_spec _ base idx hlen hb
    | exact hscalar hlen

/-- On an AVX-512 build `VEC_GATHER_F` has no result: line 579 passes the
pointer where `_mm512_i32gather_ps` takes the index vector. -/
theorem gather_avx512_no_result (f : Flags) (h : VEC_IMPL_AVX512 f = true)
    (base : List F32) (idx : List I32) : VEC_GATHER_F f base idx = none := by
  have hx := (impl_exclusive f).1 h
  unfold VEC_GATHER_F
  simp only [h, hx.1, Bool.false_and, Bool.false_eq_true, if_false, if_true]
  rfl

/-- The scatter loop: started at lane `i` for `n` lanes, with every lane
present and in bounds, it succeeds and establishes `ScatterPost`. -/
theorem forFrom_scatter (indices : List I32) (vbuf : List F32) :
    ∀ (n i : Nat) (base : List F32),
      (∀ j, i ≤ j → j < i + n → ∃ a x, indices[j]? = some a ∧ vbuf[j]? = some x ∧
        0 ≤ a ∧ a.toNat < base.length) →
      ∃ base', forFrom (scatterBody indices vbuf) n i base = some base' ∧
        ScatterPost i (i + n) base base' indices vbuf := by
  intro n
  induction n with
  | zero =>
    intro i base _
    exact ⟨base, rfl, rfl, fun _ _ => rfl, fun j h1 h2 => by omega⟩
  | succ n ih =>
    intro i base hok
    obtain ⟨a, x, ha, hx, h0, hlt⟩ := hok i (Nat.le_refl _) (by omega)
    have hstep : scatterBody indices vbuf i base = some (base.set a.toNat x) := by
      simp [scatterBody, ha, hx, writeAt, h0, hlt]
    obtain ⟨base', hb, hl, hframe, hlast⟩ := ih (i + 1) (base.set a.toNat x)
      (fun j h1 h2 => by
        obtain ⟨a', x', e1, e2, e3, e4⟩ := hok j (by omega) (by omega)
        exact ⟨a', x', e1, e2, e3, by simpa using e4⟩)
    have hcast : ((a.toNat : Nat) : Int) = a := Int.toNat_of_nonneg h0
    refine ⟨base', ?_, ?_, ?_, ?_⟩
    · simp [forFrom, hstep, hb]
    · simpa using hl
    · intro m hm
      rw [hframe m (fun j h1 h2 => hm j (by omega) (by omega)), List.getElem?_set]
      have hne : a.toNat ≠ m := by
        intro e
        apply hm i (Nat.le_refl _) (by omega)
        rw [ha, ← e, hcast]
      simp [hne]
    · intro j h1 h2 huniq
      by_cases hji : j = i
      · subst hji
        have hfr := hframe a.toNat (fun j' h1' h2' => by
          rw [hcast, ← ha]
          exact huniq j' (by omega) (by omega))
        rw [List.getElem?_set] at hfr
        simp only [if_true] at hfr
        have hlt' : a.toNat < base.length := hlt
        simp only [hlt', if_true] at hfr
        simp [ha, hx, readAt, h0, hfr]
      · exact hlast j (by omega) (by omega) (fun j' h1' h2' => huniq j' h1' (by omega))

/-- Lanes of an in-bounds index vector and of a value vector of the same
length are all present and valid for an array of the length of `base`. -/
theorem scatter_lanes_ok (base : List F32) (idx : List I32) (vals : List F32) (w : Nat)
    (hi : idx.length = w) (hv : vals.length = w) (hb : InBounds base.length idx) :
    ∀ j, 0 ≤ j → j < 0 + w → ∃ a x, idx[j]? = some a ∧ vals[j]? = some x ∧
      0 ≤ a ∧ a.toNat < base.length := by
  intro j _ hj
  have hj1 : j < idx.length := by omega
  have hj2 : j < vals.length := by omega
  obtain ⟨h0, h1⟩ := hb _ (List.getElem_mem hj1)
  exact ⟨idx[j], vals[j], List.getElem?_eq_getElem hj1, List.getElem?_eq_getElem hj2, h0,
    (Int.toNat_lt h0).2 h1⟩

/-- The extract-and-loop scatter succeeds and establishes `ScatterPost`. -/
theorem scatterEmulated_spec (w : Nat) (base : List F32) (idx : List I32)
    (vals : List F32) (hi : idx.length = w) (hv : vals.length = w)
    (hb : InBounds base.length idx) :
    ∃ base', scatterEmulated w base idx vals = some base' ∧
      ScatterPost 0 w base base' idx vals := by
  obtain ⟨base', h1, h2⟩ := forFrom_scatter idx vals w 0 base
    (scatter_lanes_ok base idx vals w hi hv hb)
  refine ⟨base', ?_, by simpa using h2⟩
  simp [scatterEmulated, storeLanes_scratch w _ idx hi, storeLanes_scratch w _ vals hv,
    forLoop, h1]

/-- The native scatter succeeds and establishes `ScatterPost`. -/
theorem scatterNative_spec (w : Nat) (base : List F32) (idx : List I32)
    (vals : List F32) (hi : idx.length = w) (hv : vals.length = w)
    (hb : InBounds base.length idx) :
    ∃ base', scatterNative w base idx vals = some base' ∧
      ScatterPost 0 w base base' idx vals := by
  obtain ⟨base', h1, h2⟩ := forFrom_scatter idx vals w 0 base
    (scatter_lanes_ok base idx vals w hi hv hb)
  refine ⟨base', ?_, by simpa using h2⟩
  simp [scatterNative, hi, hv, forLoop, h1]

/-- Scatter on every configuration whose scatter branch is written for the
lane count of the selected backend: for `WIDTH` in-bounds index lanes and
`WIDTH` value lanes the call succeeds and establishes `ScatterPost`. -/
theorem scatter_post (f : Flags) (base : List F32) (idx : List I32) (vals : List F32)
    (hcfg : gatherBranchMatches f = true) (hi : idx.length = width f)
    (hv : vals.length = width f) (hb : InBounds base.length idx) :
    ∃ base', VEC_SCATTER_F f base idx vals = some base' ∧
      ScatterPost 0 (width f) base base' idx vals := by
  have hx := impl_exclusive f
  have hscalar : idx.length = 1 → vals.length = 1 →
      ∃ base', (match idx, vals with
          | [i], [x] => writeAt base i x
          | _, _ => none) = some base' ∧ ScatterPost 0 1 base base' idx vals := by
    intro h1 h2
    obtain ⟨base', e1, e2⟩ := scatterNative_spec 1 base idx vals h1 h2 hb
    obtain ⟨i, rfl⟩ := List.length_eq_one.1 h1
    obtain ⟨x, rfl⟩ := List.length_eq_one.1 h2
    refine ⟨base', ?_, e2⟩
    simpa [scatterNative, forLoop, forFrom, scatterBody] using e1
  unfold gatherBranchMatches at hcfg
  unfold VEC_SCATTER_F
  unfold width at *
  cases h1 : VEC_IMPL_AVX512 f <;> cases h2 : VEC_IMPL_AVX f <;>
    cases h3 : VEC_IMPL_SSE f <;> cases h4 : VEC_IMPL_NEON f <;>
    cases h5 : f.AVX2 <;>
    simp only [h1, h2, h3, h4, h5, if_true, if_false, Bool.false_eq_true, Bool.and_false,
      Bool.and_true, Bool.false_and, Bool.true_and, Bool.not_true, Bool.not_false] at * <;>
    first
    | exact scatterNative_spec _ base idx vals hi hv hb
    | exact scatterEmulated_spec _ base idx vals hi hv hb
    | exact hscalar hi hv
    | (exfalso; simp at hx)

/-- On every configuration whose scatter branch is written for the lane
count of the selected backend, after `VEC_SCATTER_F(base, idx, vals)` with
in-bounds indices, `base[idx[k]] == vals[k]` for every lane `k` whose index
occurs in no other lane. -/
theorem scatter_unique_lanes (f : Flags) (base : List F32) (idx : List I32)
    (vals : List F32) (hcfg : gatherBranchMatches f = true) (hi : idx.length = width f)
    (hv : vals.length = width f) (hb : InBounds base.length idx) :
    ∃ base', VEC_SCATTER_F f base idx vals = some base' ∧ base'.length = base.length ∧
      ∀ k, k < width f → (∀ k', k' < width f → k' ≠ k → idx[k']? ≠ idx[k]?) →
        (idx[k]?).bind (readAt base') = vals[k]? := by
  obtain ⟨base', h1, hl, _, hlast⟩ := scatter_post f base idx vals hcfg hi hv hb
  refine ⟨base', h1, hl, ?_⟩
  intro k hk huniq
  exact hlast k (Nat.zero_le _) hk (fun k' h1' h2' => huniq k' h2' (by omega))

/-- C5, evaluated where the code departs from it: an AVX build without
`__AVX2__` selects the AVX backend with `VEC_WIDTH` 8, but the gather chain
falls through to the single-lane function `float VEC_GATHER_F(const float*, int)`:
for an in-bounds index vector of 8 lanes there is no result, and for the one
`int` it accepts the result is one float, not 8 lanes. -/
theorem gather_avx_without_avx2 :
    selectBackend flagsAVX = .ok .AVX ∧ VEC_WIDTH .AVX = 8 ∧ width flagsAVX = 8 ∧
    sampleF.length = 8 ∧
    VEC_GATHER_F flagsAVX sampleF [7, 6, 5, 4, 3, 2, 1, 0] = none ∧
    VEC_GATHER_F flagsAVX sampleF [7] = some [f32Zero] ∧
    VEC_GATHER_F flagsAVX2 sampleF [7, 6, 5, 4, 3, 2, 1, 0] =
      some [f32Zero, f32Zero, f32Zero, f32Zero, f32Two, f32One, f32Two, f32One] := by
  refine ⟨rfl, by decide, by decide, by decide, by decide, by decide, by decide⟩

/-- C6, evaluated where the code departs from it: an AVX build without
`__AVX2__` selects the AVX backend with `VEC_WIDTH` 8, but the scatter chain
falls through to the single-lane function
`void VEC_SCATTER_F(float* base, int idx, float val)`: for 8 in-bounds, pairwise
distinct index lanes and 8 value lanes nothing is written, where the AVX2 build
writes every lane. -/
theorem scatter_avx_without_avx2 :
    selectBackend flagsAVX = .ok .AVX ∧ VEC_WIDTH .AVX = 8 ∧ width flagsAVX = 8 ∧
    sampleF2.length = 8 ∧
    VEC_SCATTER_F flagsAVX sampleF2 [7, 6, 5, 4, 3, 2, 1, 0] sampleF = none ∧
    VEC_SCATTER_F flagsAVX2 sampleF2 [7, 6, 5, 4, 3, 2, 1, 0] sampleF =
      some [f32Zero, f32Zero, f32Zero, f32Zero, f32Two, f32One, f32Two, f32One] := by
  refine ⟨rfl, by decide, by decide, by decide, by decide, by decide⟩

/-! ## Comparison and select -/

/-- Lanes of a three-way `zipWith` over lists of one length. -/
theorem zipWith3_lanes {α β γ δ : Type} (g : α → β → γ → δ) :
    ∀ (w : Nat) (as : List α) (bs : List β) (cs : List γ) (h1 : as.length = w)
      (h2 : bs.length = w) (h3 : cs.length = w),
      (List.zipWith3 g as bs cs).length = w ∧
      ∀ i (hi : i < w), (List.zipWith3 g as bs cs)[i]? =
        some (g (as[i]) (bs[i]) (cs[i])) := by
  intro w
  induction w with
  | zero =>
    intro as bs cs h1 h2 h3
    have e1 := List.length_eq_zero.1 h1
    subst e1
    exact ⟨rfl, fun i hi => by omega⟩
  | succ w ih =>
    intro as bs cs h1 h2 h3
    match as, bs, cs, h1, h2, h3 with
    | x :: as, y :: bs, z :: cs, h1, h2, h3 =>
      obtain ⟨hl, hg⟩ := ih as bs cs (by simpa using h1) (by simpa using h2)
        (by simpa using h3)
      refine ⟨by simp [List.zipWith3, hl], ?_⟩
      intro i hi
      cases i with
      | zero => simp [List.zipWith3]
      | succ i =>
        have := hg i (by omega)
        simpa [List.zipWith3] using this

/-- Bit `i` of a packed mask is the result of lane `i`. -/
theorem testBit_packBits : ∀ (cs : List Bool) (i : Nat),
    (packBits cs).testBit i = (cs[i]?).getD false := by
  intro cs
  induction cs with
  | nil => intro i; simp [packBits]
  | cons c cs ih =>
    intro i
    cases i with
    | zero =>
      rw [Nat.testBit_zero]
      cases c <;> simp [packBits]
    | succ i =>
      rw [Nat.testBit_succ]
      have : ((if c = true then 1 else 0) + 2 * packBits cs) / 2 = packBits cs := by
        cases c
        · simp
        · simp only [if_true]; omega
      simp [packBits, this, ih]

/-- The pattern of a lane result is canonical. -/
theorem canonical_laneMask (c : Bool) : Canonical (laneMask c) := by
  cases c
  · exact Or.inl rfl
  · exact Or.inr rfl

/-- The pattern of a lane result is zero exactly when the result is false. -/
theorem laneMask_eq_zero (c : Bool) : decide (laneMask c = 0) = !c := by
  cases c <;> decide

/-- The pattern of a false lane result. -/
theorem laneMask_false : laneMask false = 0 := rfl

/-- Complementing a canonical lane gives a canonical lane. -/
theorem canonical_not32 (m : Fin 4294967296) (h : Canonical m) : Canonical (not32 m) := by
  rcases h with rfl | rfl
  · exact Or.inr (by decide)
  · exact Or.inl (by decide)

/-- Every NEON comparison lane is canonical. -/
theorem canonical_neonLane (op : Cmp) (x y : F32) : Canonical (neonLane op x y) := by
  cases op <;> simp only [neonLane] <;>
    first
    | exact canonical_laneMask _
    | exact canonical_not32 _ (canonical_laneMask _)
    | exact Or.inr rfl
    | exact Or.inl rfl

/-- Rebuilding a lane from its bit pattern gives the lane back. -/
theorem ofBits_bits (x : F32) : F32.ofBits x.bits.val = x := by
  cases x with
  | mk b =>
    simp only [F32.ofBits]
    congr 1
    apply Fin.ext
    simp [Fin.ofNat, Nat.mod_eq_of_lt b.isLt]

/-- On a canonical mask lane the sign-bit blend, the bitwise select and the
scalar ternary all pick `y` when the lane is non-zero and `x` otherwise. -/
theorem select_lane_canonical (m : Fin 4294967296) (h : Canonical m) (x y : F32) :
    (if 2147483648 ≤ m.val then y else x) = (if decide (m ≠ 0) = true then y else x) ∧
    bitSelectLane m x y = (if decide (m ≠ 0) = true then y else x) ∧
    (if m ≠ 0 then y else x) = (if decide (m ≠ 0) = true then y else x) := by
  have hx : 4294967295 &&& x.bits.val = x.bits.val := by
    have := Nat.and_pow_two_sub_one_eq_mod x.bits.val 32
    rw [Nat.and_comm] at this
    simpa [Nat.mod_eq_of_lt x.bits.isLt] using this
  have hy : 4294967295 &&& y.bits.val = y.bits.val := by
    have := Nat.and_pow_two_sub_one_eq_mod y.bits.val 32
    rw [Nat.and_comm] at this
    simpa [Nat.mod_eq_of_lt y.bits.isLt] using this
  rcases h with rfl | rfl
  · refine ⟨by simp, ?_, by simp⟩
    have h0 : ((0 : Fin 4294967296) : Nat) = 0 := rfl
    simp only [bitSelectLane, h0, Nat.zero_and, Nat.zero_or, Nat.sub_zero, hx, ofBits_bits]
    simp
  · have h1 : ((4294967295 : Fin 4294967296) : Nat) = 4294967295 := rfl
    have hne : decide ((4294967295 : Fin 4294967296) ≠ 0) = true := by decide
    refine ⟨by simp [h1, hne], ?_, by simp [hne]⟩
    simp only [bitSelectLane, h1, Nat.sub_self, Nat.zero_and, Nat.or_zero, hy, ofBits_bits,
      hne, if_true]

/-- A property of every value of `g` holds of every lane of `zipWith g`. -/
theorem forall_mem_zipWith {α β γ : Type} (g : α → β → γ) (P : γ → Prop)
    (hg : ∀ a b, P (g a b)) : ∀ (as : List α) (bs : List β), ∀ c ∈ List.zipWith g as bs, P c := by
  intro as
  induction as with
  | nil => intro bs c hc; simp at hc
  | cons a as ih =>
    intro bs c hc
    cases bs with
    | nil => simp at hc
    | cons b bs =>
      simp only [List.zipWith_cons_cons, List.mem_cons] at hc
      rcases hc with rfl | hc
      · exact hg a b
      · exact ih bs c hc

/-- Outside AVX-512 a comparison yields a vector mask of `WIDTH` canonical
lanes. -/
theorem cmp_vector_mask (f : Flags) (op : Cmp) (x y : List F32)
    (h512 : VEC_IMPL_AVX512 f = false) (hx : x.length = width f) (hy : y.length = width f) :
    ∃ m, VEC_CMP_F f op x y = .v m ∧ m.length = width f ∧ ∀ c ∈ m, Canonical c := by
  unfold VEC_CMP_F
  rw [h512]
  simp only [Bool.false_eq_true, if_false]
  split_ifs
  · exact ⟨_, rfl, by simp [hx, hy],
      forall_mem_zipWith _ _ (fun _ _ => canonical_laneMask _) _ _⟩
  · exact ⟨_, rfl, by simp [hx, hy],
      forall_mem_zipWith _ _ (fun _ _ => canonical_laneMask _) _ _⟩
  · exact ⟨_, rfl, by simp [hx, hy],
      forall_mem_zipWith _ _ (fun _ _ => canonical_neonLane op _ _) _ _⟩
  · exact ⟨_, rfl, by simp [hx, hy],
      forall_mem_zipWith _ _ (fun _ _ => canonical_laneMask _) _ _⟩

/-- A lane-wise select that follows the mask on canonical lanes, applied to
a vector mask of canonical lanes. -/
theorem select_vector_lanes (g : Fin 4294967296 → F32 → F32 → F32)
    (hg : ∀ m x y, Canonical m → g m x y = if decide (m ≠ 0) = true then y else x)
    (w : Nat) (m : List (Fin 4294967296)) (a b : List F32) (hm : m.length = w)
    (ha : a.length = w) (hb : b.length = w) (hc : ∀ c ∈ m, Canonical c) :
    (List.zipWith3 g m a b).length = w ∧
    ∀ i, i < w → (List.zipWith3 g m a b)[i]? =
      if (Mask.v m).lane i = true then b[i]? else a[i]? := by
  obtain ⟨hl, hlane⟩ := zipWith3_lanes g w m a b hm ha hb
  refine ⟨hl, ?_⟩
  intro i hi
  have hi1 : i < m.length := by omega
  have hi2 : i < a.length := by omega
  have hi3 : i < b.length := by omega
  rw [hlane i hi, hg _ _ _ (hc _ (List.getElem_mem hi1))]
  simp only [Mask.lane, List.getElem?_eq_getElem hi1, List.getElem?_eq_getElem hi2,
    List.getElem?_eq_getElem hi3]
  split_ifs <;> rfl

/-- C7: on every backend, for the mask produced by any of the twelve
comparison macros on `WIDTH`-lane operands, `VEC_SELECT(mask, a, b)` has
`WIDTH` lanes and lane `i` is `b[i]` when lane `i` of the mask is true and
`a[i]` when it is false, for the bit-mask encoding of AVX-512 and the
all-ones / zero lane encoding of the other backends alike. -/
theorem select_follows_mask (f : Flags) (op : Cmp) (x y a b : List F32)
    (hx : x.length = width f) (hy : y.length = width f) (ha : a.length = width f)
    (hb : b.length = width f) :
    ∃ r, VEC_SELECT f (VEC_CMP_F f op x y) a b = some r ∧ r.length = width f ∧
      ∀ i, i < width f → r[i]? =
        if (VEC_CMP_F f op x y).lane i = true then b[i]? else a[i]? := by
  cases h512 : VEC_IMPL_AVX512 f with
  | true =>
    have hw : width f = 16 := by simp [width, h512]
    rw [hw] at hx hy ha hb ⊢
    have hr : (List.range 16).length = 16 := by simp
    obtain ⟨hl, hlane⟩ := zipWith3_lanes
      (fun j p q => if (packBits (List.zipWith (avxImm op).eval x y)).testBit j then q else p)
      16 (List.range 16) a b hr ha hb
    refine ⟨_, ?_, hl, ?_⟩
    · simp only [VEC_SELECT, VEC_CMP_F, h512, if_true, maskBlend]
    · intro i hi
      have hi2 : i < a.length := by omega
      have hi3 : i < b.length := by omega
      rw [hlane i hi]
      simp only [VEC_CMP_F, h512, if_true, Mask.lane, List.getElem_range,
        List.getElem?_eq_getElem hi2, List.getElem?_eq_getElem hi3]
      split_ifs <;> rfl
  | false =>
    obtain ⟨m, hm, hml, hmc⟩ := cmp_vector_mask f op x y h512 hx hy
    have e1 := select_vector_lanes (fun m x y => if 2147483648 ≤ m.val then y else x)
      (fun m x y h => (select_lane_canonical m h x y).1) (width f) m a b hml ha hb hmc
    have e2 := select_vector_lanes bitSelectLane
      (fun m x y h => (select_lane_canonical m h x y).2.1) (width f) m a b hml ha hb hmc
    have e3 := select_vector_lanes (fun m x y => if m ≠ 0 then y else x)
      (fun m x y h => (select_lane_canonical m h x y).2.2) (width f) m a b hml ha hb hmc
    rw [hm]
    simp only [VEC_SELECT, h512, Bool.false_eq_true, if_false]
    split_ifs
    all_goals first
      | exact ⟨_, rfl, e1⟩
      | exact ⟨_, rfl, e2⟩
      | exact ⟨_, rfl, e3⟩

/-- Witness for C7: an SSE build, the mask of `VEC_CMPLT_F` on
`[1, 2, NaN, 0] < [2, 1, 1, 0]`. -/
theorem select_follows_mask_witness :
    ∃ r, VEC_SELECT flagsSSE
        (VEC_CMP_F flagsSSE .LT [f32One, f32Two, f32NaN, f32Zero]
          [f32Two, f32One, f32One, f32Zero])
        [f32Zero, f32Zero, f32Zero, f32Zero] [f32One, f32One, f32One, f32One] = some r ∧
      r.length = width flagsSSE ∧
      ∀ i, i < width flagsSSE → r[i]? =
        if (VEC_CMP_F flagsSSE .LT [f32One, f32Two, f32NaN, f32Zero]
          [f32Two, f32One, f32One, f32Zero]).lane i = true
        then [f32One, f32One, f32One, f32One][i]?
        else [f32Zero, f32Zero, f32Zero, f32Zero][i]? :=
  select_follows_mask flagsSSE .LT [f32One, f32Two, f32NaN, f32Zero]
    [f32Two, f32One, f32One, f32Zero] [f32Zero, f32Zero, f32Zero, f32Zero]
    [f32One, f32One, f32One, f32One] (by decide) (by decide) (by decide) (by decide)

/-- Lane `i` of the mask a comparison macro produces is the comparison of
lane `i` of its operands. -/
theorem cmp_lane (f : Flags) (op : Cmp) (x y : List F32) (i : Nat) (xi yi : F32)
    (hx : x[i]? = some xi) (hy : y[i]? = some yi) :
    (VEC_CMP_F f op x y).lane i = cmpLane f op xi yi := by
  unfold VEC_CMP_F cmpLane
  split_ifs <;>
    simp [Mask.lane, testBit_packBits, List.getElem?_zipWith, hx, hy, laneMask_eq_zero]

/-- An ordered comparison of two lanes one of which is NaN is false. -/
theorem ordered_false_of_nan (a b : F32) (h : a.isNaN = true ∨ b.isNaN = true) :
    F32.flt a b = false ∧ F32.fle a b = false ∧ F32.feq a b = false := by
  rcases h with h | h <;> simp [F32.flt, F32.fle, F32.feq, h]

/-- C9: on every backend, in every lane in which at least one operand is
NaN, `VEC_CMPLT_F`, `VEC_CMPLE_F`, `VEC_CMPGT_F` and `VEC_CMPGE_F` yield false;
in particular less of (NaN, 1.0) is false on every lane. -/
theorem ordered_compare_nan_false (f : Flags) (x y : List F32) :
    (∀ i xi yi, x[i]? = some xi → y[i]? = some yi →
      (xi.isNaN = true ∨ yi.isNaN = true) →
      (VEC_CMPLT_F f x y).lane i = false ∧ (VEC_CMPLE_F f x y).lane i = false ∧
      (VEC_CMPGT_F f x y).lane i = false ∧ (VEC_CMPGE_F f x y).lane i = false) ∧
    (∀ i, i < width f →
      (VEC_CMPLT_F f (List.replicate (width f) f32NaN)
        (List.replicate (width f) f32One)).lane i = false) := by
  have key : ∀ (x y : List F32) i xi yi, x[i]? = some xi → y[i]? = some yi →
      (xi.isNaN = true ∨ yi.isNaN = true) →
      (VEC_CMPLT_F f x y).lane i = false ∧ (VEC_CMPLE_F f x y).lane i = false ∧
      (VEC_CMPGT_F f x y).lane i = false ∧ (VEC_CMPGE_F f x y).lane i = false := by
    intro x y i xi yi hx hy hnan
    obtain ⟨h1, h2, _⟩ := ordered_false_of_nan xi yi hnan
    obtain ⟨h3, h4, _⟩ := ordered_false_of_nan yi xi hnan.symm
    unfold VEC_CMPLT_F VEC_CMPLE_F VEC_CMPGT_F VEC_CMPGE_F
    simp only [cmp_lane f _ x y i xi yi hx hy]
    unfold cmpLane
    split_ifs <;>
      simp [avxImm, CmpImm.eval, ssePred, neonLane, scalarPred, laneMask_false, h1, h2,
        h3, h4]
  refine ⟨key x y, ?_⟩
  intro i hi
  have hn : f32NaN.isNaN = true := by decide
  exact (key _ _ i f32NaN f32One (by simp [hi])
    (by simp [hi]) (Or.inl hn)).1

/-- Witness for C9: an SSE build, NaN in lane 0 of the first operand. -/
theorem ordered_compare_nan_false_witness :
    (VEC_CMPLT_F flagsSSE [f32NaN, f32One, f32Two, f32Zero]
        [f32One, f32Two, f32One, f32Zero]).lane 0 = false ∧
    (VEC_CMPLT_F flagsSSE [f32NaN, f32One, f32Two, f32Zero]
        [f32One, f32Two, f32One, f32Zero]).lane 1 = true :=
  ⟨((ordered_compare_nan_false flagsSSE [f32NaN, f32One, f32Two, f32Zero]
      [f32One, f32Two, f32One, f32Zero]).1 0 f32NaN f32One rfl rfl (Or.inl (by decide))).1,
    by decide⟩

/-- On the AVX-512 and AVX backends, whose not-
macros pass the unordered predicates `_CMP_NLT_UQ` ... `_CMP_NGE_UQ`, the four
not- comparisons are true in every lane in which an operand is NaN. -/
theorem not_compare_nan_true_avx (f : Flags)
    (hf : VEC_IMPL_AVX512 f = true ∨ VEC_IMPL_AVX f = true) (x y : List F32) (i : Nat)
    (xi yi : F32) (hx : x[i]? = some xi) (hy : y[i]? = some yi)
    (hnan : xi.isNaN = true ∨ yi.isNaN = true) :
    (VEC_CMPNLT_F f x y).lane i = true ∧ (VEC_CMPNLE_F f x y).lane i = true ∧
    (VEC_CMPNGT_F f x y).lane i = true ∧ (VEC_CMPNGE_F f x y).lane i = true := by
  obtain ⟨h1, h2, _⟩ := ordered_false_of_nan xi yi hnan
  obtain ⟨h3, h4, _⟩ := ordered_false_of_nan yi xi hnan.symm
  unfold VEC_CMPNLT_F VEC_CMPNLE_F VEC_CMPNGT_F VEC_CMPNGE_F
  simp only [cmp_lane f _ x y i xi yi hx hy]
  unfold cmpLane
  rcases hf with hf | hf
  · simp [hf, avxImm, CmpImm.eval, h1, h2, h3, h4]
  · simp [hf, avxImm, CmpImm.eval, h1, h2, h3, h4]

/-- C8, evaluated where the code departs from it: on the SSE, NEON and
scalar backends `VEC_CMPNLT_F` is defined as the ordered greater-or-equal
compare, so not-less of (NaN, 1.0) is false, not true, in every lane; the same
holds of `VEC_CMPNLE_F`, `VEC_CMPNGT_F` and `VEC_CMPNGE_F`. -/
theorem not_compare_nan_false_off_avx :
    VEC_CMPNLT_F flagsSSE (List.replicate 4 f32NaN) (List.replicate 4 f32One)
      = .v [0, 0, 0, 0] ∧
    VEC_CMPNLT_F flagsNEON (List.replicate 4 f32NaN) (List.replicate 4 f32One)
      = .v [0, 0, 0, 0] ∧
    VEC_CMPNLT_F flagsScalar [f32NaN] [f32One] = .v [0] ∧
    (∀ i, i < 4 →
      (VEC_CMPNLT_F flagsSSE (List.replicate 4 f32NaN) (List.replicate 4 f32One)).lane i
        = false) ∧
    VEC_CMPNLE_F flagsSSE (List.replicate 4 f32NaN) (List.replicate 4 f32One)
      = .v [0, 0, 0, 0] ∧
    VEC_CMPNGT_F flagsSSE (List.replicate 4 f32NaN) (List.replicate 4 f32One)
      = .v [0, 0, 0, 0] ∧
    VEC_CMPNGE_F flagsSSE (List.replicate 4 f32NaN) (List.replicate 4 f32One)
      = .v [0, 0, 0, 0] := by
  refine ⟨by decide, by decide, by decide, by decide, by decide, by decide, by decide⟩

/-! ## Integer division and remainder -/

/-- A loop whose body is `out[k] = g k`: started at lane `i` for `n` lanes
it fills `out[i .. i+n)` with the values of `g` and leaves the lanes below `i`. -/
theorem forFrom_fill {α : Type} (g : Nat → Option α) (body : Nat → List α → Option (List α))
    (hbody : ∀ k out, body k out = (g k).bind (setAt out k)) :
    ∀ (n i : Nat) (out : List α), i + n ≤ out.length →
      (∀ j, i ≤ j → j < i + n → ∃ x, g j = some x) →
      ∃ out', forFrom body n i out = some out' ∧ out'.length = out.length ∧
        (∀ j, j < i → out'[j]? = out[j]?) ∧
        (∀ j, i ≤ j → j < i + n → out'[j]? = g j) := by
  intro n
  induction n with
  | zero =>
    intro i out _ _
    exact ⟨out, rfl, rfl, fun _ _ => rfl, fun j h1 h2 => by omega⟩
  | succ n ih =>
    intro i out hlen hg
    obtain ⟨x, hx⟩ := hg i (Nat.le_refl _) (by omega)
    have hi : i < out.length := by omega
    have hstep : body i out = some (out.set i x) := by
      simp [hbody, hx, setAt, hi]
    obtain ⟨out', ho, hl, hlow, hhigh⟩ := ih (i + 1) (out.set i x)
      (by simp; omega) (fun j h1 h2 => hg j (by omega) (by omega))
    refine ⟨out', ?_, ?_, ?_, ?_⟩
    · simp [forFrom, hstep, ho]
    · simpa using hl
    · intro j hj
      rw [hlow j (by omega), List.getElem?_set]
      simp [show i ≠ j by omega]
    · intro j h1 h2
      by_cases hji : j = i
      · subst hji
        rw [hlow j (by omega), List.getElem?_set]
        simp [hi, hx]
      · exact hhigh j (by omega) (by omega)

/-- `VEC_FLOOR_F` applies the floor of the selected branch to every lane
where that floor is declared, and has no value elsewhere. -/
theorem VEC_FLOOR_F_eq_map (f : Flags) (a : List F32) :
    VEC_FLOOR_F f a = if floorDeclared f then some (a.map (floorLane f)) else none := by
  have hfl : floorLane f = fun x => floorLane f x := rfl
  have hx := impl_exclusive f
  rw [hfl]
  unfold VEC_FLOOR_F floorLane floorq_f32 floorDeclared
  cases h1 : VEC_IMPL_AVX512 f <;> cases h2 : VEC_IMPL_AVX f <;>
    cases h3 : VEC_IMPL_SSE f <;> cases h4 : VEC_IMPL_NEON f <;>
    cases h5 : f.SSE4_1 <;>
    first
    | rfl
    | (exfalso; simp [h1, h2, h3, h4] at hx)

/-- `VEC_MOD_F` is its expansion over the macros of the selected branch. -/
theorem VEC_MOD_F_eq (f : Flags) (a b : List F32) :
    VEC_MOD_F f a b =
      (VEC_FLOOR_F f (VEC_DIV_F f a b)).map fun fl => VEC_SUB_F f a (VEC_MUL_F f b fl) := by
  unfold VEC_MOD_F
  split_ifs <;> rfl

/-- Where the floor of the selected branch is declared, `VEC_MOD_F(a, b)` is
`VEC_SUB_F(a, VEC_MUL_F(b, VEC_FLOOR_F(VEC_DIV_F(a, b))))` over that branch's own
sub, mul, floor and div: lane `i` is `a[i] - b[i] * floor(a[i] / b[i])`, each
operation rounded, for every `a` and every `b`. -/
theorem mod_lanes (f : Flags) (hfl : floorDeclared f = true) (a b : List F32) :
    ∃ fl r, VEC_FLOOR_F f (VEC_DIV_F f a b) = some fl ∧ VEC_MOD_F f a b = some r ∧
      r = VEC_SUB_F f a (VEC_MUL_F f b fl) ∧ r.length = min a.length b.length ∧
      ∀ (i : Nat) (ai bi : F32), a[i]? = some ai → b[i]? = some bi →
        r[i]? = some (modLane f ai bi) := by
  have h1 := VEC_FLOOR_F_eq_map f (VEC_DIV_F f a b)
  rw [if_pos hfl] at h1
  refine ⟨_, _, h1, by rw [VEC_MOD_F_eq, h1]; rfl, rfl, ?_, ?_⟩
  · simp [VEC_SUB_F, VEC_MUL_F, VEC_DIV_F]
  · intro i ai bi ha hb
    simp [VEC_SUB_F, VEC_MUL_F, VEC_DIV_F, List.getElem?_zipWith, List.getElem?_map, ha, hb,
      modLane]

/-! ## Fused multiply-add -/

/-- `VEC_FMA_F` computes what the selected expansion says. -/
theorem VEC_FMA_F_eq (f : Flags) (a b c : List F32) :
    VEC_FMA_F f a b c =
      match VEC_FMA_F_lowering f with
      | .fused => List.zipWith3 F32.fma a b c
      | .mulThenAdd => VEC_ADD_F f (VEC_MUL_F f a b) c := by
  unfold VEC_FMA_F VEC_FMA_F_lowering
  split_ifs <;> rfl

/-- When the fused expansion is selected: on the AVX-512 and AVX backends as
soon as one of `__FMA__`, `__AVX2__`, `__AVX__` is defined, whether or not
`__FMA__` is; on the SSE backend exactly when `__FMA__` is; never on NEON or
scalar. -/
theorem fma_lowering_iff (f : Flags) :
    VEC_FMA_F_lowering f = .fused ↔
      ((f.FMA || f.AVX2 || f.AVX) = true ∧
        (VEC_IMPL_AVX512 f = true ∨ VEC_IMPL_AVX f = true ∨
          (VEC_IMPL_SSE f = true ∧ f.FMA = true))) := by
  unfold VEC_FMA_F_lowering
  cases (f.FMA || f.AVX2 || f.AVX) <;> cases VEC_IMPL_AVX512 f <;> cases VEC_IMPL_AVX f <;>
    cases VEC_IMPL_SSE f <;> cases f.FMA <;> simp

/-- C12, evaluated where the code departs from it: x86-64 builds with AVX
(`-mavx`) or AVX2 (`-mavx2`) that do not define `__FMA__` select the AVX backend,
and `VEC_FMA_F` is the native `_mm256_fmadd_ps`, not
`VEC_ADD_F(VEC_MUL_F(a,b), c)`: on `4.2f * 4.2f + (-17.64f)` the two differ. -/
theorem fma_fused_without_fma_flag :
    flagsAVX.FMA = false ∧ flagsAVX2noFMA.FMA = false ∧
    selectBackend flagsAVX = .ok .AVX ∧ selectBackend flagsAVX2noFMA = .ok .AVX ∧
    VEC_FMA_F_lowering flagsAVX = .fused ∧ VEC_FMA_F_lowering flagsAVX2noFMA = .fused ∧
    VEC_FMA_F flagsAVX2noFMA (List.replicate 8 (F32.ofBits 0x40866666))
        (List.replicate 8 (F32.ofBits 0x40866666)) (List.replicate 8 (F32.ofBits 0xC18D1EB7))
      = List.replicate 8 (F32.ofBits 0x3575C290) ∧
    VEC_ADD_F flagsAVX2noFMA
        (VEC_MUL_F flagsAVX2noFMA (List.replicate 8 (F32.ofBits 0x40866666))
          (List.replicate 8 (F32.ofBits 0x40866666)))
        (List.replicate 8 (F32.ofBits 0xC18D1EB7))
      = List.replicate 8 (F32.ofBits 0) := by
  refine ⟨rfl, rfl, rfl, rfl, by decide, by decide, by decide, by decide⟩

/-! ## Index normalisation -/

/-- `x & 255` on a 32-bit lane is the residue of `x` modulo 256, also for
negative `x`. -/
theorem and32_255 (x : Int) : and32 x 255 = x % 256 := by
  have h255 : toU32 255 = 255 := by decide
  have hand : toU32 x &&& 255 = toU32 x % 256 := by
    have := Nat.and_pow_two_sub_one_eq_mod (toU32 x) 8
    simpa using this
  have hnn : 0 ≤ x % 4294967296 := Int.emod_nonneg _ (by decide)
  have hcast : ((toU32 x % 256 : Nat) : Int) = x % 256 := by
    unfold toU32
    rw [Int.natCast_mod, Int.toNat_of_nonneg hnn]
    exact Int.emod_emod_of_dvd x (by decide)
  unfold and32
  rw [h255, hand, hcast]
  unfold wrap32
  have h1 : 0 ≤ x % 256 := Int.emod_nonneg _ (by decide)
  have h2 : x % 256 < 256 := Int.emod_lt_of_pos _ (by decide)
  omega

/-- Lanes of the vector branches: `(x mod 256) + base`, inside
`[base, base + 255]`, when `base + 255` does not overflow. -/
theorem normalizeVector_lanes (w : Nat) (idx : List I32) (base : Int)
    (hlen : idx.length = w) (hlo : INT32_MIN ≤ base) (hhi : base + 255 ≤ INT32_MAX) :
    (normalizeVector w idx base).length = w ∧
    ∀ (i : Nat) (xi : Int), idx[i]? = some xi →
      (normalizeVector w idx base)[i]? = some (xi % 256 + base) := by
  refine ⟨by simp [normalizeVector, hlen], ?_⟩
  intro i xi hi
  have hiw : i < w := by
    have := (List.getElem?_eq_some.1 hi).1
    omega
  have h1 : 0 ≤ xi % 256 := Int.emod_nonneg _ (by decide)
  have h2 : xi % 256 < 256 := Int.emod_lt_of_pos _ (by decide)
  have hadd : add32 (xi % 256) base = xi % 256 + base := by
    unfold add32 wrap32
    unfold INT32_MIN at hlo
    unfold INT32_MAX at hhi
    omega
  simp [normalizeVector, List.getElem?_zipWith, List.getElem?_replicate, hi, hiw, and32_255,
    hadd]

/-- The scalar `(x & 255) + base` does not overflow when `base + 255` does not. -/
theorem caddInt_and32 (x base : Int) (hlo : INT32_MIN ≤ base) (hhi : base + 255 ≤ INT32_MAX) :
    caddInt (and32 x 255) base = some (and32 x 255 + base) := by
  have h1 : 0 ≤ x % 256 := Int.emod_nonneg _ (by decide)
  have h2 : x % 256 < 256 := Int.emod_lt_of_pos _ (by decide)
  rw [and32_255]
  unfold caddInt
  unfold INT32_MIN at *
  unfold INT32_MAX at *
  rw [if_pos]
  constructor <;> omega

/-- Index normalisation on every configuration whose branch is written for
the lane count of the selected backend: each lane is `(idx[i] & 255) + base`
and lies in `[base, base + 255]`. -/
theorem normalize_lanes (f : Flags) (idx : List I32) (base : Int)
    (hcfg : gatherBranchMatches f = true) (hlen : idx.length = width f)
    (hlo : INT32_MIN ≤ base) (hhi : base + 255 ≤ INT32_MAX) :
    ∃ r, VEC_NORMALIZE_INDEX f idx base = some r ∧ r.length = width f ∧
      ∀ (i : Nat) (xi : Int), idx[i]? = some xi →
        r[i]? = some (and32 xi 255 + base) ∧ and32 xi 255 = xi % 256 ∧
        base ≤ and32 xi 255 + base ∧ and32 xi 255 + base ≤ base + 255 := by
  have hrange : ∀ xi : Int, base ≤ and32 xi 255 + base ∧ and32 xi 255 + base ≤ base + 255 := by
    intro xi
    rw [and32_255]
    have h1 : 0 ≤ xi % 256 := Int.emod_nonneg _ (by decide)
    have h2 : xi % 256 < 256 := Int.emod_lt_of_pos _ (by decide)
    omega
  have hvec : ∀ w, idx.length = w →
      ∃ r, some (normalizeVector w idx base) = some r ∧ r.length = w ∧
        ∀ (i : Nat) (xi : Int), idx[i]? = some xi →
          r[i]? = some (and32 xi 255 + base) ∧ and32 xi 255 = xi % 256 ∧
          base ≤ and32 xi 255 + base ∧ and32 xi 255 + base ≤ base + 255 := by
    intro w hw
    obtain ⟨hl, hg⟩ := normalizeVector_lanes w idx base hw hlo hhi
    refine ⟨_, rfl, hl, ?_⟩
    intro i xi hi
    exact ⟨by rw [hg i xi hi, and32_255], and32_255 xi, hrange xi⟩
  have hscalar : idx.length = 1 →
      ∃ r, (match idx with
          | [x] => (caddInt (and32 x 255) base).map fun r => [r]
          | _ => none) = some r ∧ r.length = 1 ∧
        ∀ (i : Nat) (xi : Int), idx[i]? = some xi →
          r[i]? = some (and32 xi 255 + base) ∧ and32 xi 255 = xi % 256 ∧
          base ≤ and32 xi 255 + base ∧ and32 xi 255 + base ≤ base + 255 := by
    intro h1
    obtain ⟨x, rfl⟩ := List.length_eq_one.1 h1
    have hc := caddInt_and32 x base hlo hhi
    refine ⟨[and32 x 255 + base], ?_, ?_, ?_⟩
    · show Option.map (fun r => [r]) (caddInt (and32 x 255) base) = _
      rw [hc]
      rfl
    · exact List.length_singleton _
    · intro i xi hi
      cases i with
      | zero =>
        simp only [List.getElem?_cons_zero, Option.some.injEq] at hi
        subst hi
        exact ⟨List.getElem?_cons_zero, and32_255 x, hrange x⟩
      | succ i => simp at hi
  unfold gatherBranchMatches at hcfg
  unfold VEC_NORMALIZE_INDEX
  unfold width at *
  cases h1 : VEC_IMPL_AVX512 f <;> cases h2 : VEC_IMPL_AVX f <;>
    cases h3 : VEC_IMPL_SSE f <;> cases h4 : VEC_IMPL_NEON f <;>
    cases h5 : f.AVX2 <;>
    simp only [h1, h2, h3, h4, h5, if_true, if_false, Bool.false_eq_true, Bool.and_false,
      Bool.and_true, Bool.false_and, Bool.true_and, Bool.not_true, Bool.not_false] at * <;>
    first
    | exact hvec _ hlen
    | exact hscalar hlen

/-- C13, evaluated where the code departs from it: an AVX build without
`__AVX2__` selects the AVX backend with `VEC_WIDTH` 8, but the chain of
`VEC_NORMALIZE_INDEX` tests `VEC_IMPL_AVX && __AVX2__` and falls through to the
scalar statement `idx = (idx & 255) + base`, written for one `int`: for an
8-lane index vector it gives no 8-lane result, where the AVX2 build gives
`(idx[i] & 255) + base` in every lane. -/
theorem normalize_avx_without_avx2 :
    selectBackend flagsAVX = .ok .AVX ∧ VEC_WIDTH .AVX = 8 ∧ width flagsAVX = 8 ∧
    VEC_NORMALIZE_INDEX flagsAVX [300, -1, 5, 256, -256, 255, 0, 1] 10 = none ∧
    VEC_NORMALIZE_INDEX flagsAVX [300] 10 = some [54] ∧
    VEC_NORMALIZE_INDEX flagsAVX2 [300, -1, 5, 256, -256, 255, 0, 1] 10 =
      some [54, 265, 15, 10, 10, 265, 10, 11] := by
  refine ⟨rfl, by decide, by decide, by decide, by decide, by decide⟩

/-! ## Masked store -/

/-- The unaligned float load reads `WIDTH` lanes. -/
theorem VEC_LOADU_F_eq (f : Flags) (addr : Nat) (p : List F32) :
    VEC_LOADU_F f addr p = loadLanes (width f) p := by
  have hsc := scalar_branch f
  unfold VEC_LOADU_F width
  cases h1 : VEC_IMPL_AVX512 f <;> cases h2 : VEC_IMPL_AVX f <;>
    cases h3 : VEC_IMPL_SSE f <;> cases h4 : VEC_IMPL_NEON f <;>
    simp only [h1, h2, h3, h4, if_true, if_false, Bool.false_eq_true]
  rw [hsc h1 h2 h3 h4]
  rfl

/-- The unaligned float store writes `WIDTH` lanes. -/
theorem VEC_STOREU_F_eq (f : Flags) (addr : Nat) (p v : List F32) :
    VEC_STOREU_F f addr p v = storeLanes (width f) p v := by
  have hsc := scalar_branch f
  unfold VEC_STOREU_F width
  cases h1 : VEC_IMPL_AVX512 f <;> cases h2 : VEC_IMPL_AVX f <;>
    cases h3 : VEC_IMPL_SSE f <;> cases h4 : VEC_IMPL_NEON f <;>
    simp only [h1, h2, h3, h4, if_true, if_false, Bool.false_eq_true]
  rw [hsc h1 h2 h3 h4]
  rfl

/-- Outside AVX-512, select on the mask of a comparison follows the mask. -/
theorem select_cmp_vector (f : Flags) (op : Cmp) (x y a b : List F32)
    (h512 : VEC_IMPL_AVX512 f = false) (hx : x.length = width f) (hy : y.length = width f)
    (ha : a.length = width f) (hb : b.length = width f) :
    ∃ r, VEC_SELECT f (VEC_CMP_F f op x y) a b = some r ∧ r.length = width f ∧
      ∀ i, i < width f → r[i]? =
        if (VEC_CMP_F f op x y).lane i = true then b[i]? else a[i]? := by
  obtain ⟨m, hm, hml, hmc⟩ := cmp_vector_mask f op x y h512 hx hy
  have e1 := select_vector_lanes (fun m x y => if 2147483648 ≤ m.val then y else x)
    (fun m x y h => (select_lane_canonical m h x y).1) (width f) m a b hml ha hb hmc
  have e2 := select_vector_lanes bitSelectLane
    (fun m x y h => (select_lane_canonical m h x y).2.1) (width f) m a b hml ha hb hmc
  have e3 := select_vector_lanes (fun m x y => if m ≠ 0 then y else x)
    (fun m x y h => (select_lane_canonical m h x y).2.2) (width f) m a b hml ha hb hmc
  rw [hm]
  simp only [VEC_SELECT, h512, Bool.false_eq_true, if_false]
  split_ifs
  all_goals first
    | exact ⟨_, rfl, e1⟩
    | exact ⟨_, rfl, e2⟩
    | exact ⟨_, rfl, e3⟩

/-- The statements of the fallback masked store, were they compiled: on every
backend but AVX-512, with the mask of a comparison, `dst[i]` becomes `src[i]`
in every lane whose mask lane is true, keeps its value in every lane whose mask
lane is false, and the elements past `WIDTH` are untouched. -/
theorem maskStoreBody_lanes (f : Flags) (op : Cmp) (x y dst src : List F32)
    (h512 : VEC_IMPL_AVX512 f = false) (hx : x.length = width f) (hy : y.length = width f)
    (hd : width f ≤ dst.length) (hs : src.length = width f) :
    ∃ d, maskStoreBody f dst (VEC_CMP_F f op x y) src = some d ∧
      d.length = dst.length ∧ d.drop (width f) = dst.drop (width f) ∧
      ∀ i, i < width f → d[i]? =
        if (VEC_CMP_F f op x y).lane i = true then src[i]? else dst[i]? := by
  have hcur : (dst.take (width f)).length = width f := by simp [hd]
  obtain ⟨r, hr, hrl, hri⟩ := select_cmp_vector f op x y (dst.take (width f)) src h512 hx hy
    hcur hs
  refine ⟨r ++ dst.drop (width f), ?_, ?_, ?_, ?_⟩
  · simp [maskStoreBody, VEC_LOADU_F_eq, VEC_STOREU_F_eq, loadLanes, storeLanes, hd, hr, hrl]
  · simp [hrl]; omega
  · simp [List.drop_append_eq_append_drop, hrl]
  · intro i hi
    rw [List.getElem?_append_left (by omega), hri i hi, List.getElem?_take, if_pos hi]

/-- C14, evaluated where the code departs from it: the fallback
`VEC_MASK_STOREU_F` declares its temporaries with the undeclared type name
`vvfloat32_t`, so on the SSE backend (as on AVX, NEON and scalar) the macro has
no compiled meaning and stores nothing; its three statements, load / select /
store, would leave `[1, 2, 2, 2]` for `dst = [2, 2, 2, 2]`, `src = [1, 1, 1, 1]`
and the mask of `[1, 2, NaN, 0] < [2, 1, 1, 0]`. -/
theorem mask_store_undeclared_type :
    typeDeclared .vvfloat32_t = false ∧
    VEC_MASK_STOREU_F flagsSSE [f32Two, f32Two, f32Two, f32Two]
      (VEC_CMPLT_F flagsSSE [f32One, f32Two, f32NaN, f32Zero]
        [f32Two, f32One, f32One, f32Zero])
      [f32One, f32One, f32One, f32One] = none ∧
    maskStoreBody flagsSSE [f32Two, f32Two, f32Two, f32Two]
      (VEC_CMPLT_F flagsSSE [f32One, f32Two, f32NaN, f32Zero]
        [f32Two, f32One, f32One, f32Zero])
      [f32One, f32One, f32One, f32One] = some [f32One, f32Two, f32Two, f32Two] := by
  refine ⟨rfl, by decide, by decide⟩

/-! ## Byte gather -/

/-- A lane of a byte gather lies in `[0, 255]`. -/
theorem byteLane_range (base : List (Fin 256)) (idx : List I32) (k : Nat) (v : Int)
    (h : byteLane base idx k = some v) : 0 ≤ v ∧ v ≤ 255 := by
  unfold byteLane at h
  cases hb : (idx[k]?).bind (readAt base) with
  | none => simp [hb] at h
  | some x =>
    simp only [hb, Option.map_some', Option.some.injEq] at h
    subst h
    have := x.isLt
    omega

/-- An in-bounds byte read succeeds. -/
theorem byteLane_inBounds (base : List (Fin 256)) (idx : List I32)
    (hb : InBounds base.length idx) (j : Nat) (hj : j < idx.length) :
    ∃ v, byteLane base idx j = some v := by
  obtain ⟨x, hx⟩ := readAt_inBounds base idx hb j hj
  refine ⟨((x.val : Nat) : Int), ?_⟩
  unfold byteLane
  rw [hx]
  rfl

/-- The extract-and-loop byte gather returns `w` lanes, lane `k` being the
byte at `idx[k]`. -/
theorem gatherU8Emulated_spec (w : Nat) (base : List (Fin 256)) (idx : List I32)
    (hlen : idx.length = w) (hb : InBounds base.length idx) :
    ∃ v, gatherU8Emulated w base idx = some v ∧ v.length = w ∧
      ∀ k, k < w → v[k]? = byteLane base idx k := by
  obtain ⟨out, ho, hl, _, hh⟩ := forFrom_fill (byteLane base idx) (gatherU8Body base idx)
    (by
      intro k out
      unfold gatherU8Body byteLane
      cases idx[k]? with
      | none => rfl
      | some i =>
        cases hr : readAt base i with
        | none => simp [hr]
        | some x => simp [hr])
    w 0 (scratch w (0 : I32)) (by simp [scratch])
    (fun j _ hj => byteLane_inBounds base idx hb j (by omega))
  have hl' : out.length = w := by simpa [scratch] using hl
  refine ⟨out, ?_, hl', ?_⟩
  · simp [gatherU8Emulated, storeLanes_scratch w 0 idx hlen, forLoop, ho, loadLanes, hl']
  · intro k hk
    exact hh k (Nat.zero_le _) (by omega)

/-- Byte gather on every configuration whose branch is written for the lane
count of the selected backend: `WIDTH` lanes, lane `k` the unsigned byte
`base[idx[k]]` zero-extended, hence in `[0, 255]`. -/
theorem gather_u8_lanes (f : Flags) (base : List (Fin 256)) (idx : List I32)
    (hcfg : gatherBranchMatches f = true) (hlen : idx.length = width f)
    (hb : InBounds base.length idx) :
    ∃ v, VEC_GATHER_U8 f base idx = some v ∧ v.length = width f ∧
      ∀ k, k < width f → ∃ n, v[k]? = some n ∧ byteLane base idx k = some n ∧
        0 ≤ n ∧ n ≤ 255 := by
  have hx := impl_exclusive f
  have hwrap : ∀ w, (∃ v, gatherU8Emulated w base idx = some v ∧ v.length = w ∧
      ∀ k, k < w → v[k]? = byteLane base idx k) → idx.length = w →
      ∃ v, gatherU8Emulated w base idx = some v ∧ v.length = w ∧
        ∀ k, k < w → ∃ n, v[k]? = some n ∧ byteLane base idx k = some n ∧
          0 ≤ n ∧ n ≤ 255 := by
    intro w ⟨v, h1, h2, h3⟩ hw
    refine ⟨v, h1, h2, ?_⟩
    intro k hk
    obtain ⟨n, hn⟩ := byteLane_inBounds base idx hb k (by omega)
    exact ⟨n, by rw [h3 k hk, hn], hn, byteLane_range base idx k n hn⟩
  have hscalar : idx.length = 1 →
      ∃ v, (match idx with
          | [i] => (readAt base i).map fun x => [((x.val : Nat) : Int)]
          | _ => none) = some v ∧ v.length = 1 ∧
        ∀ k, k < 1 → ∃ n, v[k]? = some n ∧ byteLane base idx k = some n ∧
          0 ≤ n ∧ n ≤ 255 := by
    intro h1
    obtain ⟨i, rfl⟩ := List.length_eq_one.1 h1
    obtain ⟨n, hn⟩ := byteLane_inBounds base [i] hb 0 (by simp)
    have hr := byteLane_range base [i] 0 n hn
    unfold byteLane at hn
    simp only [List.getElem?_cons_zero, Option.some_bind] at hn
    cases hrd : readAt base i with
    | none => simp [hrd] at hn
    | some x =>
      simp only [hrd, Option.map_some', Option.some.injEq] at hn
      refine ⟨[n], by simp [hrd, hn], rfl, ?_⟩
      intro k hk
      obtain rfl : k = 0 := by omega
      refine ⟨n, rfl, ?_, hr⟩
      unfold byteLane
      simp only [List.getElem?_cons_zero, Option.some_bind, hrd, Option.map_some', hn]
  unfold gatherBranchMatches at hcfg
  unfold VEC_GATHER_U8
  unfold width at *
  cases h1 : VEC_IMPL_AVX512 f <;> cases h2 : VEC_IMPL_AVX f <;>
    cases h3 : VEC_IMPL_SSE f <;> cases h4 : VEC_IMPL_NEON f <;>
    cases h5 : f.AVX2 <;>
    simp only [h1, h2, h3, h4, h5, if_true, if_false, Bool.false_eq_true, Bool.and_false,
      Bool.and_true, Bool.false_and, Bool.true_and, Bool.not_true, Bool.not_false] at * <;>
    first
    | exact hwrap _ (gatherU8Emulated_spec _ base idx hlen hb) hlen
    | exact hscalar hlen
    | (exfalso; simp at hx)

/-- C15, evaluated where the code departs from it: an AVX build without
`__AVX2__` selects the AVX backend with `VEC_WIDTH` 8, but the chain of
`VEC_GATHER_U8` tests `VEC_IMPL_AVX && __AVX2__` and falls through to the scalar
statement `return (int)base[idx];`, written for one `int`: for an in-bounds
8-lane index vector there is no 8-lane result, where the AVX2 build returns the
eight zero-extended bytes. -/
theorem gather_u8_avx_without_avx2 :
    selectBackend flagsAVX = .ok .AVX ∧ VEC_WIDTH .AVX = 8 ∧ width flagsAVX = 8 ∧
    sampleBytes.length = 8 ∧
    VEC_GATHER_U8 flagsAVX sampleBytes [7, 6, 5, 4, 3, 2, 1, 0] = none ∧
    VEC_GATHER_U8 flagsAVX sampleBytes [6] = some [255] ∧
    VEC_GATHER_U8 flagsAVX2 sampleBytes [7, 6, 5, 4, 3, 2, 1, 0] =
      some [42, 255, 254, 200, 128, 127, 1, 0] := by
  refine ⟨rfl, by decide, by decide, by decide, by decide, by decide, by decide⟩

/-! ## Bitwise logic on float vectors -/

/-- The pattern of the lane built from a 32-bit pattern. -/
theorem ofBits_val (n : Nat) (h : n < 4294967296) : (F32.ofBits n).bits.val = n := by
  simp [F32.ofBits, Fin.ofNat, Nat.mod_eq_of_lt h]

/-- On an AVX-512 build without `__AVX512DQ__` the four macros have no value:
their intrinsics belong to AVX-512DQ. -/
theorem bitwise_avx512_without_dq (f : Flags) (h : VEC_IMPL_AVX512 f = true)
    (hd : f.AVX512DQ = false) (a b : List F32) :
    VEC_AND_F f a b = none ∧ VEC_OR_F f a b = none ∧ VEC_XOR_F f a b = none ∧
    VEC_NOT_F f a = none := by
  unfold VEC_AND_F VEC_OR_F VEC_XOR_F VEC_NOT_F
  simp [h, hd]

/-- The exact value of a finite lane is non-negative exactly when its signed
significand is. -/
theorem toRat_nonneg_iff (x : F32) : 0 ≤ x.toRat ↔ 0 ≤ x.smant := by
  unfold F32.toRat
  have hp : (0 : ℚ) < (2 : ℚ) ^ x.expo := zpow_pos (by norm_num) _
  constructor
  · intro h
    have := nonneg_of_mul_nonneg_left h hp
    exact_mod_cast this
  · intro h
    have h' : (0 : ℚ) ≤ (x.smant : ℚ) := by exact_mod_cast h
    exact mul_nonneg h' hp.le

/-- Truncation toward zero of the exact value: the floor of a non-negative
value, the ceiling of a negative one. -/
theorem truncInt_eq (x : F32) :
    x.truncInt = if 0 ≤ x.toRat then ⌊x.toRat⌋ else ⌈x.toRat⌉ := by
  have hsign := toRat_nonneg_iff x
  unfold F32.truncInt
  by_cases he : 0 ≤ x.expo
  · rw [if_pos he]
    have hn : x.expo = ((x.expo.toNat : Nat) : Int) := (Int.toNat_of_nonneg he).symm
    have hp : (2 : ℚ) ^ x.expo = (((2 ^ x.expo.toNat : Nat) : Int) : ℚ) := by
      conv_lhs => rw [hn]
      rw [zpow_natCast]
      push_cast
      rfl
    have hv : x.toRat = ((x.smant * ((2 ^ x.expo.toNat : Nat) : Int) : Int) : ℚ) := by
      unfold F32.toRat
      rw [hp, Int.cast_mul]
    simp only [hv, Int.floor_intCast, Int.ceil_intCast, ite_self]
  · rw [if_neg he]
    have hk : x.expo = -((( -x.expo).toNat : Nat) : Int) := by
      have : 0 ≤ -x.expo := by omega
      rw [Int.toNat_of_nonneg this]
      ring
    have hv : x.toRat = (x.smant : ℚ) / (((2 ^ (-x.expo).toNat : Nat) : ℚ)) := by
      unfold F32.toRat
      conv_lhs => rw [hk]
      rw [zpow_neg, zpow_natCast]
      push_cast
      rfl
    have hd : (0 : Int) ≤ ((2 ^ (-x.expo).toNat : Nat) : Int) := Int.ofNat_nonneg _
    by_cases hs : 0 ≤ x.smant
    · rw [if_pos (hsign.2 hs), hv, Rat.floor_intCast_div_natCast, Int.tdiv_eq_ediv hs hd]
    · rw [if_neg (fun h => hs (hsign.1 h)), hv]
      have hneg : x.smant = -(-x.smant) := by ring
      have hpos : 0 ≤ -x.smant := by omega
      have e1 : ((x.smant : ℚ)) / (((2 ^ (-x.expo).toNat : Nat) : ℚ)) =
          -(((-x.smant : Int) : ℚ) / (((2 ^ (-x.expo).toNat : Nat) : ℚ))) := by
        push_cast
        ring
      rw [e1, Int.ceil_neg, Rat.floor_intCast_div_natCast]
      conv_lhs => rw [hneg, Int.neg_tdiv, Int.tdiv_eq_ediv hpos hd]

/-- A finite lane is neither NaN nor infinite. -/
theorem finite_not_nan_inf (x : F32) (h : x.isFinite = true) :
    x.isNaN = false ∧ x.isInf = false := by
  unfold F32.isFinite F32.expField at h
  have h' : ¬ ((x.bits.val / 8388608) % 256 = 255) := by simpa using h
  unfold F32.isNaN F32.isInf F32.expField
  simp [h']

/-- A finite lane whose value lies in the `int` range truncates to an `int`. -/
theorem truncInt_range (x : F32) (hlo : (-2147483648 : ℚ) ≤ x.toRat)
    (hhi : x.toRat ≤ 2147483647) :
    INT32_MIN ≤ x.truncInt ∧ x.truncInt ≤ INT32_MAX := by
  rw [truncInt_eq]
  unfold INT32_MIN INT32_MAX
  by_cases h0 : 0 ≤ x.toRat
  · rw [if_pos h0]
    have h1 : 0 ≤ ⌊x.toRat⌋ := Int.floor_nonneg.2 h0
    have h2 : ((⌊x.toRat⌋ : Int) : ℚ) ≤ 2147483647 := le_trans (Int.floor_le _) hhi
    have h3 : ⌊x.toRat⌋ ≤ 2147483647 := by exact_mod_cast h2
    omega
  · rw [if_neg h0]
    have h1 : ⌈x.toRat⌉ ≤ 0 := Int.ceil_le.2 (by push_cast; linarith)
    have h2 : (-2147483648 : ℚ) ≤ ((⌈x.toRat⌉ : Int) : ℚ) := le_trans hlo (Int.le_ceil _)
    have h3 : -2147483648 ≤ ⌈x.toRat⌉ := by exact_mod_cast h2
    omega

/-- A loop whose body keeps an invariant and decreases a measure runs to
completion within a bound of the measure, keeps the invariant and ends with its
condition false. -/
theorem whileLoop_inv {σ : Type} (cond : σ → Bool) (body : σ → Option σ)
    (Inv : σ → Prop) (μ : σ → Nat)
    (hstep : ∀ s, Inv s → cond s = true → ∃ s', body s = some s' ∧ Inv s' ∧ μ s' < μ s) :
    ∀ (fuel : Nat) (s : σ), Inv s → μ s ≤ fuel →
      ∃ s', whileLoop cond body fuel s = some s' ∧ Inv s' ∧ cond s' = false := by
  intro fuel
  induction fuel with
  | zero =>
    intro s hI hμ
    cases hc : cond s with
    | false => exact ⟨s, by simp [whileLoop, hc], hI, hc⟩
    | true =>
      obtain ⟨s', _, _, hlt⟩ := hstep s hI hc
      omega
  | succ fuel ih =>
    intro s hI hμ
    cases hc : cond s with
    | false => exact ⟨s, by simp [whileLoop, hc], hI, hc⟩
    | true =>
      obtain ⟨s', hb, hI', hlt⟩ := hstep s hI hc
      obtain ⟨s'', hw, hI'', hc''⟩ := ih s' hI' (by omega)
      exact ⟨s'', by simp [whileLoop, hc, hb, hw], hI'', hc''⟩

/-- The aligned float load reads `WIDTH` lanes at an address the backend
accepts. -/
theorem VEC_LOAD_F_eq (f : Flags) (addr : Nat) (p : List F32)
    (hal : needsAlignment f = true → addr % (4 * width f) = 0) :
    VEC_LOAD_F f addr p = loadLanes (width f) p := by
  have hu := VEC_LOADU_F_eq f addr p
  have hsc := scalar_branch f
  unfold needsAlignment at hal
  unfold VEC_LOAD_F
  unfold width at *
  cases h1 : VEC_IMPL_AVX512 f <;> cases h2 : VEC_IMPL_AVX f <;>
    cases h3 : VEC_IMPL_SSE f <;> cases h4 : VEC_IMPL_NEON f <;>
    simp only [h1, h2, h3, h4, if_true, if_false, Bool.false_eq_true, Bool.or_false,
      Bool.or_true, Bool.false_or, Bool.true_or, forall_const, true_implies,
      false_implies] at hal hu hsc ⊢ <;>
    first
    | exact hu
    | (simp only [hsc, if_true]; exact hu)
    | simp [loadLanesAligned, hal]

/-- The aligned float store writes `WIDTH` lanes at an address the backend
accepts. -/
theorem VEC_STORE_F_eq (f : Flags) (addr : Nat) (p v : List F32)
    (hal : needsAlignment f = true → addr % (4 * width f) = 0) :
    VEC_STORE_F f addr p v = storeLanes (width f) p v := by
  have hu := VEC_STOREU_F_eq f addr p v
  have hsc := scalar_branch f
  unfold needsAlignment at hal
  unfold VEC_STORE_F
  unfold width at *
  cases h1 : VEC_IMPL_AVX512 f <;> cases h2 : VEC_IMPL_AVX f <;>
    cases h3 : VEC_IMPL_SSE f <;> cases h4 : VEC_IMPL_NEON f <;>
    simp only [h1, h2, h3, h4, if_true, if_false, Bool.false_eq_true, Bool.or_false,
      Bool.or_true, Bool.false_or, Bool.true_or, forall_const, true_implies,
      false_implies] at hal hu hsc ⊢ <;>
    first
    | exact hu
    | (simp only [hsc, if_true]; exact hu)
    | simp [storeLanesAligned, hal]

/-- The lane count is positive. -/
theorem width_pos (f : Flags) : 0 < width f := by
  unfold width
  split_ifs <;> decide

/-- An element offset that is a multiple of `WIDTH` keeps an aligned address
aligned. -/
theorem aligned_offset (w p i : Nat) (hp : p % (4 * w) = 0) (hi : w ∣ i) :
    (p + 4 * i) % (4 * w) = 0 := by
  obtain ⟨k, rfl⟩ := hi
  have h1 : 4 * w ∣ p := Nat.dvd_of_mod_eq_zero hp
  have h2 : 4 * w ∣ 4 * (w * k) := ⟨k, by ring⟩
  exact Nat.mod_eq_zero_of_dvd (Nat.dvd_add h1 h2)

/-- One iteration of the vector loop keeps the invariant, keeps `i` a
multiple of `WIDTH`, and advances `i` by `WIDTH`. -/
theorem vecStep_inv (f : Flags) (pa pb pr : Nat) (a b : List F32) (n : Nat)
    (ha : a.length = n) (hb : b.length = n) (hal : ArraysAligned f pa pb pr)
    (s : AddState) (hI : AddInv a b n s) (hdiv : width f ∣ s.i)
    (hc : s.i + width f ≤ n) :
    ∃ s', vecStep f pa pb pr a b s = some s' ∧ AddInv a b n s' ∧ width f ∣ s'.i ∧
      n - s'.i < n - s.i := by
  obtain ⟨hi, hlen, hres, hwr⟩ := hI
  have hw := width_pos f
  have hla : VEC_LOAD_F f (pa + 4 * s.i) (a.drop s.i) = some ((a.drop s.i).take (width f)) := by
    rw [VEC_LOAD_F_eq f _ _ (fun h => aligned_offset _ _ _ (hal h).1 hdiv)]
    simp [loadLanes, ha]; omega
  have hlb : VEC_LOAD_F f (pb + 4 * s.i) (b.drop s.i) = some ((b.drop s.i).take (width f)) := by
    rw [VEC_LOAD_F_eq f _ _ (fun h => aligned_offset _ _ _ (hal h).2.1 hdiv)]
    simp [loadLanes, hb]; omega
  have hvl : (VEC_ADD_F f ((a.drop s.i).take (width f)) ((b.drop s.i).take (width f))).length
      = width f := by
    simp [VEC_ADD_F, ha, hb]; omega
  have hst : VEC_STORE_F f (pr + 4 * s.i) (s.result.drop s.i)
      (VEC_ADD_F f ((a.drop s.i).take (width f)) ((b.drop s.i).take (width f))) =
      some (VEC_ADD_F f ((a.drop s.i).take (width f)) ((b.drop s.i).take (width f)) ++
        (s.result.drop s.i).drop (width f)) := by
    rw [VEC_STORE_F_eq f _ _ _ (fun h => aligned_offset _ _ _ (hal h).2.2 hdiv)]
    simp [storeLanes, hvl, hlen]; omega
  refine ⟨{
      i := s.i + width f,
      result := s.result.take s.i ++
        (VEC_ADD_F f ((a.drop s.i).take (width f)) ((b.drop s.i).take (width f)) ++
          (s.result.drop s.i).drop (width f)),
      writes := bumpWrites s.writes s.i (width f) },
    by simp only [vecStep, hla, hlb, hst, Option.some_bind, Option.map_some'], ?_,
    Dvd.dvd.add hdiv (dvd_refl _), by simp only; omega⟩
  refine ⟨by simp only; omega, ?_, ?_, ?_⟩
  · simp [hvl, hlen]; omega
  · intro j hj
    simp only at hj ⊢
    by_cases hji : j < s.i
    · rw [List.getElem?_append_left (by simp [hlen]; omega), List.getElem?_take, if_pos hji]
      exact hres j hji
    · have hge : s.i ≤ j := by omega
      have htl : (s.result.take s.i).length = s.i := by simp [hlen]; omega
      rw [List.getElem?_append_right (by omega), htl,
        List.getElem?_append_left (by rw [hvl]; omega)]
      simp only [VEC_ADD_F, List.getElem?_zipWith, List.getElem?_take, List.getElem?_drop]
      simp only [if_pos (show j - s.i < width f by omega),
        show s.i + (j - s.i) = j by omega]
  · intro j
    simp only [bumpWrites, hwr]
    by_cases h1 : j < s.i
    · simp [h1, show j < s.i + width f by omega, show ¬ (s.i ≤ j) by omega]
    · by_cases h2 : j < s.i + width f
      · simp [h1, h2, show s.i ≤ j by omega]
      · simp [h1, h2]

/-- One iteration of the tail loop keeps the invariant and advances `i` by one. -/
theorem tailStep_inv (a b : List F32) (n : Nat) (ha : a.length = n) (hb : b.length = n)
    (s : AddState) (hI : AddInv a b n s) (hc : s.i < n) :
    ∃ s', tailStep a b s = some s' ∧ AddInv a b n s' ∧ n - s'.i < n - s.i := by
  obtain ⟨hi, hlen, hres, hwr⟩ := hI
  have hia : s.i < a.length := by omega
  have hib : s.i < b.length := by omega
  have hbody : addBody a b s.i s.result = some (s.result.set s.i (F32.add a[s.i] b[s.i])) := by
    simp [addBody, List.getElem?_eq_getElem hia, List.getElem?_eq_getElem hib, setAt, hlen, hc]
  refine ⟨{
      i := s.i + 1, result := s.result.set s.i (F32.add a[s.i] b[s.i]),
      writes := bumpWrites s.writes s.i 1 },
    by simp only [tailStep, hbody, Option.map_some'], ?_, by simp only; omega⟩
  refine ⟨by simp only; omega, by simp [hlen], ?_, ?_⟩
  · intro j hj
    simp only at hj ⊢
    rw [List.getElem?_set]
    by_cases hji : s.i = j
    · subst hji
      simp [hlen, hc, List.getElem?_zipWith, List.getElem?_eq_getElem hia,
        List.getElem?_eq_getElem hib]
    · rw [if_neg hji]
      exact hres j (by omega)
  · intro j
    simp only [bumpWrites, hwr]
    by_cases h1 : j < s.i
    · simp [h1, show j < s.i + 1 by omega, show ¬ (s.i ≤ j) by omega]
    · by_cases h2 : j < s.i + 1
      · simp [h1, h2, show s.i ≤ j by omega]
      · simp [h1, h2]

/-- The scalar loop `result[i] = a[i] + b[i]` over `n` elements produces the
lanewise sums. -/
theorem scalarAdd_spec (a b result0 : List F32) (n : Nat) (ha : a.length = n)
    (hb : b.length = n) (hr : result0.length = n) :
    scalarAdd a b result0 n = some (List.zipWith F32.add a b) := by
  obtain ⟨out, ho, hl, -, hhigh⟩ := forFrom_fill
    (fun k => (a[k]?).bind fun x => (b[k]?).map fun y => F32.add x y) (addBody a b)
    (by
      intro k out
      unfold addBody
      beta_reduce
      cases a[k]? <;> cases b[k]? <;> rfl)
    n 0 result0 (by omega)
    (by
      intro j _ hj
      have hja : j < a.length := by omega
      have hjb : j < b.length := by omega
      exact ⟨F32.add a[j] b[j], by
        simp [List.getElem?_eq_getElem hja, List.getElem?_eq_getElem hjb]⟩)
  have hout : out = List.zipWith F32.add a b := by
    apply List.ext_getElem?
    intro j
    by_cases hj : j < n
    · rw [hhigh j (Nat.zero_le _) (by omega), List.getElem?_zipWith]
      cases a[j]? <;> cases b[j]? <;> rfl
    · rw [List.getElem?_eq_none (by omega), List.getElem?_eq_none (by simp [ha, hb]; omega)]
  rw [← hout]
  exact ho

/-- C18 (amended): for every backend, every element count `N` and float arrays
`a`, `b`, `result` of `N` elements that, on the x86 backends, start at multiples
of `4 * WIDTH` bytes, the add that runs `VEC_LOAD_F`, `VEC_ADD_F`, `VEC_STORE_F`
on `i = 0, WIDTH, 2 * WIDTH, ...` while `i + WIDTH <= N` and then a scalar tail
loop terminates, writes every index below `N` exactly once and no other, and
leaves the result array of the scalar loop `result[i] = a[i] + b[i]`. -/
theorem chunked_add_eq_scalar (f : Flags) (pa pb pr : Nat) (a b result0 : List F32)
    (n : Nat) (ha : a.length = n) (hb : b.length = n) (hr : result0.length = n)
    (hal : ArraysAligned f pa pb pr) :
    ∃ s, simdAdd f pa pb pr a b result0 n = some s ∧ s.i = n ∧
      (∀ j, j < n → s.writes j = 1) ∧ (∀ j, n ≤ j → s.writes j = 0) ∧
      scalarAdd a b result0 n = some s.result ∧
      s.result = List.zipWith F32.add a b := by
  obtain ⟨s1, h1, ⟨hI1, -⟩, -⟩ := whileLoop_inv
    (fun s => decide (s.i + width f ≤ n)) (vecStep f pa pb pr a b)
    (fun s => AddInv a b n s ∧ width f ∣ s.i) (fun s => n - s.i)
    (by
      intro s hI hc
      obtain ⟨s', e, hI', hd, hlt⟩ :=
        vecStep_inv f pa pb pr a b n ha hb hal s hI.1 hI.2 (of_decide_eq_true hc)
      exact ⟨s', e, ⟨hI', hd⟩, hlt⟩)
    n { i := 0, result := result0, writes := fun _ => 0 }
    ⟨⟨Nat.zero_le _, hr, fun j hj => absurd hj (Nat.not_lt_zero _), fun j => by simp⟩,
      dvd_zero _⟩
    (Nat.sub_le _ _)
  obtain ⟨s2, h2, ⟨hi, hlen, hres, hwr⟩, hc2⟩ := whileLoop_inv
    (fun s => decide (s.i < n)) (tailStep a b) (AddInv a b n) (fun s => n - s.i)
    (fun s hI hc => tailStep_inv a b n ha hb s hI (of_decide_eq_true hc))
    n s1 hI1 (Nat.sub_le _ _)
  have hin : s2.i = n := by
    have : ¬ s2.i < n := of_decide_eq_false hc2
    omega
  have hout : s2.result = List.zipWith F32.add a b := by
    apply List.ext_getElem?
    intro j
    by_cases hj : j < n
    · exact hres j (by omega)
    · rw [List.getElem?_eq_none (by omega), List.getElem?_eq_none (by simp [ha, hb]; omega)]
  refine ⟨s2, by simp only [simdAdd, h1, Option.some_bind, h2], hin, ?_, ?_, ?_, hout⟩
  · intro j hj
    rw [hwr j, if_pos (by omega)]
  · intro j hj
    rw [hwr j, if_neg (by omega)]
  · rw [hout]
    exact scalarAdd_spec a b result0 n ha hb hr

/-- Witness for C18: ten floats on the SSE backend (two chunks and a tail
of two) in arrays at the byte addresses 64, 128 and 192. -/
theorem chunked_add_eq_scalar_witness :
    ∃ s, simdAdd flagsSSE 64 128 192 (sampleF ++ [f32One, f32Two])
        (sampleF2 ++ [f32Two, f32Two]) (List.replicate 10 f32Zero) 10 = some s ∧ s.i = 10 ∧
      (∀ j, j < 10 → s.writes j = 1) ∧ (∀ j, 10 ≤ j → s.writes j = 0) ∧
      scalarAdd (sampleF ++ [f32One, f32Two]) (sampleF2 ++ [f32Two, f32Two])
        (List.replicate 10 f32Zero) 10 = some s.result ∧
      s.result = List.zipWith F32.add (sampleF ++ [f32One, f32Two])
        (sampleF2 ++ [f32Two, f32Two]) :=
  chunked_add_eq_scalar flagsSSE 64 128 192 (sampleF ++ [f32One, f32Two])
    (sampleF2 ++ [f32Two, f32Two]) (List.replicate 10 f32Zero) 10 (by decide) (by decide)
    (by decide) (fun _ => ⟨by decide, by decide, by decide⟩)

/-- Counterexample for C18 as stated: on an AVX2 build, three arrays of eight
floats at the byte addresses 16, 48 and 80 (multiples of 16, not of 32) are a
pair of arrays of length `N = 8` and a result array, yet the first aligned
load of the vector loop is undefined and the add produces no result array,
while the scalar loop does. -/
theorem chunked_add_misaligned :
    sampleF.length = 8 ∧ sampleF2.length = 8 ∧
    (simdAdd flagsAVX2 16 48 80 sampleF sampleF2 (List.replicate 8 f32Zero) 8).isNone = true ∧
    scalarAdd sampleF sampleF2 (List.replicate 8 f32Zero) 8 =
      some (List.zipWith F32.add sampleF sampleF2) ∧
    ¬ ∃ s, simdAdd flagsAVX2 16 48 80 sampleF sampleF2 (List.replicate 8 f32Zero) 8 = some s ∧
      scalarAdd sampleF sampleF2 (List.replicate 8 f32Zero) 8 = some s.result := by
  have hnone : simdAdd flagsAVX2 16 48 80 sampleF sampleF2 (List.replicate 8 f32Zero) 8
      = none := rfl
  refine ⟨rfl, rfl, by rw [hnone]; rfl, scalarAdd_spec _ _ _ 8 rfl rfl rfl, ?_⟩
  rintro ⟨s, hs, -⟩
  rw [hnone] at hs
  cases hs

/-! ## The basic usage program -/

set_option maxRecDepth 20000

/-- The aligned integer load reads `WIDTH` lanes at an address the backend
accepts. -/
theorem VEC_LOAD_I_eq (f : Flags) (addr : Nat) (p : List I32)
    (hal : needsAlignment f = true → addr % (4 * width f) = 0) :
    VEC_LOAD_I f addr p = loadLanes (width f) p := by
  have hsc := scalar_branch f
  unfold needsAlignment at hal
  unfold VEC_LOAD_I VEC_LOADU_I
  unfold width at *
  cases h1 : VEC_IMPL_AVX512 f <;> cases h2 : VEC_IMPL_AVX f <;>
    cases h3 : VEC_IMPL_SSE f <;> cases h4 : VEC_IMPL_NEON f <;>
    simp only [h1, h2, h3, h4, if_true, if_false, Bool.false_eq_true, Bool.or_false,
      Bool.or_true, Bool.false_or, Bool.true_or, forall_const, true_implies,
      false_implies] at hal hsc ⊢ <;>
    first
    | rfl
    | simp only [hsc, if_true]
    | simp [loadLanesAligned, hal]

/-- A scatter of eight lanes through the identity indices into an array of
eight elements leaves the eight lanes. -/
theorem scatter_identity (f : Flags) (hw : width f = 8) (hcfg : gatherBranchMatches f = true)
    (result vals : List F32) (hr : result.length = 8) (hv : vals.length = 8) :
    VEC_SCATTER_F f result index_arr vals = some vals := by
  obtain ⟨base', hs, hlen, -, hl⟩ := scatter_post f result index_arr vals hcfg
    (by rw [hw]; rfl) (by rw [hw]; exact hv)
    (by
      intro i hi
      simp only [index_arr, List.mem_cons, List.mem_singleton, List.not_mem_nil, or_false] at hi
      rw [hr]
      rcases hi with rfl | rfl | rfl | rfl | rfl | rfl | rfl | rfl <;> decide)
  rw [hs]
  congr 1
  apply List.ext_getElem?
  intro j
  by_cases hj : j < 8
  · rw [hw] at hl
    have h := hl j (Nat.zero_le _) hj (by
      intro j' h1 h2
      interval_cases j <;> interval_cases j' <;> first | omega | decide)
    rw [← h]
    interval_cases j <;> simp [index_arr, readAt]
  · rw [List.getElem?_eq_none (by omega), List.getElem?_eq_none (by omega)]

/-- C19 (amended): on a `WIDTH = 8` backend built with `__AVX2__`, for every
pair of 8-element float arrays `a` and `b` and the index array `[0, 1, ..., 7]`,
all three at addresses that are multiples of 32 bytes, loading both with
`VEC_LOAD_F`, adding with `VEC_ADD_F` and scattering the sum with `VEC_SCATTER_F`
through the loaded indices leaves `result[i] = a[i] + b[i]` for every `i` in
`0..7`: the same elements as a store of the sum. -/
theorem test1_scatter_sum (f : Flags) (hw : width f = 8) (h2 : f.AVX2 = true)
    (p1 p2 pidx pr : Nat) (hp1 : p1 % 32 = 0) (hp2 : p2 % 32 = 0) (hpi : pidx % 32 = 0)
    (a b result : List F32) (ha : a.length = 8) (hb : b.length = 8)
    (hr : result.length = 8) :
    test1 f p1 p2 pidx a b result index_arr = some (List.zipWith F32.add a b) ∧
    VEC_STOREU_F f pr result (VEC_ADD_F f a b) = some (List.zipWith F32.add a b) := by
  have hcfg : gatherBranchMatches f = true := by simp [gatherBranchMatches, h2]
  have hla : VEC_LOAD_F f p1 a = some a := by
    rw [VEC_LOAD_F_eq f p1 a (fun _ => by rw [hw]; exact hp1), hw, loadLanes,
      if_pos (by omega), List.take_of_length_le (by omega)]
  have hlb : VEC_LOAD_F f p2 b = some b := by
    rw [VEC_LOAD_F_eq f p2 b (fun _ => by rw [hw]; exact hp2), hw, loadLanes,
      if_pos (by omega), List.take_of_length_le (by omega)]
  have hli : VEC_LOAD_I f pidx index_arr = some index_arr := by
    rw [VEC_LOAD_I_eq f pidx index_arr (fun _ => by rw [hw]; exact hpi), hw]
    rfl
  have hsum : (List.zipWith F32.add a b).length = 8 := by simp [ha, hb]
  refine ⟨?_, ?_⟩
  · simp only [test1, hla, hlb, hli, Option.some_bind]
    exact scatter_identity f hw hcfg result _ hr hsum
  · rw [VEC_STOREU_F_eq, hw]
    simp only [VEC_ADD_F, storeLanes, hsum]
    simp [hr]

/-- Witness for C19: the arrays of `test1_basic_usage.c` on an AVX2 build,
at the byte addresses 64, 96 and 128: the sums are 5.2, 6.2, 7.2, 8.2, 4.2, 4.2,
4.2, 4.2 as floats. -/
theorem test1_scatter_sum_witness :
    test1 flagsAVX2 64 96 128 arr1 arr2 (List.replicate 8 f32Zero) index_arr
      = some (List.zipWith F32.add arr1 arr2) ∧
    VEC_STOREU_F flagsAVX2 160 (List.replicate 8 f32Zero) (VEC_ADD_F flagsAVX2 arr1 arr2)
      = some (List.zipWith F32.add arr1 arr2) ∧
    List.zipWith F32.add arr1 arr2 =
      [F32.ofBits 0x40A66666, F32.ofBits 0x40C66666, F32.ofBits 0x40E66666,
       F32.ofBits 0x41033333, F32.ofBits 0x40866666, F32.ofBits 0x40866666,
       F32.ofBits 0x40866666, F32.ofBits 0x40866666] :=
  have h := test1_scatter_sum flagsAVX2 (by decide) rfl 64 96 128 160 (by decide) (by decide)
    (by decide) arr1 arr2 (List.replicate 8 f32Zero) (by decide) (by decide) (by decide)
  ⟨h.1, h.2, by decide⟩

/-- Counterexample for C19 as stated: on an AVX2 build (`WIDTH = 8`) the two
8-element arrays of the test at the byte addresses 16 and 48 (multiples of 16,
not of 32) have no defined `VEC_LOAD_F`, and the program leaves no result
array holding the sums. -/
theorem test1_misaligned :
    width flagsAVX2 = 8 ∧ arr1.length = 8 ∧ arr2.length = 8 ∧
    test1 flagsAVX2 16 48 128 arr1 arr2 (List.replicate 8 f32Zero) index_arr = none ∧
    ¬ ∃ r, test1 flagsAVX2 16 48 128 arr1 arr2 (List.replicate 8 f32Zero) index_arr = some r ∧
      ∀ i, i < 8 → r[i]? = (List.zipWith F32.add arr1 arr2)[i]? := by
  have hnone : test1 flagsAVX2 16 48 128 arr1 arr2 (List.replicate 8 f32Zero) index_arr
      = none := by decide
  refine ⟨by decide, by decide, by decide, hnone, ?_⟩
  rintro ⟨r, hs, -⟩
  rw [hnone] at hs
  cases hs

/-! ## The documented scatter -/

/-- A lanewise operation that ignores its operands yields a constant vector. -/
theorem zipWith_const {α β γ : Type} (c : γ) : ∀ (a : List α) (b : List β) (n : Nat),
    a.length = n → b.length = n → List.zipWith (fun _ _ => c) a b = List.replicate n c := by
  intro a
  induction a with
  | nil =>
    intro b n ha _
    subst ha
    simp
  | cons x a ih =>
    intro b n ha hb
    cases b with
    | nil =>
      simp at ha hb
      omega
    | cons y b =>
      cases n with
      | zero => simp at ha
      | succ n =>
        simp only [List.length_cons, Nat.add_right_cancel_iff] at ha hb
        simp [List.zipWith, List.replicate, ih b n ha hb]

/-- The flags under which the type chain resolves to NEON take the NEON branch
of every chain that tests AVX-512, AVX, SSE and NEON in this order. -/
theorem neon_branch (f : Flags) (h : selectBackend f = .ok .NEON) :
    VEC_IMPL_AVX512 f = false ∧ VEC_IMPL_AVX f = false ∧ VEC_IMPL_SSE f = false ∧
    VEC_IMPL_NEON f = true := by
  unfold selectBackend at h
  cases h1 : VEC_IMPL_AVX512 f <;> cases h2 : VEC_IMPL_AVX f <;>
    cases h3 : VEC_IMPL_SSE f <;> cases h4 : VEC_IMPL_NEON f <;>
    cases h5 : VEC_IMPL_RISCV f <;>
    simp only [h1, h2, h3, h4, h5, if_true, if_false, Bool.false_eq_true] at h <;>
    first
    | exact ⟨rfl, rfl, rfl, rfl⟩
    | cases h

/-- C21: for operands of `WIDTH` lanes, on the NEON backend `VEC_CMPORD_F(a, b)`
is the all-true mask and `VEC_CMPUNORD_F(a, b)` the all-false mask whatever the
lanes hold, NaN included; on every other backend lane `i` of `VEC_CMPORD_F` is
true exactly when neither `a[i]` nor `b[i]` is NaN, and lane `i` of
`VEC_CMPUNORD_F` is its negation. -/
theorem ord_unord_masks (f : Flags) (a b : List F32) (ha : a.length = width f)
    (hb : b.length = width f) :
    (selectBackend f = .ok .NEON →
      VEC_CMPORD_F f a b = .v (List.replicate (width f) 4294967295) ∧
      VEC_CMPUNORD_F f a b = .v (List.replicate (width f) 0) ∧
      ∀ i, i < width f →
        (VEC_CMPORD_F f a b).lane i = true ∧ (VEC_CMPUNORD_F f a b).lane i = false) ∧
    (selectBackend f ≠ .ok .NEON →
      ∀ i xi yi, a[i]? = some xi → b[i]? = some yi →
        (VEC_CMPORD_F f a b).lane i = (!xi.isNaN && !yi.isNaN) ∧
        (VEC_CMPUNORD_F f a b).lane i = !(VEC_CMPORD_F f a b).lane i) := by
  constructor
  · intro h
    obtain ⟨h1, h2, h3, h4⟩ := neon_branch f h
    have hord : VEC_CMPORD_F f a b = .v (List.replicate (width f) 4294967295) := by
      simp only [VEC_CMPORD_F, VEC_CMP_F, h1, h2, h3, h4, if_true, if_false,
        Bool.false_eq_true]
      exact congrArg Mask.v (zipWith_const _ a b (width f) ha hb)
    have hun : VEC_CMPUNORD_F f a b = .v (List.replicate (width f) 0) := by
      simp only [VEC_CMPUNORD_F, VEC_CMP_F, h1, h2, h3, h4, if_true, if_false,
        Bool.false_eq_true]
      exact congrArg Mask.v (zipWith_const _ a b (width f) ha hb)
    refine ⟨hord, hun, ?_⟩
    intro i hi
    rw [hord, hun]
    simp [Mask.lane, List.getElem?_replicate, hi]
  · intro h i xi yi hx hy
    have hsel : ¬ (VEC_IMPL_AVX512 f = false ∧ VEC_IMPL_AVX f = false ∧
        VEC_IMPL_SSE f = false ∧ VEC_IMPL_NEON f = true) := by
      rintro ⟨h1, h2, h3, h4⟩
      exact h (by simp [selectBackend, h1, h2, h3, h4])
    unfold VEC_CMPORD_F VEC_CMPUNORD_F
    rw [cmp_lane f .ORD a b i xi yi hx hy, cmp_lane f .UNORD a b i xi yi hx hy]
    unfold cmpLane
    cases h1 : VEC_IMPL_AVX512 f <;> cases h2 : VEC_IMPL_AVX f <;>
      cases h3 : VEC_IMPL_SSE f <;> cases h4 : VEC_IMPL_NEON f <;>
      simp [h1, h2, h3, h4, avxImm, CmpImm.eval, ssePred, scalarPred, F32.unord] at hsel ⊢

/-- Witness for C21: a NEON build with NaN in lanes 0, 2 and 3 of the
operands. -/
theorem ord_unord_masks_witness :
    VEC_CMPORD_F flagsNEON [f32NaN, f32One, f32One, f32NaN] [f32One, f32One, f32NaN, f32NaN]
      = .v (List.replicate (width flagsNEON) 4294967295) ∧
    VEC_CMPUNORD_F flagsNEON [f32NaN, f32One, f32One, f32NaN]
      [f32One, f32One, f32NaN, f32NaN] = .v (List.replicate (width flagsNEON) 0) ∧
    ∀ i, i < width flagsNEON →
      (VEC_CMPORD_F flagsNEON [f32NaN, f32One, f32One, f32NaN]
        [f32One, f32One, f32NaN, f32NaN]).lane i = true ∧
      (VEC_CMPUNORD_F flagsNEON [f32NaN, f32One, f32One, f32NaN]
        [f32One, f32One, f32NaN, f32NaN]).lane i = false :=
  (ord_unord_masks flagsNEON [f32NaN, f32One, f32One, f32NaN]
    [f32One, f32One, f32NaN, f32NaN] (by decide) (by decide)).1 rfl

/-! ## Scatter: repeated indices and the frame -/

/-- A scatter loop that runs to completion keeps the length of `base` and
every position no lane of `indices[i .. i+n)` names. -/
theorem forFrom_scatter_frame (indices : List I32) (vbuf : List F32) :
    ∀ (n i : Nat) (base base' : List F32),
      forFrom (scatterBody indices vbuf) n i base = some base' →
      base'.length = base.length ∧
      ∀ j : Nat, (∀ k, i ≤ k → k < i + n → indices[k]? ≠ some (j : Int)) →
        base'[j]? = base[j]? := by
  intro n
  induction n with
  | zero =>
    intro i base base' h
    simp only [forFrom, Option.some.injEq] at h
    subst h
    exact ⟨rfl, fun _ _ => rfl⟩
  | succ n ih =>
    intro i base base' h
    simp only [forFrom] at h
    cases hstep : scatterBody indices vbuf i base with
    | none => simp [hstep] at h
    | some b1 =>
      rw [hstep, Option.some_bind] at h
      obtain ⟨hl, hf⟩ := ih (i + 1) b1 base' h
      unfold scatterBody at hstep
      cases hidx : indices[i]? with
      | none => simp [hidx] at hstep
      | some a =>
        cases hval : vbuf[i]? with
        | none => simp [hidx, hval] at hstep
        | some x =>
          simp only [hidx, hval, Option.some_bind, writeAt] at hstep
          split_ifs at hstep with hok
          simp only [Option.some.injEq] at hstep
          subst hstep
          refine ⟨by simpa using hl, ?_⟩
          intro j hj
          rw [hf j (fun k h1 h2 => hj k (by omega) (by omega)), List.getElem?_set]
          have hne : a ≠ (j : Int) := by
            intro e
            exact hj i (Nat.le_refl _) (by omega) (by rw [hidx, e])
          have hne' : a.toNat ≠ j := by
            intro e
            apply hne
            rw [← e]
            exact (Int.toNat_of_nonneg hok.1).symm
          simp [hne']

/-- An extract-and-loop scatter that runs to completion keeps the length of
`base` and every position no lane of `idx` names. -/
theorem scatterEmulated_frame (w : Nat) (base idx' : List F32) (idx : List I32)
    (vals : List F32) (h : scatterEmulated w base idx vals = some idx') :
    idx'.length = base.length ∧
    ∀ j : Nat, (∀ k, k < w → idx[k]? ≠ some (j : Int)) → idx'[j]? = base[j]? := by
  unfold scatterEmulated storeLanes at h
  by_cases hi : idx.length = w
  · by_cases hv : vals.length = w
    · simp only [scratch, List.length_replicate, le_refl, hi, hv, and_self, if_true,
        Option.some_bind, forLoop] at h
      have e1 : List.drop w (List.replicate w (0 : I32)) = [] := by simp
      have e2 : List.drop w (List.replicate w (F32.ofBits 0)) = [] := by simp
      rw [e1, e2, List.append_nil, List.append_nil] at h
      obtain ⟨hl, hf⟩ := forFrom_scatter_frame idx vals w 0 base idx' h
      exact ⟨hl, fun j hj => hf j (fun k _ hk => hj k (by omega))⟩
    · simp [hv] at h
  · simp [hi] at h

/-- A native scatter that runs to completion keeps the length of `base` and
every position no lane of `idx` names. -/
theorem scatterNative_frame (w : Nat) (base base' : List F32) (idx : List I32)
    (vals : List F32) (h : scatterNative w base idx vals = some base') :
    base'.length = base.length ∧
    ∀ j : Nat, (∀ k, k < w → idx[k]? ≠ some (j : Int)) → base'[j]? = base[j]? := by
  unfold scatterNative at h
  split_ifs at h
  obtain ⟨hl, hf⟩ := forFrom_scatter_frame idx vals w 0 base base' h
  exact ⟨hl, fun j hj => hf j (fun k _ hk => hj k (by omega))⟩

/-- The one-lane scatter function `base[idx] = val` keeps the length of
`base` and every position other than `idx`. -/
theorem scatterScalar_frame (base base' : List F32) (idx : List I32) (vals : List F32)
    (hm : (match idx, vals with
      | [i], [x] => writeAt base i x
      | _, _ => none) = some base') :
    base'.length = base.length ∧
    ∀ j : Nat, idx[0]? ≠ some (j : Int) → base'[j]? = base[j]? := by
  split at hm
  · rename_i i x
    unfold writeAt at hm
    split_ifs at hm with hok
    simp only [Option.some.injEq] at hm
    subst hm
    refine ⟨by simp, ?_⟩
    intro j h0
    rw [List.getElem?_set]
    have hne : i.toNat ≠ j := by
      intro e
      apply h0
      rw [← e, Int.toNat_of_nonneg hok.1]
      rfl
    simp [hne]
  · cases hm

/-- C25: in every backend configuration a call `VEC_SCATTER_F(base, idx, vals)`
leaves `base` with its length and with every element `base[j]` whose position
`j` differs from all `idx[i]`, `i < WIDTH`, unchanged; and in every configuration
whose scatter branch is written for the lane count of the backend, the call
with `WIDTH` in-bounds index lanes and `WIDTH` value lanes does run to
completion. -/
theorem scatter_frame (f : Flags) (base : List F32) (idx : List I32) (vals : List F32) :
    (∀ base', VEC_SCATTER_F f base idx vals = some base' →
      base'.length = base.length ∧
      ∀ j : Nat, (∀ i, i < width f → idx[i]? ≠ some (j : Int)) → base'[j]? = base[j]?) ∧
    (gatherBranchMatches f = true → idx.length = width f → vals.length = width f →
      InBounds base.length idx → ∃ base', VEC_SCATTER_F f base idx vals = some base') := by
  constructor
  · intro base' h
    have hx := impl_exclusive f
    have hw := width_pos f
    unfold VEC_SCATTER_F at h
    unfold width at hw ⊢
    have hn : VEC_IMPL_NEON f = true → VEC_IMPL_AVX f = false := by
      unfold VEC_IMPL_NEON
      cases VEC_IMPL_AVX f <;> simp
    cases h1 : VEC_IMPL_AVX512 f <;> cases h2 : VEC_IMPL_AVX f <;>
      cases h3 : VEC_IMPL_SSE f <;> cases h4 : VEC_IMPL_NEON f <;>
      cases h6 : f.AVX2 <;>
      simp only [h1, h2, h3, h4, h6, if_true, if_false, Bool.false_eq_true, Bool.and_true,
        Bool.and_false, Bool.false_and, Bool.true_and, forall_const, true_implies,
        false_implies, and_self, and_true, and_false, reduceCtorEq] at h hx hn hw ⊢ <;>
      first
      | exact scatterEmulated_frame _ base base' idx vals h
      | exact scatterNative_frame _ base base' idx vals h
      | exact ⟨(scatterScalar_frame base base' idx vals h).1,
          fun j hj => (scatterScalar_frame base base' idx vals h).2 j (hj 0 (by decide))⟩
  · intro hcfg hi hv hb
    obtain ⟨base', hs, -⟩ := scatter_post f base idx vals hcfg hi hv hb
    exact ⟨base', hs⟩

/-- Witness for C25: an SSE build, a scatter through the indices 1, 1, 0, 1
into four elements leaves `base[2]` and `base[3]` as they were. -/
theorem scatter_frame_witness :
    ∃ base', VEC_SCATTER_F flagsSSE (List.replicate 4 f32Two) [1, 1, 0, 1]
        [f32One, f32One, f32Zero, f32NaN] = some base' ∧
      base'.length = (List.replicate 4 f32Two).length ∧
      base'[2]? = (List.replicate 4 f32Two)[2]? ∧
      base'[3]? = (List.replicate 4 f32Two)[3]? := by
  have h := scatter_frame flagsSSE (List.replicate 4 f32Two) [1, 1, 0, 1]
    [f32One, f32One, f32Zero, f32NaN]
  obtain ⟨base', hs⟩ := h.2 rfl rfl rfl (by
    intro i hi
    simp only [List.mem_cons, List.mem_singleton, List.not_mem_nil, or_false] at hi
    rcases hi with rfl | rfl | rfl | rfl <;> decide)
  have hw : width flagsSSE = 4 := by decide
  refine ⟨base', hs, (h.1 base' hs).1, (h.1 base' hs).2 2 ?_, (h.1 base' hs).2 3 ?_⟩
  · intro i hi
    rw [hw] at hi
    interval_cases i <;> decide
  · intro i hi
    rw [hw] at hi
    interval_cases i <;> decide

/-! ## The division identity -/

/-- The expansion of `VEC_MOD_F` over lists of lanes is `modExpr` lane by
lane. -/
theorem zipWith_modExpr (g : F32 → F32) (x y : List F32) :
    List.zipWith F32.sub x (List.zipWith F32.mul y ((List.zipWith F32.div x y).map g)) =
      List.zipWith (modExpr F32.sub F32.mul F32.div g) x y := by
  induction x generalizing y with
  | nil => simp
  | cons a x ih =>
    cases y with
    | nil => simp
    | cons b y =>
      simp only [List.zipWith_cons_cons, List.map_cons, List.cons.injEq]
      exact ⟨rfl, ih y⟩

/-- `VEC_MOD_F` is the expansion `modExpr` over the lane arithmetic of the
selected branch, where the floor of that branch is declared. -/
theorem VEC_MOD_F_eq_modExpr (f : Flags) (x y : List F32) :
    VEC_MOD_F f x y =
      if floorDeclared f then
        some (List.zipWith (modExpr F32.sub F32.mul F32.div (floorLane f)) x y)
      else none := by
  rw [VEC_MOD_F_eq, VEC_FLOOR_F_eq_map]
  by_cases h : floorDeclared f = true
  · rw [if_pos h, if_pos h, Option.map_some', ← zipWith_modExpr]
    rfl
  · rw [if_neg h, if_neg h]
    rfl

/-- C26: the expression that defines `VEC_MOD_F`, `a - b * floor(a / b)`,
evaluated in exact rational arithmetic is a floored modulo: for `b > 0` the
result `r` satisfies `0 <= r < b`, for `b < 0` it satisfies `b < r <= 0`, and in
both cases `a - r` is an integer multiple of `b`. -/
theorem exact_mod_floored (f : Flags) (a b : ℚ) :
    (∀ x y : List F32, VEC_MOD_F f x y =
      if floorDeclared f then
        some (List.zipWith (modExpr F32.sub F32.mul F32.div (floorLane f)) x y)
      else none) ∧
    exactMod a b = a - b * ((⌊a / b⌋ : Int) : ℚ) ∧
    (0 < b → 0 ≤ exactMod a b ∧ exactMod a b < b ∧
      ∃ k : Int, a - exactMod a b = (k : ℚ) * b) ∧
    (b < 0 → b < exactMod a b ∧ exactMod a b ≤ 0 ∧
      ∃ k : Int, a - exactMod a b = (k : ℚ) * b) := by
  have hdef : exactMod a b = a - b * ((⌊a / b⌋ : Int) : ℚ) := rfl
  have hk : ∃ k : Int, a - exactMod a b = (k : ℚ) * b := ⟨⌊a / b⌋, by rw [hdef]; ring⟩
  have h1 : ((⌊a / b⌋ : Int) : ℚ) ≤ a / b := Int.floor_le _
  have h2 : a / b < ((⌊a / b⌋ : Int) : ℚ) + 1 := Int.lt_floor_add_one _
  refine ⟨VEC_MOD_F_eq_modExpr f, hdef, ?_, ?_⟩
  · intro hb
    have ha : a = b * (a / b) := by field_simp
    have e1 : b * ((⌊a / b⌋ : Int) : ℚ) ≤ b * (a / b) := mul_le_mul_of_nonneg_left h1 hb.le
    have e2 : b * (a / b) < b * (((⌊a / b⌋ : Int) : ℚ) + 1) := mul_lt_mul_of_pos_left h2 hb
    rw [hdef]
    exact ⟨by linarith, by linarith, by rw [← hdef]; exact hk⟩
  · intro hb
    have ha : a = b * (a / b) := by
      have : b ≠ 0 := ne_of_lt hb
      field_simp
    have e1 : b * (a / b) ≤ b * ((⌊a / b⌋ : Int) : ℚ) :=
      mul_le_mul_of_nonpos_left h1 hb.le
    have e2 : b * (((⌊a / b⌋ : Int) : ℚ) + 1) < b * (a / b) :=
      mul_lt_mul_of_neg_left h2 hb
    rw [hdef]
    exact ⟨by linarith, by linarith, by rw [← hdef]; exact hk⟩

/-- Witness for C26: `-7/2` modulo `2` is `1/2`, and `7/2` modulo `-2` is
`-1/2`. -/
theorem exact_mod_floored_witness :
    (0 ≤ exactMod (-7 / 2) 2 ∧ exactMod (-7 / 2) 2 < 2 ∧
      ∃ k : Int, (-7 / 2 : ℚ) - exactMod (-7 / 2) 2 = (k : ℚ) * 2) ∧
    ((-2 : ℚ) < exactMod (7 / 2) (-2) ∧ exactMod (7 / 2) (-2) ≤ 0 ∧
      ∃ k : Int, (7 / 2 : ℚ) - exactMod (7 / 2) (-2) = (k : ℚ) * (-2)) :=
  ⟨(exact_mod_floored flagsSSE (-7 / 2) 2).2.2.1 (by norm_num),
    (exact_mod_floored flagsSSE (7 / 2) (-2)).2.2.2 (by norm_num)⟩

/-! ## Exact rounding -/

/-- The halving count brackets its argument between two powers of two. -/
theorem ilog2_spec : ∀ (fuel n : Nat), n ≤ fuel → 0 < n →
    2 ^ ilog2 fuel n ≤ n ∧ n < 2 ^ (ilog2 fuel n + 1) := by
  intro fuel
  induction fuel with
  | zero =>
    intro n h1 h2
    omega
  | succ fuel ih =>
    intro n h1 h2
    unfold ilog2
    by_cases hn : n < 2
    · rw [if_pos hn]
      simp
      omega
    · rw [if_neg hn]
      obtain ⟨e1, e2⟩ := ih (n / 2) (by omega) (by omega)
      constructor
      · rw [pow_succ]
        omega
      · rw [pow_succ]
        omega

/-- The halving count of a number between `2 ^ k` and `2 ^ (k + 1)` is `k`. -/
theorem ilog2_unique (n k : Nat) (h1 : 2 ^ k ≤ n) (h2 : n < 2 ^ (k + 1)) :
    ilog2 n n = k := by
  have hn : 0 < n := lt_of_lt_of_le (Nat.two_pow_pos k) h1
  obtain ⟨e1, e2⟩ := ilog2_spec n n (Nat.le_refl _) hn
  rcases Nat.lt_trichotomy (ilog2 n n) k with h | h | h
  · have := Nat.pow_le_pow_right (show 0 < 2 by decide) (show ilog2 n n + 1 ≤ k from h)
    omega
  · exact h
  · have := Nat.pow_le_pow_right (show 0 < 2 by decide) (show k + 1 ≤ ilog2 n n from h)
    omega

/-- Rounding is exact on a value `v` that fits the significand: with
`2 ^ L <= v < 2 ^ (L + 1)` and `q * 2 ^ L = v * 2 ^ 23`, the quotient
`v * 2 ^ j / 2 ^ j` rounds to exponent field `L + 127` and significand `q`. -/
theorem roundMag_exact (v j L q : Nat) (hL1 : 2 ^ L ≤ v) (hL2 : v < 2 ^ (L + 1))
    (hq : q * 2 ^ L = v * 2 ^ 23) (hL : L ≤ 127) :
    roundMag (v * 2 ^ j) (2 ^ j) = (L + 126) * 8388608 + q := by
  have hv : 0 < v := lt_of_lt_of_le (Nat.two_pow_pos L) hL1
  have hj : 0 < 2 ^ j := Nat.two_pow_pos j
  have hnum : ilog2 (v * 2 ^ j) (v * 2 ^ j) = L + j :=
    ilog2_unique _ _ (by rw [pow_add]; exact Nat.mul_le_mul_right _ hL1)
      (by rw [show L + j + 1 = (L + 1) + j by omega, pow_add]
          exact Nat.mul_lt_mul_of_pos_right hL2 hj)
  have hden : ilog2 (2 ^ j) (2 ^ j) = j :=
    ilog2_unique _ _ (Nat.le_refl _) (Nat.pow_lt_pow_right (by decide) (by omega))
  have hq24 : q < 16777216 := by
    have h1 : q * 2 ^ L < 16777216 * 2 ^ L := by
      rw [hq, pow_succ] at *
      nlinarith
    exact Nat.lt_of_mul_lt_mul_right h1
  unfold roundMag
  rw [if_neg (by positivity)]
  simp only [hnum, hden]
  have hk0 : ((L + j : Nat) : Int) - (j : Int) = (L : Int) := by push_cast; ring
  rw [hk0]
  have hc : ¬ (v * 2 ^ j * 2 ^ (-(L : Int)).toNat < 2 ^ j * 2 ^ ((L : Int)).toNat) := by
    rw [Int.toNat_neg_nat, Int.toNat_ofNat, pow_zero, Nat.mul_one, Nat.mul_comm (2 ^ j)]
    exact Nat.not_lt.2 (Nat.mul_le_mul_right _ hL1)
  rw [if_neg hc]
  have he : ((L : Int) - 23) ⊔ -149 = (L : Int) - 23 := max_eq_left (by omega)
  rw [he]
  have hb : ((L : Int) - 23 + 149).toNat = L + 126 := by omega
  rw [hb]
  have key : ∀ n d : Nat, 0 < d → n = q * d →
      (if 2139095040 ≤ (L + 126) * 8388608 +
            (if d < 2 * (n % d) ∨ (2 * (n % d) = d ∧ n / d % 2 = 1) then n / d + 1 else n / d)
        then 2139095040
        else (L + 126) * 8388608 +
          (if d < 2 * (n % d) ∨ (2 * (n % d) = d ∧ n / d % 2 = 1) then n / d + 1 else n / d))
      = (L + 126) * 8388608 + q := by
    intro n d hd hn
    have h1 : n % d = 0 := by rw [hn]; exact Nat.mul_mod_left _ _
    have h2 : n / d = q := by rw [hn]; exact Nat.mul_div_cancel _ hd
    have hin : ¬ (d < 2 * 0 ∨ (2 * 0 = d ∧ q % 2 = 1)) := by omega
    have hout : ¬ (2139095040 ≤ (L + 126) * 8388608 + q) := by omega
    rw [h1, h2, if_neg hin, if_neg hout]
  by_cases h23 : L ≤ 23
  · have e1 : ((L : Int) - 23).toNat = 0 := by omega
    have e2 : (-((L : Int) - 23)).toNat = 23 - L := by omega
    rw [e1, e2, pow_zero, Nat.mul_one]
    apply key _ _ hj
    have h3 : q * 2 ^ L = v * 2 ^ (23 - L) * 2 ^ L := by
      rw [hq, Nat.mul_assoc, ← pow_add, show 23 - L + L = 23 by omega]
    have h4 : q = v * 2 ^ (23 - L) := Nat.eq_of_mul_eq_mul_right (Nat.two_pow_pos L) h3
    rw [h4]
    ring
  · have e1 : ((L : Int) - 23).toNat = L - 23 := by omega
    have e2 : (-((L : Int) - 23)).toNat = 0 := by omega
    rw [e1, e2, pow_zero, Nat.mul_one]
    apply key _ _ (Nat.mul_pos hj (Nat.two_pow_pos _))
    have h3 : v * 2 ^ 23 = q * 2 ^ (L - 23) * 2 ^ 23 := by
      rw [← hq, Nat.mul_assoc, ← pow_add, show L - 23 + 23 = L by omega]
    have h4 : v = q * 2 ^ (L - 23) := Nat.eq_of_mul_eq_mul_right (Nat.two_pow_pos 23) h3
    rw [h4]
    ring

/-- The fields of a lane built from a sign and magnitude bits. -/
theorem ofMag_fields (s : Bool) (mag : Nat) (h : mag < 2147483648) :
    (F32.ofMag s mag).expField = mag / 8388608 ∧ (F32.ofMag s mag).frac = mag % 8388608 ∧
    (F32.ofMag s mag).sign = s ∧ (F32.ofMag s mag).bits.val % 2147483648 = mag := by
  have hb : (F32.ofMag s mag).bits.val = mag + if s then 2147483648 else 0 := by
    unfold F32.ofMag
    apply ofBits_val
    cases s <;> simp <;> omega
  unfold F32.expField F32.frac F32.sign
  rw [hb]
  clear hb
  cases s
  · simp only [Bool.false_eq_true, if_false, Nat.add_zero, decide_eq_false_iff_not]
    refine ⟨?_, ?_, ?_, ?_⟩ <;> first | omega | exact True.intro
  · simp only [if_true, decide_eq_true_eq]
    refine ⟨?_, ?_, ?_, ?_⟩ <;> omega

/-- The lane with exponent field `L + 127` and significand `q` is finite, with
signed significand `q` under its sign and last-place exponent `L - 23`. -/
theorem ofMag_normal (s : Bool) (L q : Nat) (hL : L ≤ 127) (hq1 : 8388608 ≤ q)
    (hq2 : q < 16777216) :
    (F32.ofMag s ((L + 126) * 8388608 + q)).isFinite = true ∧
    (F32.ofMag s ((L + 126) * 8388608 + q)).smant = (if s then -(q : Int) else (q : Int)) ∧
    (F32.ofMag s ((L + 126) * 8388608 + q)).expo = (L : Int) - 23 := by
  obtain ⟨h1, h2, h3, -⟩ := ofMag_fields s ((L + 126) * 8388608 + q) (by omega)
  have e1 : ((L + 126) * 8388608 + q) / 8388608 = L + 127 := by omega
  have e2 : ((L + 126) * 8388608 + q) % 8388608 = q - 8388608 := by omega
  rw [e1] at h1
  rw [e2] at h2
  unfold F32.isFinite F32.smant F32.expo F32.mant
  rw [h1, h2, h3]
  have hne : ¬ (L + 127 = 0) := by omega
  have hne' : ¬ (L + 127 = 255) := by omega
  rw [if_neg hne, if_neg hne]
  refine ⟨by simpa using hne', ?_, ?_⟩
  · have : ((8388608 + (q - 8388608) : Nat) : Int) = (q : Int) := by omega
    rw [this]
  · push_cast
    ring

/-- Rounding `s * 2 ^ e`, `e <= 0`, is exact when the value is an integer
`v` in magnitude that fits the significand. -/
theorem roundDyadic_exact (s e : Int) (v L q : Nat) (he : e ≤ 0)
    (hs : s.natAbs = v * 2 ^ (-e).toNat) (hL1 : 2 ^ L ≤ v) (hL2 : v < 2 ^ (L + 1))
    (hq : q * 2 ^ L = v * 2 ^ 23) (hL : L ≤ 127) :
    (roundDyadic s e).isFinite = true ∧ (roundDyadic s e).toRat = (s : ℚ) * (2 : ℚ) ^ e := by
  have hq23 : 8388608 ≤ q := by
    have h1 : 8388608 * 2 ^ L ≤ q * 2 ^ L := by
      rw [hq, Nat.mul_comm]
      exact Nat.mul_le_mul_right _ hL1
    exact Nat.le_of_mul_le_mul_right h1 (Nat.two_pow_pos L)
  have hq24 : q < 16777216 := by
    have h1 : q * 2 ^ L < 16777216 * 2 ^ L := by
      rw [hq, pow_succ] at *
      nlinarith
    exact Nat.lt_of_mul_lt_mul_right h1
  have hr : roundDyadic s e =
      F32.ofMag (decide (s < 0)) ((L + 126) * 8388608 + q) := by
    unfold roundDyadic
    rw [show e.toNat = 0 by omega, pow_zero, Nat.mul_one, hs, roundMag_exact v _ L q hL1 hL2 hq hL]
  obtain ⟨h1, h2, h3⟩ := ofMag_normal (decide (s < 0)) L q hL hq23 hq24
  rw [hr]
  refine ⟨h1, ?_⟩
  unfold F32.toRat
  rw [h2, h3]
  have hqv : (q : ℚ) * (2 : ℚ) ^ ((L : Int) - 23) = (v : ℚ) := by
    rw [zpow_sub₀ (by norm_num : (2 : ℚ) ≠ 0), zpow_natCast]
    have : (q : ℚ) * 2 ^ L = (v : ℚ) * 2 ^ 23 := by exact_mod_cast hq
    field_simp
    linarith
  have hsv : |(s : ℚ)| * (2 : ℚ) ^ e = (v : ℚ) := by
    have h4 : |(s : ℚ)| = ((s.natAbs : Nat) : ℚ) := by
      rw [Nat.cast_natAbs]
      push_cast
      rfl
    rw [h4, hs]
    push_cast
    have h5 : (2 : ℚ) ^ e = ((2 : ℚ) ^ (-e).toNat)⁻¹ := by
      rw [← zpow_natCast, Int.toNat_of_nonneg (by omega), zpow_neg, inv_inv]
    rw [h5]
    field_simp
  by_cases hneg : s < 0
  · have : |(s : ℚ)| = -(s : ℚ) := abs_of_neg (by exact_mod_cast hneg)
    rw [this] at hsv
    simp only [hneg, decide_True, if_true]
    push_cast
    rw [neg_mul, hqv, ← hsv]
    ring
  · have : |(s : ℚ)| = (s : ℚ) := abs_of_nonneg (by exact_mod_cast (not_lt.1 hneg))
    rw [this] at hsv
    simp only [hneg, decide_False, Bool.false_eq_true, if_false]
    push_cast
    rw [hqv, ← hsv]

/-- The scaled magnitude grows with the magnitude bits. -/
theorem magScaled_lt_succ (u : Nat) : magScaled u < magScaled (u + 1) := by
  unfold magScaled
  have hu : u = 8388608 * (u / 8388608) + u % 8388608 := (Nat.div_add_mod u 8388608).symm
  have hf : u % 8388608 < 8388608 := Nat.mod_lt _ (by decide)
  generalize u / 8388608 = e at hu
  generalize u % 8388608 = r at hu hf
  subst hu
  by_cases hr : r + 1 < 8388608
  · have e1 : (8388608 * e + r + 1) / 8388608 = e := by omega
    have e2 : (8388608 * e + r + 1) % 8388608 = r + 1 := by omega
    rw [e1, e2]
    apply Nat.mul_lt_mul_of_pos_right _ (Nat.two_pow_pos _)
    split_ifs <;> omega
  · have hr' : r = 8388607 := by omega
    subst hr'
    have e1 : (8388608 * e + 8388607 + 1) / 8388608 = e + 1 := by omega
    have e2 : (8388608 * e + 8388607 + 1) % 8388608 = 0 := by omega
    rw [e1, e2, if_neg (show ¬ (e + 1 = 0) by omega), Nat.add_sub_cancel]
    cases e with
    | zero => simp
    | succ e =>
      rw [if_neg (show ¬ (e + 1 = 0) by omega), Nat.add_sub_cancel, pow_succ]
      have := Nat.two_pow_pos e
      omega

/-- The scaled magnitude is strictly monotone in the magnitude bits. -/
theorem magScaled_strictMono : StrictMono magScaled :=
  strictMono_nat_of_lt_succ magScaled_lt_succ

/-- The order key and the scaled value of a lane, through its magnitude
bits. -/
theorem key_scaled (x : F32) :
    x.key = (if x.sign then -((x.bits.val % 2147483648 : Nat) : Int)
      else ((x.bits.val % 2147483648 : Nat) : Int)) ∧
    x.scaled = (if x.sign then -((magScaled (x.bits.val % 2147483648) : Nat) : Int)
      else ((magScaled (x.bits.val % 2147483648) : Nat) : Int)) := by
  refine ⟨rfl, ?_⟩
  unfold F32.scaled F32.smant F32.mant F32.expo F32.expField F32.frac magScaled
  have hlt := x.bits.isLt
  have e1 : x.bits.val % 2147483648 / 8388608 = x.bits.val / 8388608 % 256 := by omega
  have e2 : x.bits.val % 2147483648 % 8388608 = x.bits.val % 8388608 := by omega
  rw [e1, e2]
  by_cases h0 : x.bits.val / 8388608 % 256 = 0
  · simp only [h0, if_true]
    norm_num
  · simp only [h0, if_false]
    have e3 : (((x.bits.val / 8388608 % 256 : Nat) : Int) - 150 + 149).toNat
        = x.bits.val / 8388608 % 256 - 1 := by omega
    rw [e3]
    split_ifs <;> push_cast <;> ring

/-- The exact value of a lane is its scaled value times `2 ^ -149`. -/
theorem toRat_scaled (x : F32) : x.toRat = (x.scaled : ℚ) / (2 : ℚ) ^ (149 : Nat) := by
  have he : 0 ≤ x.expo + 149 := by
    unfold F32.expo
    split_ifs <;> omega
  unfold F32.toRat F32.scaled
  have h1 : (2 : ℚ) ^ x.expo = (2 : ℚ) ^ (x.expo + 149).toNat / (2 : ℚ) ^ (149 : Nat) := by
    rw [← zpow_natCast, ← zpow_natCast, Int.toNat_of_nonneg he, ← zpow_sub₀ (by norm_num)]
    congr 1
    omega
  rw [h1]
  push_cast
  ring

/-- On finite lanes the less-than compare is the order of the exact values. -/
theorem flt_iff_toRat_lt (a b : F32) (ha : a.isFinite = true) (hb : b.isFinite = true) :
    F32.flt a b = true ↔ a.toRat < b.toRat := by
  obtain ⟨hna, -⟩ := finite_not_nan_inf a ha
  obtain ⟨hnb, -⟩ := finite_not_nan_inf b hb
  obtain ⟨ka, sa⟩ := key_scaled a
  obtain ⟨kb, sb⟩ := key_scaled b
  have hval : a.toRat < b.toRat ↔ a.scaled < b.scaled := by
    rw [toRat_scaled a, toRat_scaled b, div_lt_div_iff_of_pos_right (by positivity)]
    exact_mod_cast Iff.rfl
  have hm := magScaled_strictMono
  have hlt : ∀ u v : Nat, magScaled u < magScaled v ↔ u < v := fun u v => hm.lt_iff_lt
  have h0 : ∀ u : Nat, magScaled u = 0 ↔ u = 0 := by
    intro u
    have hz : magScaled 0 = 0 := by decide
    constructor
    · intro h
      by_contra hne
      have := (hlt 0 u).2 (Nat.pos_of_ne_zero hne)
      omega
    · rintro rfl
      exact hz
  unfold F32.flt
  rw [hna, hnb, hval, ka, kb, sa, sb]
  simp only [Bool.not_false, Bool.true_and, decide_eq_true_eq]
  generalize a.bits.val % 2147483648 = u
  generalize b.bits.val % 2147483648 = v
  have h1 := hlt u v
  have h2 := hlt v u
  have h3 := h0 u
  have h4 := h0 v
  generalize magScaled u = U at h1 h2 h3 h4
  generalize magScaled v = V at h1 h2 h3 h4
  cases a.sign <;> cases b.sign <;> simp only [Bool.false_eq_true, if_true, if_false] <;> omega

/-- A positive integer below `2 ^ 24` fits the significand. -/
theorem repr_small (v : Nat) (h0 : 0 < v) (h : v < 16777216) :
    ∃ L q, 2 ^ L ≤ v ∧ v < 2 ^ (L + 1) ∧ q * 2 ^ L = v * 2 ^ 23 ∧ L ≤ 127 := by
  obtain ⟨e1, e2⟩ := ilog2_spec v v (Nat.le_refl _) h0
  have hL : ilog2 v v ≤ 23 := by
    by_contra hc
    have := Nat.pow_le_pow_right (show 0 < 2 by decide) (show 24 ≤ ilog2 v v by omega)
    omega
  refine ⟨ilog2 v v, v * 2 ^ (23 - ilog2 v v), e1, e2, ?_, by omega⟩
  rw [Nat.mul_assoc, ← pow_add, show 23 - ilog2 v v + ilog2 v v = 23 by omega]

/-- Zero of either sign is finite with value 0. -/
theorem zero_toRat (s : Bool) : (F32.zero s).isFinite = true ∧ (F32.zero s).toRat = 0 := by
  obtain ⟨h1, h2, -, -⟩ := ofMag_fields s 0 (by decide)
  unfold F32.zero F32.isFinite F32.toRat F32.smant F32.mant
  rw [h1, h2]
  simp

/-- Conversion of an integer whose magnitude fits the significand is exact. -/
theorem ofInt_exact (n : Int)
    (h : n = 0 ∨ ∃ L q, 2 ^ L ≤ n.natAbs ∧ n.natAbs < 2 ^ (L + 1) ∧
      q * 2 ^ L = n.natAbs * 2 ^ 23 ∧ L ≤ 127) :
    (F32.ofInt n).isFinite = true ∧ (F32.ofInt n).toRat = (n : ℚ) := by
  unfold F32.ofInt
  by_cases h0 : n = 0
  · rw [if_pos h0, h0]
    simpa using zero_toRat false
  · rw [if_neg h0]
    rcases h with h | ⟨L, q, h1, h2, h3, h4⟩
    · exact absurd h h0
    · obtain ⟨e1, e2⟩ := roundDyadic_exact n 0 n.natAbs L q (Int.le_refl _) (by simp) h1 h2 h3 h4
      exact ⟨e1, by simpa using e2⟩

/-- The integer a finite lane truncates to fits the significand, and is below
`2 ^ 23` in magnitude when the lane has fraction bits. -/
theorem truncInt_repr (x : F32) (hf : x.isFinite = true) :
    (x.truncInt = 0 ∨ ∃ L q, 2 ^ L ≤ x.truncInt.natAbs ∧ x.truncInt.natAbs < 2 ^ (L + 1) ∧
      q * 2 ^ L = x.truncInt.natAbs * 2 ^ 23 ∧ L ≤ 127) ∧
    (x.expo < 0 → x.truncInt.natAbs < 8388608) := by
  have hE : x.expField ≠ 255 := by simpa [F32.isFinite] using hf
  have hE2 : x.expField < 256 := by
    unfold F32.expField
    omega
  have hfr : x.frac < 8388608 := by
    unfold F32.frac
    omega
  have hm : x.smant.natAbs = x.mant := by
    unfold F32.smant
    split_ifs <;> simp
  by_cases he : 0 ≤ x.expo
  · have hnz : ¬ (x.expField = 0) := by
      intro h
      unfold F32.expo at he
      rw [if_pos h] at he
      omega
    have hE104 : x.expo.toNat ≤ 104 := by
      unfold F32.expo
      rw [if_neg hnz]
      omega
    have hmant : 8388608 ≤ x.mant ∧ x.mant < 16777216 := by
      unfold F32.mant
      rw [if_neg hnz]
      omega
    have ht : x.truncInt.natAbs = x.mant * 2 ^ x.expo.toNat := by
      unfold F32.truncInt
      rw [if_pos he, Int.natAbs_mul, hm, Int.natAbs_ofNat]
    refine ⟨Or.inr ?_, fun h => absurd he (not_le.2 h)⟩
    rw [ht]
    refine ⟨23 + x.expo.toNat, x.mant, ?_, ?_, ?_, by omega⟩
    · rw [pow_add]
      exact Nat.mul_le_mul_right _ (by norm_num; exact hmant.1)
    · rw [show 23 + x.expo.toNat + 1 = 24 + x.expo.toNat by omega, pow_add]
      exact Nat.mul_lt_mul_of_pos_right (by norm_num; exact hmant.2) (Nat.two_pow_pos _)
    · rw [pow_add]
      ring
  · have hmant : x.mant < 16777216 := by
      unfold F32.mant
      split_ifs <;> omega
    have hk : 1 ≤ (-x.expo).toNat := by omega
    have ht : x.truncInt.natAbs = x.mant / 2 ^ (-x.expo).toNat := by
      unfold F32.truncInt
      rw [if_neg he, Int.natAbs_tdiv, hm, Int.natAbs_ofNat]
      rfl
    have hlt : x.truncInt.natAbs < 8388608 := by
      rw [ht]
      have h2 : 2 ^ 1 ≤ 2 ^ (-x.expo).toNat := Nat.pow_le_pow_right (by decide) hk
      have h3 : x.mant / 2 ^ (-x.expo).toNat ≤ x.mant / 2 ^ 1 :=
        Nat.div_le_div_left h2 (by decide)
      omega
    refine ⟨?_, fun _ => hlt⟩
    by_cases h0 : x.truncInt = 0
    · exact Or.inl h0
    · exact Or.inr (repr_small _ (Int.natAbs_pos.2 h0) (by omega))

/-- Addition of finite lanes is exact when the exact sum is a non-zero
integer that fits the significand and the second operand has a last-place
exponent of at most 0. -/
theorem add_exact (a b : F32) (ha : a.isFinite = true) (hb : b.isFinite = true)
    (hbe : b.expo ≤ 0) (v L q : Nat) (hv : 0 < v) (hsum : |a.toRat + b.toRat| = (v : ℚ))
    (hL1 : 2 ^ L ≤ v) (hL2 : v < 2 ^ (L + 1)) (hq : q * 2 ^ L = v * 2 ^ 23) (hL : L ≤ 127) :
    (F32.add a b).isFinite = true ∧ (F32.add a b).toRat = a.toRat + b.toRat := by
  obtain ⟨hna, hia⟩ := finite_not_nan_inf a ha
  obtain ⟨hnb, hib⟩ := finite_not_nan_inf b hb
  have he : min a.expo b.expo ≤ 0 := le_trans (min_le_right _ _) hbe
  have hpow : ∀ (x e : Int), e ≤ x →
      (2 : ℚ) ^ x = (((2 ^ (x - e).toNat : Nat) : Int) : ℚ) * (2 : ℚ) ^ e := by
    intro x e hxe
    push_cast
    rw [← zpow_natCast, Int.toNat_of_nonneg (by omega), ← zpow_add₀ (by norm_num)]
    congr 1
    omega
  have hse : ((a.smant * ((2 ^ (a.expo - min a.expo b.expo).toNat : Nat) : Int) +
      b.smant * ((2 ^ (b.expo - min a.expo b.expo).toNat : Nat) : Int) : Int) : ℚ) *
      (2 : ℚ) ^ (min a.expo b.expo) = a.toRat + b.toRat := by
    unfold F32.toRat
    rw [hpow a.expo _ (min_le_left _ _), hpow b.expo _ (min_le_right _ _)]
    push_cast
    ring
  generalize hs : a.smant * ((2 ^ (a.expo - min a.expo b.expo).toNat : Nat) : Int) +
      b.smant * ((2 ^ (b.expo - min a.expo b.expo).toNat : Nat) : Int) = s at hse
  have hadd : F32.add a b = if s = 0 then F32.zero (a.sign && b.sign)
      else roundDyadic s (min a.expo b.expo) := by
    unfold F32.add
    simp only [hna, hnb, hia, hib, Bool.or_false, Bool.false_eq_true, if_false]
    rw [hs]
  have hs0 : s ≠ 0 := by
    rintro rfl
    rw [← hse] at hsum
    simp at hsum
    have hv' : (v : ℚ) ≠ 0 := by exact_mod_cast hv.ne'
    exact hv' hsum.symm
  rw [hadd, if_neg hs0, ← hse]
  apply roundDyadic_exact s _ v L q he _ hL1 hL2 hq hL
  have h1 : |(s : ℚ)| * (2 : ℚ) ^ (min a.expo b.expo) = (v : ℚ) := by
    rw [← hsum, ← hse, abs_mul, abs_of_pos (zpow_pos (by norm_num : (0 : ℚ) < 2) _)]
  have h2 : (2 : ℚ) ^ (min a.expo b.expo) * (2 : ℚ) ^ (-(min a.expo b.expo)).toNat = 1 := by
    rw [← zpow_natCast, Int.toNat_of_nonneg (by omega), ← zpow_add₀ (by norm_num)]
    simp
  have h3 : ((s.natAbs : Nat) : ℚ) = ((v * 2 ^ (-(min a.expo b.expo)).toNat : Nat) : ℚ) := by
    rw [Nat.cast_natAbs]
    push_cast
    rw [← h1, mul_assoc, h2, mul_one]
  exact_mod_cast h3

/-! ## The NEON floor emulation -/

/-- A lane without fraction bits is its own truncation. -/
theorem toRat_of_expo_nonneg (x : F32) (he : 0 ≤ x.expo) : x.toRat = (x.truncInt : ℚ) := by
  unfold F32.toRat F32.truncInt
  rw [if_pos he]
  push_cast
  rw [← zpow_natCast, Int.toNat_of_nonneg he]

/-- The lane `-1.0f`. -/
theorem negOne_fields :
    (F32.ofBits 0x3F800000).neg.isFinite = true ∧ (F32.ofBits 0x3F800000).neg.expo = -23 ∧
    (F32.ofBits 0x3F800000).neg.toRat = -1 := by
  have h1 : (F32.ofBits 0x3F800000).neg.isFinite = true := by decide
  have h2 : (F32.ofBits 0x3F800000).neg.expo = -23 := by decide
  have h3 : (F32.ofBits 0x3F800000).neg.smant = -8388608 := by decide
  refine ⟨h1, h2, ?_⟩
  unfold F32.toRat
  rw [h2, h3]
  norm_num

/-- The NEON floor emulation on a finite lane in the `int` range is finite
and its value is the floor of the operand. -/
theorem floorqLane_floor (x : F32) (hf : x.isFinite = true)
    (hlo : (-2147483648 : ℚ) ≤ x.toRat) (hhi : x.toRat ≤ 2147483647) :
    (floorqLane x).isFinite = true ∧ (floorqLane x).toRat = ((⌊x.toRat⌋ : Int) : ℚ) := by
  obtain ⟨hna, hia⟩ := finite_not_nan_inf x hf
  obtain ⟨r1, r2⟩ := truncInt_range x hlo hhi
  have hcv : vcvtLane x = x.truncInt := by
    unfold vcvtLane
    rw [hna, hia]
    simp only [Bool.false_eq_true, if_false]
    rw [if_neg (not_lt.2 r1), if_neg (not_lt.2 r2)]
  obtain ⟨hrep, hsmall⟩ := truncInt_repr x hf
  obtain ⟨hfin, hval⟩ := ofInt_exact x.truncInt hrep
  have hcmp := flt_iff_toRat_lt x (F32.ofInt x.truncInt) hf hfin
  rw [hval] at hcmp
  have hsel := (select_lane_canonical (laneMask (F32.flt x (F32.ofInt x.truncInt)))
    (canonical_laneMask _) (F32.ofInt x.truncInt)
    (F32.sub (F32.ofInt x.truncInt) (F32.ofBits 0x3F800000))).2.1
  have hfl : floorqLane x = if F32.flt x (F32.ofInt x.truncInt) = true
      then F32.sub (F32.ofInt x.truncInt) (F32.ofBits 0x3F800000)
      else F32.ofInt x.truncInt := by
    unfold floorqLane
    simp only [hcv]
    rw [hsel]
    cases F32.flt x (F32.ofInt x.truncInt) <;> rfl
  have ht := truncInt_eq x
  rw [hfl]
  by_cases hlt : x.toRat < (x.truncInt : ℚ)
  · rw [if_pos (hcmp.2 hlt)]
    have hneg : ¬ (0 ≤ x.toRat) := by
      intro h0
      rw [if_pos h0] at ht
      rw [ht] at hlt
      exact absurd (Int.floor_le x.toRat) (not_le.2 hlt)
    rw [if_neg hneg] at ht
    have hexp : x.expo < 0 := by
      by_contra hc
      rw [toRat_of_expo_nonneg x (not_lt.1 hc)] at hlt
      exact lt_irrefl _ hlt
    have hsm := hsmall hexp
    have htle : x.truncInt ≤ 0 := by
      rw [ht]
      exact Int.ceil_le.2 (by push_cast; linarith)
    have hfloor : ⌊x.toRat⌋ = x.truncInt - 1 := by
      rw [Int.floor_eq_iff]
      constructor
      · have := Int.ceil_lt_add_one x.toRat
        rw [ht]
        push_cast
        linarith
      · push_cast
        linarith
    obtain ⟨n1, n2, n3⟩ := negOne_fields
    have hsumv : (F32.ofInt x.truncInt).toRat + (F32.ofBits 0x3F800000).neg.toRat
        = -(((x.truncInt.natAbs + 1 : Nat) : ℚ)) := by
      rw [hval, n3]
      have : (x.truncInt : ℚ) = -((x.truncInt.natAbs : Nat) : ℚ) := by
        have h := Int.ofNat_natAbs_of_nonpos htle
        have h' : x.truncInt = -((x.truncInt.natAbs : Nat) : Int) := by omega
        exact_mod_cast h'
      rw [this]
      push_cast
      ring
    obtain ⟨L, q, p1, p2, p3, p4⟩ := repr_small (x.truncInt.natAbs + 1) (by omega) (by omega)
    obtain ⟨a1, a2⟩ := add_exact (F32.ofInt x.truncInt) (F32.ofBits 0x3F800000).neg hfin n1
      (by omega) (x.truncInt.natAbs + 1) L q (by omega)
      (by rw [hsumv, abs_neg, abs_of_nonneg (by positivity)]) p1 p2 p3 p4
    refine ⟨a1, ?_⟩
    show (F32.add (F32.ofInt x.truncInt) (F32.ofBits 0x3F800000).neg).toRat = _
    rw [a2, hval, n3, hfloor]
    push_cast
    ring
  · have hnf : ¬ (F32.flt x (F32.ofInt x.truncInt) = true) := fun h => hlt (hcmp.1 h)
    rw [if_neg hnf]
    refine ⟨hfin, ?_⟩
    rw [hval]
    have hle : (x.truncInt : ℚ) ≤ x.toRat := not_lt.1 hlt
    congr 1
    by_cases h0 : 0 ≤ x.toRat
    · rw [if_pos h0] at ht
      exact ht
    · rw [if_neg h0] at ht
      have h1 : x.toRat = ((⌈x.toRat⌉ : Int) : ℚ) :=
        le_antisymm (Int.le_ceil _) (by rw [← ht]; exact hle)
      rw [ht]
      conv_rhs => rw [h1]
      rw [Int.floor_intCast]

/-- C22: on the NEON backend `VEC_FLOOR_F` is `floorq_f32`, and for every
lane `x` that is finite and within the `int` range its result lane is finite
and holds the greatest integer not greater than `x`: the value of `x` when `x`
is an integer, the truncation of `x` when `x >= 0`, and the truncation minus 1
when `x` is a negative non-integer. -/
theorem floorq_f32_is_floor (f : Flags) (hsel : selectBackend f = .ok .NEON)
    (a : List F32) (i : Nat) (x : F32) (hx : a[i]? = some x) (hf : x.isFinite = true)
    (hlo : (-2147483648 : ℚ) ≤ x.toRat) (hhi : x.toRat ≤ 2147483647) :
    VEC_FLOOR_F f a = some (floorq_f32 a) ∧
    ∃ y, (floorq_f32 a)[i]? = some y ∧ y.isFinite = true ∧
      y.toRat = ((⌊x.toRat⌋ : Int) : ℚ) ∧
      ((∃ n : Int, x.toRat = (n : ℚ)) → y.toRat = x.toRat) ∧
      (0 ≤ x.toRat → y.toRat = (x.truncInt : ℚ)) ∧
      (x.toRat < 0 → (¬ ∃ n : Int, x.toRat = (n : ℚ)) → y.toRat = (x.truncInt : ℚ) - 1) := by
  obtain ⟨h1, h2, h3, h4⟩ := neon_branch f hsel
  have hfl : VEC_FLOOR_F f a = some (floorq_f32 a) := by
    unfold VEC_FLOOR_F
    simp only [h1, h2, h3, h4, if_true, if_false, Bool.false_eq_true]
  obtain ⟨hfin, hval⟩ := floorqLane_floor x hf hlo hhi
  have ht := truncInt_eq x
  refine ⟨hfl, floorqLane x, ?_, hfin, hval, ?_, ?_, ?_⟩
  · unfold floorq_f32
    rw [List.getElem?_map, hx]
    rfl
  · rintro ⟨n, hn⟩
    rw [hval, hn, Int.floor_intCast]
  · intro h0
    rw [if_pos h0] at ht
    rw [hval, ht]
  · intro hneg hni
    rw [if_neg (not_le.2 hneg)] at ht
    rw [hval, ht]
    have hne : ((⌊x.toRat⌋ : Int) : ℚ) ≠ x.toRat := fun h => hni ⟨_, h.symm⟩
    have hlt : ((⌊x.toRat⌋ : Int) : ℚ) < x.toRat := lt_of_le_of_ne (Int.floor_le _) hne
    have hc : ⌈x.toRat⌉ = ⌊x.toRat⌋ + 1 := by
      rw [Int.ceil_eq_iff]
      constructor
      · push_cast
        linarith
      · push_cast
        exact (Int.lt_floor_add_one _).le
    rw [hc]
    push_cast
    ring

/-- Witness for C22: a NEON build, lane 0 of `[-3.5, 3.5, 2.0, -0.0]`. -/
theorem floorq_f32_is_floor_witness :
    VEC_FLOOR_F flagsNEON [F32.ofBits 0xC0600000, F32.ofBits 0x40600000, f32Two,
        F32.ofBits 0x80000000] =
      some (floorq_f32 [F32.ofBits 0xC0600000, F32.ofBits 0x40600000, f32Two,
        F32.ofBits 0x80000000]) ∧
    ∃ y, (floorq_f32 [F32.ofBits 0xC0600000, F32.ofBits 0x40600000, f32Two,
        F32.ofBits 0x80000000])[0]? = some y ∧ y.isFinite = true ∧
      y.toRat = ((⌊(F32.ofBits 0xC0600000).toRat⌋ : Int) : ℚ) ∧
      ((∃ n : Int, (F32.ofBits 0xC0600000).toRat = (n : ℚ)) →
        y.toRat = (F32.ofBits 0xC0600000).toRat) ∧
      (0 ≤ (F32.ofBits 0xC0600000).toRat →
        y.toRat = ((F32.ofBits 0xC0600000).truncInt : ℚ)) ∧
      ((F32.ofBits 0xC0600000).toRat < 0 →
        (¬ ∃ n : Int, (F32.ofBits 0xC0600000).toRat = (n : ℚ)) →
        y.toRat = ((F32.ofBits 0xC0600000).truncInt : ℚ) - 1) :=
  have hv : (F32.ofBits 0xC0600000).toRat = -7 / 2 := by
    unfold F32.toRat
    rw [show (F32.ofBits 0xC0600000).smant = -14680064 by decide,
      show (F32.ofBits 0xC0600000).expo = -22 by decide]
    norm_num
  floorq_f32_is_floor flagsNEON rfl [F32.ofBits 0xC0600000, F32.ofBits 0x40600000, f32Two,
    F32.ofBits 0x80000000] 0 (F32.ofBits 0xC0600000) rfl (by decide)
    (by rw [hv]; norm_num) (by rw [hv]; norm_num)

/-! ## The float modulo on an SSE build without SSE4.1 -/

/-- C11, evaluated where the code departs from it: the baseline x86-64 build
(`__SSE__` without `__SSE4_1__`) selects the SSE backend, whose `VEC_FLOOR_F` is
`_mm_floor_ps`, an SSE4.1 intrinsic that the header's own include guard of lines
48-50 leaves undeclared there: `VEC_FLOOR_F` and with it `VEC_MOD_F` have no
value for any operands, where the same operands on an SSE4.1 build give
`a - b * floor(a / b)` in every lane (`7 mod 2 = 1`, `-7 mod 2 = 1`). -/
theorem mod_floor_sse_without_sse41 :
    selectBackend flagsSSE = .ok .SSE ∧ flagsSSE.SSE4_1 = false ∧
    floorDeclared flagsSSE = false ∧
    (∀ a : List F32, VEC_FLOOR_F flagsSSE a = none) ∧
    (∀ a b : List F32, VEC_MOD_F flagsSSE a b = none) ∧
    selectBackend flagsSSE41 = .ok .SSE ∧
    VEC_MOD_F flagsSSE41
        [F32.ofBits 0x40E00000, F32.ofBits 0xC0E00000, f32One, f32Two]
        [f32Two, f32Two, f32Two, f32Two] =
      some [f32One, f32One, f32One, f32Zero] := by
  refine ⟨rfl, rfl, by decide, fun a => ?_, fun a b => ?_, rfl, by decide⟩
  · rw [VEC_FLOOR_F_eq_map]
    rfl
  · rw [VEC_MOD_F_eq, VEC_FLOOR_F_eq_map]
    rfl

end Vectorize
